import Mathlib

/-! Tube-Segmentation-Framework: centerline extraction.

A shallow embedding of `tube-segmentation.cpp` (the symmetric eigen-solver, the
tube-direction estimator, `runRidgeTraversal` and `runNewCenterlineAlg`).

Conventions of the embedding.

* A C `float` is a rational number: every finite float is one.  Rounding,
  overflow, infinities and NaN are not modelled.
* `sqrt` is not a rational function, so every definition that calls it takes
  the square root as a parameter `sq : ℚ → ℚ`.  General theorems hold for every
  `sq`; concrete runs use `sqrtQ`, which is exact on squares of rationals and
  accurate to `2^-32` elsewhere.
* A C array is a total function from the index to the value; the linear index
  of a voxel is an `Int`, as in the source.
* `std::unordered_map<int, T>` is an association list with at most one entry
  per key; the iteration order of the map is the order of the list.
-/

namespace TubeSeg

/-! ## Loops -/

/-- The loop `for (i = lo; i < hi; i++) s = body i s`. -/
def forUp (lo hi : Nat) (body : Nat → σ → σ) (s : σ) : σ :=
  (List.range' lo (hi - lo)).foldl (fun acc i => body i acc) s

/-- The loop `for (i = hi; i >= lo; i--) s = body i s`, for `lo ≤ hi + 1`. -/
def forDown (hi lo : Nat) (body : Nat → σ → σ) (s : σ) : σ :=
  (List.range' lo (hi + 1 - lo)).reverse.foldl (fun acc i => body i acc) s

/-- The values `lo, lo+1, ..., hi-1` of an `int` loop variable. -/
def intRange (lo hi : Int) : List Int :=
  (List.range (hi - lo).toNat).map (fun (k : Nat) => lo + (k : Int))

/-- The loop `for (i = lo; i < hi; i++) s = body i s` over `int` indices. -/
def forInt (lo hi : Int) (body : Int → σ → σ) (s : σ) : σ :=
  (intRange lo hi).foldl (fun acc i => body i acc) s

/-! ## Symmetric eigen-solver (`tred2`, `tql2`, `eigen_decomposition`) -/

/-- The Newton iteration for the integer square root of `n`, from the guess `g`. -/
def isqrtIter (n : Nat) : Nat → Nat → Nat
  | 0, g => g
  | fuel + 1, g =>
    let next := (g + n / g) / 2
    if next < g then isqrtIter n fuel next else g

/-- The integer square root (rounded down) of `n < 2^128`. -/
def isqrt (n : Nat) : Nat := if n ≤ 1 then n else isqrtIter n 256 n

/-- The square root used by concrete runs: exact when numerator and denominator
are perfect squares, and otherwise the root rounded down to a multiple of
`2^-32`; zero on negative arguments. -/
def sqrtQ (q : ℚ) : ℚ :=
  if q < 0 then 0
  else if isqrt q.num.toNat ^ 2 = q.num.toNat ∧ isqrt q.den ^ 2 = q.den then
    ((isqrt q.num.toNat : ℕ) : ℚ) / ((isqrt q.den : ℕ) : ℚ)
  else ((isqrt ⌊q * 4 ^ 32⌋.toNat : ℕ) : ℚ) / 2 ^ 32

/-- The function `hypot2`. -/
def hypot2 (sq : ℚ → ℚ) (x y : ℚ) : ℚ := sq (x * x + y * y)

/-- The arrays `V[SIZE][SIZE]`, `d[SIZE]` and `e[SIZE]` the solver works on. -/
structure EigState where
  V : Nat → Nat → ℚ
  d : Nat → ℚ
  e : Nat → ℚ

/-- The assignment `a[i] = v`. -/
def set1 (a : Nat → ℚ) (i : Nat) (v : ℚ) : Nat → ℚ :=
  fun k => if k = i then v else a k

/-- The assignment `V[i][j] = v`. -/
def set2 (V : Nat → Nat → ℚ) (i j : Nat) (v : ℚ) : Nat → Nat → ℚ :=
  fun a b => if a = i ∧ b = j then v else V a b

/-- The constant `SIZE`. -/
def SIZE : Nat := 3

/-- The zero-scale branch of the reduction step `i` of `tred2`. -/
def tred2ZeroScale (i : Nat) (s : EigState) : EigState :=
  let s1 : EigState := { s with e := set1 s.e i (s.d (i - 1)) }
  forUp 0 i (fun j t =>
    let d1 := set1 t.d j (t.V (i - 1) j)
    let V1 := set2 t.V i j 0
    let V2 := set2 V1 j i 0
    { t with V := V2, d := d1 }) s1

/-- The Householder branch of the reduction step `i` of `tred2`; returns the
state and the final value of `h`. -/
def tred2Householder (sq : ℚ → ℚ) (i : Nat) (scale : ℚ) (s : EigState) : EigState × ℚ :=
  -- Generate Householder vector.
  let (d1, h1) := forUp 0 i (fun k (acc : (Nat → ℚ) × ℚ) =>
    let dk := acc.1 k / scale
    (set1 acc.1 k dk, acc.2 + dk * dk)) (s.d, 0)
  let f := d1 (i - 1)
  let g0 := sq h1
  let g := if f > 0 then -g0 else g0
  let e1 := set1 s.e i (scale * g)
  let h := h1 - f * g
  let d2 := set1 d1 (i - 1) (f - g)
  let e2 := forUp 0 i (fun j e => set1 e j 0) e1
  -- Apply similarity transformation to remaining columns.
  let (V3, e3) := forUp 0 i (fun j (acc : (Nat → Nat → ℚ) × (Nat → ℚ)) =>
    let f := d2 j
    let V := set2 acc.1 j i f
    let g := acc.2 j + V j j * f
    let (g', e') := forUp (j + 1) i (fun k (ge : ℚ × (Nat → ℚ)) =>
      (ge.1 + V k j * d2 k, set1 ge.2 k (ge.2 k + V k j * f))) (g, acc.2)
    (V, set1 e' j g')) (s.V, e2)
  let (e4, f4) := forUp 0 i (fun j (acc : (Nat → ℚ) × ℚ) =>
    let ej := acc.1 j / h
    (set1 acc.1 j ej, acc.2 + ej * d2 j)) (e3, 0)
  let hh := f4 / (h + h)
  let e5 := forUp 0 i (fun j e => set1 e j (e j - hh * d2 j)) e4
  let (V6, d6) := forUp 0 i (fun j (acc : (Nat → Nat → ℚ) × (Nat → ℚ)) =>
    let f := acc.2 j
    let g := e5 j
    let V := forUp j i (fun k V => set2 V k j (V k j - (f * e5 k + g * acc.2 k))) acc.1
    (set2 V i j 0, set1 acc.2 j (V (i - 1) j))) (V3, d2)
  ({ V := V6, d := d6, e := e5 }, h)

/-- One step `i` of the Householder reduction loop of `tred2`. -/
def tred2Step (sq : ℚ → ℚ) (i : Nat) (s : EigState) : EigState :=
  let scale := forUp 0 i (fun k acc => acc + |s.d k|) (0 : ℚ)
  if scale = 0 then
    let t := tred2ZeroScale i s
    { t with d := set1 t.d i 0 }
  else
    let (t, h) := tred2Householder sq i scale s
    { t with d := set1 t.d i h }

/-- One step `i` of the accumulation loop of `tred2`. -/
def tred2Accumulate (i : Nat) (s : EigState) : EigState :=
  let V1 := set2 s.V (SIZE - 1) i (s.V i i)
  let V2 := set2 V1 i i 1
  let h := s.d (i + 1)
  let (V3, d3) :=
    if h ≠ 0 then
      let d' := forUp 0 (i + 1) (fun k d => set1 d k (V2 k (i + 1) / h)) s.d
      let V' := forUp 0 (i + 1) (fun j V =>
        let g := forUp 0 (i + 1) (fun k g => g + V k (i + 1) * V k j) (0 : ℚ)
        forUp 0 (i + 1) (fun k W => set2 W k j (W k j - g * d' k)) V) V2
      (V', d')
    else (V2, s.d)
  let V4 := forUp 0 (i + 1) (fun k V => set2 V k (i + 1) 0) V3
  { s with V := V4, d := d3 }

/-- The function `tred2`: symmetric Householder reduction to tridiagonal form. -/
def tred2 (sq : ℚ → ℚ) (s : EigState) : EigState :=
  let s0 : EigState := { s with d := forUp 0 SIZE (fun j d => set1 d j (s.V (SIZE - 1) j)) s.d }
  let s1 := forDown (SIZE - 1) 1 (tred2Step sq) s0
  let s2 := forUp 0 (SIZE - 1) tred2Accumulate s1
  let s3 := forUp 0 SIZE (fun j t =>
    { t with d := set1 t.d j (t.V (SIZE - 1) j), V := set2 t.V (SIZE - 1) j 0 }) s2
  { s3 with V := set2 s3.V (SIZE - 1) (SIZE - 1) 1, e := set1 s3.e 0 0 }

/-- The constant `eps = pow(2.0f,-52.0f)` of `tql2`. -/
def eps : ℚ := 1 / 2 ^ 52

/-- The search `while (m < SIZE) { if (fabs(e[m]) <= eps*tst1) break; m++; }`,
with `n` the number of indices left below `SIZE`. -/
def findSmall (e : Nat → ℚ) (tst1 : ℚ) : Nat → Nat → Nat
  | 0, m => m
  | n + 1, m => if |e m| ≤ eps * tst1 then m else findSmall e tst1 n (m + 1)

/-- The locals of the implicit QL transformation carried around its inner loop. -/
structure QLLocals where
  c : ℚ
  c2 : ℚ
  c3 : ℚ
  s : ℚ
  s2 : ℚ
  p : ℚ

/-- The body of the do-while loop of `tql2` for the indices `l < m`; returns
the state and the updated `f`. -/
def qlBody (sq : ℚ → ℚ) (l m : Nat) (st : EigState × ℚ) : EigState × ℚ :=
  let s := st.1
  -- Compute implicit shift
  let g := s.d l
  let p := (s.d (l + 1) - g) / (2 * s.e l)
  let r0 := hypot2 sq p 1
  let r := if p < 0 then -r0 else r0
  let d1 := set1 s.d l (s.e l / (p + r))
  let d2 := set1 d1 (l + 1) (s.e l * (p + r))
  let dl1 := d2 (l + 1)
  let h := g - d2 l
  let d3 := forUp (l + 2) SIZE (fun i d => set1 d i (d i - h)) d2
  let f := st.2 + h
  -- Implicit QL transformation.
  let el1 := s.e (l + 1)
  let init : EigState × QLLocals :=
    ({ s with d := d3 }, { c := 1, c2 := 1, c3 := 1, s := 0, s2 := 0, p := d3 m })
  let (t, loc) := forDown (m - 1) l (fun i (acc : EigState × QLLocals) =>
    let t := acc.1
    let a := acc.2
    let c3 := a.c2
    let c2 := a.c
    let s2 := a.s
    let g := a.c * t.e i
    let h := a.c * a.p
    let r := hypot2 sq a.p (t.e i)
    let e1 := set1 t.e (i + 1) (a.s * r)
    let s' := t.e i / r
    let c' := a.p / r
    let p' := c' * t.d i - s' * g
    let d1 := set1 t.d (i + 1) (h + s' * (c' * g + s' * t.d i))
    -- Accumulate transformation.
    let V1 := forUp 0 SIZE (fun k V =>
      let h := V k (i + 1)
      let W := set2 V k (i + 1) (s' * V k i + c' * h)
      set2 W k i (c' * W k i - s' * h)) t.V
    ({ V := V1, d := d1, e := e1 }, { c := c', c2 := c2, c3 := c3, s := s', s2 := s2, p := p' }))
    init
  let p' := -loc.s * loc.s2 * loc.c3 * el1 * t.e l / dl1
  ({ t with e := set1 t.e l (loc.s * p'), d := set1 t.d l (loc.c * p') }, f)

/-- The do-while loop of `tql2`, which has no iteration cap in the source:
`none` when `fuel` iterations did not reach convergence. -/
def qlLoop (sq : ℚ → ℚ) (l m : Nat) (tst1 : ℚ) : Nat → EigState × ℚ → Option (EigState × ℚ)
  | 0, _ => none
  | fuel + 1, st =>
    let st' := qlBody sq l m st
    if |st'.1.e l| > eps * tst1 then qlLoop sq l m tst1 fuel st' else some st'

/-- The state of the outer loop of `tql2`: arrays, `f` and `tst1`. -/
structure QLOuter where
  s : EigState
  f : ℚ
  tst1 : ℚ

/-- One iteration `l` of the outer loop of `tql2`. -/
def qlOuterStep (sq : ℚ → ℚ) (fuel : Nat) (l : Nat) (o : QLOuter) : Option QLOuter :=
  let tst1 := max o.tst1 (|o.s.d l| + |o.s.e l|)
  let m := findSmall o.s.e tst1 (SIZE - l) l
  let r : Option (EigState × ℚ) :=
    if m > l then qlLoop sq l m tst1 fuel (o.s, o.f) else some (o.s, o.f)
  r.map (fun st =>
    { s := { st.1 with d := set1 st.1.d l (st.1.d l + st.2), e := set1 st.1.e l 0 },
      f := st.2, tst1 := tst1 })

/-- The QL iteration of `tql2`, up to the final sort. -/
def tql2Iterate (sq : ℚ → ℚ) (fuel : Nat) (s : EigState) : Option EigState :=
  let e1 := forUp 1 SIZE (fun i e => set1 e (i - 1) (e i)) s.e
  let e2 := set1 e1 (SIZE - 1) 0
  let o0 : QLOuter := { s := { s with e := e2 }, f := 0, tst1 := 0 }
  ((List.range SIZE).foldl (fun (acc : Option QLOuter) l => acc.bind (qlOuterStep sq fuel l))
    (some o0)).map (fun o => o.s)

/-- One iteration `i` of the final selection sort of `tql2`. -/
def tql2SortStep (i : Nat) (s : EigState) : EigState :=
  let (k, p) := forUp (i + 1) SIZE (fun j (kp : Nat × ℚ) =>
    if |s.d j| < |kp.2| then (j, s.d j) else kp) (i, s.d i)
  if k ≠ i then
    let d1 := set1 s.d k (s.d i)
    let d2 := set1 d1 i p
    let V' := forUp 0 SIZE (fun j V =>
      let p := V j i
      let W := set2 V j i (V j k)
      set2 W j k p) s.V
    { s with V := V', d := d2 }
  else s

/-- The final selection sort of `tql2`. -/
def tql2Sort (s : EigState) : EigState :=
  forUp 0 (SIZE - 1) tql2SortStep s

/-- The function `tql2`: symmetric tridiagonal QL algorithm. -/
def tql2 (sq : ℚ → ℚ) (fuel : Nat) (s : EigState) : Option EigState :=
  (tql2Iterate sq fuel s).map tql2Sort

/-- The function `eigen_decomposition`: returns `(V, d)`.  The array `e` is a
local of the source and starts out uninitialised; it is written before it is
read, and starts as zero here. -/
def eigen_decomposition (sq : ℚ → ℚ) (fuel : Nat) (A : Nat → Nat → ℚ) :
    Option ((Nat → Nat → ℚ) × (Nat → ℚ)) :=
  let s0 : EigState := { V := fun i j => A i j, d := fun _ => 0, e := fun _ => 0 }
  (tql2 sq fuel (tred2 sq s0)).map (fun s => (s.V, s.d))

/-! ## Geometry primitives and the field bundle -/

/-- The type `SIPL::int3`. -/
structure Int3 where
  x : Int
  y : Int
  z : Int
  deriving DecidableEq, Repr

/-- The type `SIPL::float3`. -/
structure Float3 where
  x : ℚ
  y : ℚ
  z : ℚ
  deriving DecidableEq

/-- The field bundle `TubeSegmentation`: the arrays `Fx`, `Fy`, `Fz`, `TDF`
and `radius`, indexed by linear position. -/
structure TubeSegmentation where
  Fx : Int → ℚ
  Fy : Int → ℚ
  Fz : Int → ℚ
  TDF : Int → ℚ
  radius : Int → ℚ

/-- The macro `POS(pos)`: `pos.x+pos.y*size.x+pos.z*size.x*size.y`. -/
def POS (size pos : Int3) : Int := pos.x + pos.y * size.x + pos.z * size.x * size.y

/-- The macro `LPOS(a,b,c)`: `(a)+(b)*(size.x)+(c)*(size.x*size.y)`. -/
def LPOS (size : Int3) (a b c : Int) : Int := a + b * size.x + c * (size.x * size.y)

/-- The array assignment `arr[i] = v` on a volume. -/
def setAt {α : Type} (arr : Int → α) (i : Int) (v : α) : Int → α :=
  fun k => if k = i then v else arr k

/-- The function `dot`. -/
def dot (a b : Float3) : ℚ := a.x * b.x + a.y * b.y + a.z * b.z

/-- The function `normalize` on a `float3`. -/
def normalize (sq : ℚ → ℚ) (a : Float3) : Float3 :=
  let sqrMag := sq (a.x * a.x + a.y * a.y + a.z * a.z)
  { x := a.x / sqrMag, y := a.y / sqrMag, z := a.z / sqrMag }

/-- The function `sign`. -/
def sign (a : ℚ) : ℚ := if a < 0 then -1 else 1

/-- The square root `sqrt(pow(Fx[i],2)+pow(Fy[i],2)+pow(Fz[i],2))` that the macros
`M` and `SQR_MAG` share. -/
def fieldMag (sq : ℚ → ℚ) (T : TubeSegmentation) (i : Int) : ℚ :=
  sq (T.Fx i ^ 2 + T.Fy i ^ 2 + T.Fz i ^ 2)

/-! ## Tube-direction estimator (`gradient`, `getTubeDirection`, `doEigen`) -/

/-- The quotient `F[POS(npos)]/sqrt(Fx*Fx+Fy*Fy+Fz*Fz)` of `gradient`, for
the selected component `F`. -/
def normalizedComponent (sq : ℚ → ℚ) (T : TubeSegmentation) (F : Int → ℚ) (i : Int) : ℚ :=
  F i / sq (T.Fx i * T.Fx i + T.Fy i * T.Fy i + T.Fz i * T.Fz i)

/-- The function `gradient`.  The six samples are uninitialised locals in
the source; those that `volumeComponent` and `dimensions` leave unset are zero
here (the callers never read the components computed from them). -/
def gradient (sq : ℚ → ℚ) (T : TubeSegmentation) (pos : Int3) (volumeComponent dimensions : Int)
    (size : Int3) : Float3 :=
  let sample : Option (Int → ℚ) :=
    if volumeComponent = 0 then some T.Fx
    else if volumeComponent = 1 then some T.Fy
    else if volumeComponent = 2 then some T.Fz
    else none
  match sample with
  | none => { x := (1 / 2) * (0 - 0), y := (1 / 2) * (0 - 0), z := (1 / 2) * (0 - 0) }
  | some F =>
    let at3 : Int3 → ℚ := fun npos => normalizedComponent sq T F (POS size npos)
    let f100 := at3 { pos with x := pos.x + 1 }
    let f_100 := at3 { pos with x := pos.x + 1 - 2 }
    let f010 := if dimensions > 1 then at3 { pos with y := pos.y + 1 } else 0
    let f0_10 := if dimensions > 1 then at3 { pos with y := pos.y + 1 - 2 } else 0
    let f001 := if dimensions > 2 then at3 { pos with z := pos.z + 1 } else 0
    let f00_1 := if dimensions > 2 then at3 { pos with z := pos.z + 1 - 2 } else 0
    { x := (1 / 2) * (f100 - f_100), y := (1 / 2) * (f010 - f0_10), z := (1 / 2) * (f001 - f00_1) }

/-- The matrix `Hessian` that `getTubeDirection` and `doEigen` both build. -/
def hessian (sq : ℚ → ℚ) (T : TubeSegmentation) (pos size : Int3) : Nat → Nat → ℚ :=
  let Fx := gradient sq T pos 0 1 size
  let Fy := gradient sq T pos 1 2 size
  let Fz := gradient sq T pos 2 3 size
  fun i j =>
    match i, j with
    | 0, 0 => Fx.x | 0, 1 => Fy.x | 0, 2 => Fz.x
    | 1, 0 => Fy.x | 1, 1 => Fy.y | 1, 2 => Fz.y
    | 2, 0 => Fz.x | 2, 1 => Fz.y | 2, 2 => Fz.z
    | _, _ => 0

/-- The function `getTubeDirection`; `none` when the eigen-solver does not
return within `fuel` iterations. -/
def getTubeDirection (sq : ℚ → ℚ) (fuel : Nat) (T : TubeSegmentation) (pos size : Int3) :
    Option Float3 :=
  (eigen_decomposition sq fuel (hessian sq T pos size)).map (fun r =>
    let eigenVectors := r.1
    { x := eigenVectors 0 0, y := eigenVectors 1 0, z := eigenVectors 2 0 })

/-- The outputs `lambda`, `e1`, `e2`, `e3` of `doEigen`. -/
structure EigenFrame where
  lambda : Float3
  e1 : Float3
  e2 : Float3
  e3 : Float3

/-- The function `doEigen`; `none` when the eigen-solver does not return
within `fuel` iterations. -/
def doEigen (sq : ℚ → ℚ) (fuel : Nat) (T : TubeSegmentation) (pos size : Int3) :
    Option EigenFrame :=
  (eigen_decomposition sq fuel (hessian sq T pos size)).map (fun r =>
    let eigenVectors := r.1
    let eigenValues := r.2
    { e1 := { x := eigenVectors 0 0, y := eigenVectors 1 0, z := eigenVectors 2 0 },
      e2 := { x := eigenVectors 0 1, y := eigenVectors 1 1, z := eigenVectors 2 1 },
      e3 := { x := eigenVectors 0 2, y := eigenVectors 1 2, z := eigenVectors 2 2 },
      lambda := { x := eigenValues 0, y := eigenValues 1, z := eigenValues 2 } })

/-! ## Ridge traversal (`runRidgeTraversal`): parameters and containers -/

/-- The local `Thigh = 0.6`. -/
def Thigh : ℚ := 6 / 10
/-- The local `Dmin = 5`. -/
def Dmin : Int := 5
/-- The local `Mlow = 0.2f`. -/
def Mlow : ℚ := 2 / 10
/-- The local `Tlow = 0.4f`. -/
def Tlow : ℚ := 4 / 10
/-- The local `maxBelowTlow = 2`. -/
def maxBelowTlow : Int := 2
/-- The local `minMeanTube = 0.6f`. -/
def minMeanTube : ℚ := 6 / 10
/-- The local `TreeMin = 10`. -/
def TreeMin : Int := 10

/-- The local `totalSize = size.x*size.y*size.z`. -/
def totalSize (size : Int3) : Int := size.x * size.y * size.z

/-- The struct `point`: a seed with its TDF value. -/
structure point where
  value : ℚ
  x : Int
  y : Int
  z : Int
  deriving DecidableEq

/-- The struct `CenterlinePoint`.  The pointer `next` is kept as the position of
the point it refers to (the top of the path stack when the point was made);
`none` where the source leaves it uninitialised. -/
structure CenterlinePoint where
  pos : Int3
  large : Bool
  next : Option Int3
  deriving DecidableEq

/-- A `std::unordered_map<int, α>`: at most one entry per key. -/
abbrev IntMap (α : Type) := List (Int × α)

/-- The keys of a map, in iteration order. -/
def IntMap.keys {α : Type} (m : IntMap α) : List Int := m.map Prod.fst

/-- The lookup of a key. -/
def IntMap.find? {α : Type} (m : IntMap α) (k : Int) : Option α :=
  (List.find? (fun en => decide (en.1 = k)) m).map Prod.snd

/-- The call `m.erase(k)`. -/
def IntMap.erase {α : Type} (m : IntMap α) (k : Int) : IntMap α :=
  List.filter (fun en => decide (¬ en.1 = k)) m

/-- The insertion that `m[k]` performs when `k` is not a key: a
value-initialised entry is added. -/
def IntMap.touch {α : Type} (m : IntMap α) (k : Int) (dflt : α) : IntMap α :=
  if k ∈ m.keys then m else m ++ [(k, dflt)]

/-- The value `m[k]` reads (after `touch`). -/
def IntMap.get {α : Type} (m : IntMap α) (k : Int) (dflt : α) : α :=
  (IntMap.find? m k).getD dflt

/-- The assignment `m[k] = v`. -/
def IntMap.set {α : Type} (m : IntMap α) (k : Int) (v : α) : IntMap α :=
  if k ∈ m.keys then List.map (fun en => if en.1 = k then (k, v) else en) m else m ++ [(k, v)]

/-- The state that the seed loop of `runRidgeTraversal` carries: the label
volume `centerlines`, `counter`, and the two maps. -/
structure RidgeState where
  centerlines : Int → Int
  counter : Int
  centerlineDistances : IntMap Int
  centerlineStacks : IntMap (List CenterlinePoint)

/-! ## Ridge traversal: seed collection -/

/-- The innermost loop of the seed test, with its `break`: the pair is
`(valid, left the loop)`. -/
def seedScanC (T : TubeSegmentation) (size : Int3) (x y z a b : Int) (valid : Bool) : Bool :=
  (forInt (-2) 2 (fun c (st : Bool × Bool) =>
    if st.2 then st
    else if T.TDF (POS size { x := x + a, y := y + b, z := z + c }) >
        T.TDF (POS size { x := x, y := y, z := z }) then (false, true)
    else st) (valid, false)).1

/-- The flag `valid` after the three loops over the neighbourhood of `(x,y,z)`. -/
def seedValid (T : TubeSegmentation) (size : Int3) (x y z : Int) : Bool :=
  forInt (-2) 2 (fun a valid =>
    forInt (-2) 2 (fun b valid => seedScanC T size x y z a b valid) valid) true

/-- The body of the scan loop at `(x,y,z)`: the seeds pushed so far, with the
new one in front. -/
def seedVisit (T : TubeSegmentation) (size : Int3) (x y z : Int) (queue : List point) :
    List point :=
  if T.TDF (LPOS size x y z) < Thigh then queue
  else if seedValid T size x y z then
    { value := T.TDF (LPOS size x y z), x := x, y := y, z := z } :: queue
  else queue

/-- The seed collection loops: every point pushed into the queue, the last one
pushed first (the scan is sequential here). -/
def collectSeeds (T : TubeSegmentation) (size : Int3) : List point :=
  forInt 2 (size.z - 2) (fun z q =>
    forInt 2 (size.y - 2) (fun y q =>
      forInt 2 (size.x - 2) (fun x q => seedVisit T size x y z q) q) q) []

/-- The order in which `queue.top()`/`queue.pop()` deliver the seeds: by
descending `value` (`PointComparison`); among equal values the point pushed
first comes first (the source leaves that order to the heap). -/
def popOrder (pushed : List point) : List point :=
  pushed.reverse.mergeSort (fun p q => decide (q.value ≤ p.value))

/-! ## Ridge traversal: the walk from one seed -/

/-- The locals of one seed iteration that both directions share. -/
structure Traversal where
  newCenterlines : Int → Int
  distance : Int
  connections : Int
  prevConnection : Int
  secondConnection : Int
  meanTube : ℚ
  stack : List CenterlinePoint

/-- The locals of one direction of the walk. -/
structure Walker where
  belowTlow : Int
  position : Int3
  t_i : Float3
  t_i_1 : Float3

/-- Which `break` ended the `while(true)` loop of a direction. -/
inductive Exit where
  | outOfBounds
  | hit (label : Int)
  | belowThreshold
  | loop
  | noPoint
  deriving DecidableEq

/-- The outcome of one pass through the body of the `while(true)` loop. -/
inductive StepResult where
  | next (tr : Traversal) (w : Walker)
  | stop (tr : Traversal) (ex : Exit)

/-- The body of the neighbour loops for the offset `(a,b,c)`: the new value of
`maxPoint`.  The macro `M(a,b,c)` expands to `1-sqrt(...)` without
parentheses, so `T.TDF[..]*M(..)` is `T.TDF[..]*1-sqrt(...)`. -/
def scanVisit (sq : ℚ → ℚ) (T : TubeSegmentation) (size position : Int3) (t_i : Float3)
    (a b c : Int) (maxPoint : Int3) : Int3 :=
  let n : Int3 := { x := position.x + a, y := position.y + b, z := position.z + c }
  if (a = 0 ∧ b = 0 ∧ c = 0) ∨ T.TDF (POS size n) = 0 then maxPoint
  else
    let dir := normalize sq { x := ((n.x - position.x : Int) : ℚ),
                              y := ((n.y - position.y : Int) : ℚ),
                              z := ((n.z - position.z : Int) : ℚ) }
    if dir.x * t_i.x + dir.y * t_i.y + dir.z * t_i.z ≤ 1 / 10 then maxPoint
    else if T.radius (POS size n) ≥ 15 / 10 then
      if 1 - fieldMag sq T (POS size n) > 1 - fieldMag sq T (POS size maxPoint) then n
      else maxPoint
    else
      if T.TDF (LPOS size n.x n.y n.z) * 1 - fieldMag sq T (POS size n) >
          T.TDF (POS size maxPoint) * 1 - fieldMag sq T (POS size maxPoint) then n
      else maxPoint

/-- The three neighbour loops: the final `maxPoint`, starting from `{0,0,0}`. -/
def scanNeighbors (sq : ℚ → ℚ) (T : TubeSegmentation) (size position : Int3) (t_i : Float3) :
    Int3 :=
  forInt (-1) 2 (fun a mp =>
    forInt (-1) 2 (fun b mp =>
      forInt (-1) 2 (fun c mp => scanVisit sq T size position t_i a b c mp) mp) mp)
    { x := 0, y := 0, z := 0 }

/-- The eigenvector the direction update uses: `e1`, replaced by the better
aligned of `e2`, `e3` when all three eigenvalues are negative. -/
def pickE1 (fr : EigenFrame) (t_i : Float3) : Float3 :=
  if fr.lambda.x < 0 ∧ fr.lambda.y < 0 ∧ fr.lambda.z < 0 then
    if |dot t_i fr.e3| > |dot t_i fr.e2| then
      if |dot t_i fr.e3| > |dot t_i fr.e1| then fr.e3 else fr.e1
    else if |dot t_i fr.e2| > |dot t_i fr.e1| then fr.e2
    else fr.e1
  else fr.e1

/-- The branch "Point is OK, proceed to add it and continue". -/
def acceptPoint (sq : ℚ → ℚ) (T : TubeSegmentation) (size : Int3) (tr : Traversal) (w : Walker)
    (maxPoint : Int3) (fr : EigenFrame) : StepResult :=
  let i := LPOS size maxPoint.x maxPoint.y maxPoint.z
  let belowTlow := if T.TDF i < Tlow then w.belowTlow + 1 else 0
  let e1 := pickE1 fr w.t_i
  let maintain_dir := sign (dot e1 w.t_i)
  let vec_sum := normalize sq
    { x := maintain_dir * e1.x + w.t_i.x + w.t_i_1.x,
      y := maintain_dir * e1.y + w.t_i.y + w.t_i_1.y,
      z := maintain_dir * e1.z + w.t_i.z + w.t_i_1.z }
  let p : CenterlinePoint :=
    { pos := maxPoint,
      next := tr.stack.head?.map (fun q => q.pos),
      large := decide (T.radius (POS size maxPoint) > 3) }
  StepResult.next
    { tr with
      distance := tr.distance + 1,
      newCenterlines := setAt tr.newCenterlines i 1,
      meanTube := tr.meanTube + T.TDF i,
      stack := p :: tr.stack }
    { belowTlow := belowTlow, position := maxPoint, t_i := vec_sum, t_i_1 := w.t_i }

/-- The branch "Hit an existing centerline", for the label found on `maxPoint`. -/
def recordHit (tr : Traversal) (label : Int) : Traversal :=
  if tr.prevConnection = -1 then { tr with prevConnection := label }
  else if tr.prevConnection = label then
    -- A loop has occured, reject this centerline
    { tr with connections := 5 }
  else { tr with secondConnection := label }

/-- The body of the `while(true)` loop of one direction; `none` when `doEigen`
does not return. -/
def traverseStep (sq : ℚ → ℚ) (fuelE : Nat) (T : TubeSegmentation) (size : Int3)
    (centerlines : Int → Int) (tr : Traversal) (w : Walker) : Option StepResult :=
  let position := w.position
  -- Check for out of bounds
  if position.x < 3 ∨ position.x > size.x - 3 ∨ position.y < 3 ∨ position.y > size.y - 3 ∨
      position.z < 3 ∨ position.z > size.z - 3 then
    some (StepResult.stop tr Exit.outOfBounds)
  else
    let maxPoint := scanNeighbors sq T size position w.t_i
    if maxPoint.x + maxPoint.y + maxPoint.z > 0 then
      let i := LPOS size maxPoint.x maxPoint.y maxPoint.z
      if centerlines i > 0 then
        some (StepResult.stop (recordHit tr (centerlines i)) (Exit.hit (centerlines i)))
      else if 1 - fieldMag sq T (POS size maxPoint) < Mlow ∨
          (w.belowTlow > maxBelowTlow ∧ T.TDF i < Tlow) then
        some (StepResult.stop tr Exit.belowThreshold)
      else if tr.newCenterlines i = 1 then
        some (StepResult.stop tr Exit.loop)
      else
        (doEigen sq fuelE T maxPoint size).map (acceptPoint sq T size tr w maxPoint)
    else
      some (StepResult.stop tr Exit.noPoint)

/-- The `while(true)` loop of one direction: `none` when `fuelT` passes through
the body did not reach a `break`, or when the eigen-solver did not return. -/
def traverseLoop (sq : ℚ → ℚ) (fuelE : Nat) (T : TubeSegmentation) (size : Int3)
    (centerlines : Int → Int) : Nat → Traversal → Walker → Option (Traversal × Exit)
  | 0, _, _ => none
  | fuelT + 1, tr, w =>
    match traverseStep sq fuelE T size centerlines tr w with
    | none => none
    | some (StepResult.stop tr1 ex) => some (tr1, ex)
    | some (StepResult.next tr1 w1) => traverseLoop sq fuelE T size centerlines fuelT tr1 w1

/-- One iteration of the loop "For each direction". -/
def traverseDirection (sq : ℚ → ℚ) (fuelE fuelT : Nat) (T : TubeSegmentation) (size : Int3)
    (centerlines : Int → Int) (p : point) (direction : Int) (tr : Traversal) :
    Option (Traversal × Exit) :=
  let position : Int3 := { x := p.x, y := p.y, z := p.z }
  (getTubeDirection sq fuelE T position size).bind (fun e =>
    let t_i : Float3 :=
      { x := e.x * (direction : ℚ), y := e.y * (direction : ℚ), z := e.z * (direction : ℚ) }
    traverseLoop sq fuelE T size centerlines fuelT tr
      { belowTlow := 0, position := position, t_i := t_i, t_i_1 := t_i })

/-- The locals of a seed iteration before the first direction.  The field
`large` of the start point is uninitialised in the source: `false` here. -/
def startTraversal (T : TubeSegmentation) (size : Int3) (p : point) : Traversal :=
  { newCenterlines := setAt (fun _ => 0) (LPOS size p.x p.y p.z) 1,
    distance := 1,
    connections := 0,
    prevConnection := -1,
    secondConnection := -1,
    meanTube := T.TDF (LPOS size p.x p.y p.z),
    stack := [{ pos := { x := p.x, y := p.y, z := p.z }, large := false, next := none }] }

/-- The walk from the seed `p` in the directions `-1` and `1`: the locals at
the end, and how each direction ended. -/
def traverseSeed (sq : ℚ → ℚ) (fuelE fuelT : Nat) (T : TubeSegmentation) (size : Int3)
    (centerlines : Int → Int) (p : point) : Option (Traversal × Exit × Exit) :=
  (traverseDirection sq fuelE fuelT T size centerlines p (-1) (startTraversal T size p)).bind
    (fun r1 =>
      (traverseDirection sq fuelE fuelT T size centerlines p 1 r1.1).map
        (fun r2 => (r2.1, r1.2, r2.2)))

/-! ## Ridge traversal: acceptance, merging and the final mask -/

/-- The loop `for i < totalSize: if (newCenterlines[i] > 0) centerlines[i] = label`. -/
def relabelPath (size : Int3) (newCenterlines : Int → Int) (label : Int)
    (centerlines : Int → Int) : Int → Int :=
  fun i => if 0 ≤ i ∧ i < totalSize size ∧ newCenterlines i > 0 then label else centerlines i

/-- The loop `for i < totalSize: if (centerlines[i] == old) centerlines[i] = label`. -/
def relabelTree (size : Int3) (old label : Int) (centerlines : Int → Int) : Int → Int :=
  fun i => if 0 ≤ i ∧ i < totalSize size ∧ centerlines i = old then label else centerlines i

/-- The loop `while(!src.empty()) { dst.push(src.top()); src.pop(); }`; the
head of a list is the top of the stack. -/
def pushAll {α : Type} : List α → List α → List α
  | [], dst => dst
  | top :: rest, dst => pushAll rest (top :: dst)

/-- The test `distance > Dmin && meanTube/distance > minMeanTube && connections < 2`. -/
def acceptTest (tr : Traversal) : Prop :=
  tr.distance > Dmin ∧ tr.meanTube / (tr.distance : ℚ) > minMeanTube ∧ tr.connections < 2

instance (tr : Traversal) : Decidable (acceptTest tr) := by
  unfold acceptTest; infer_instance

/-- The block "Check to see if new traversal can be added". -/
def acceptPath (size : Int3) (st : RidgeState) (tr : Traversal) : RidgeState :=
  if acceptTest tr then
    if tr.prevConnection = -1 then
      -- No connections
      { centerlines := relabelPath size tr.newCenterlines st.counter st.centerlines,
        centerlineDistances := st.centerlineDistances.set st.counter tr.distance,
        centerlineStacks := st.centerlineStacks.set st.counter tr.stack,
        counter := st.counter + 1 }
    else
      -- The first connection
      let prevConnection := tr.prevConnection
      let stacks1 := st.centerlineStacks.touch prevConnection []
      let prevConnectionStack := pushAll tr.stack (stacks1.get prevConnection [])
      let centerlines1 := relabelPath size tr.newCenterlines prevConnection st.centerlines
      let distances0 := st.centerlineDistances.touch prevConnection 0
      let distances1 := distances0.set prevConnection (distances0.get prevConnection 0 + tr.distance)
      if tr.secondConnection ≠ -1 then
        -- Two connections, move secondConnection to prevConnection
        let secondConnection := tr.secondConnection
        let stacks2 := stacks1.touch secondConnection []
        let secondConnectionStack := stacks2.get secondConnection []
        let stacks3 := stacks2.erase secondConnection
        let prevConnectionStack2 := pushAll secondConnectionStack prevConnectionStack
        let centerlines2 := relabelTree size secondConnection prevConnection centerlines1
        let distances2 := (distances1.touch secondConnection 0).touch prevConnection 0
        let distances3 := distances2.set prevConnection
          (distances2.get prevConnection 0 + distances2.get secondConnection 0)
        { centerlines := centerlines2,
          centerlineDistances := distances3.erase secondConnection,
          centerlineStacks := stacks3.set prevConnection prevConnectionStack2,
          counter := st.counter }
      else
        { centerlines := centerlines1,
          centerlineDistances := distances1,
          centerlineStacks := stacks1.set prevConnection prevConnectionStack,
          counter := st.counter }
  else st

/-- One iteration of the loop `while(!queue.empty())` for the popped seed `p`. -/
def seedIteration (sq : ℚ → ℚ) (fuelE fuelT : Nat) (T : TubeSegmentation) (size : Int3)
    (st : RidgeState) (p : point) : Option RidgeState :=
  -- Has it been handled before?
  if st.centerlines (LPOS size p.x p.y p.z) = 1 then some st
  else
    (traverseSeed sq fuelE fuelT T size st.centerlines p).map (fun r => acceptPath size st r.1)

/-- The loop `while(!queue.empty())` over the seeds in pop order. -/
def ridgeLoop (sq : ℚ → ℚ) (fuelE fuelT : Nat) (T : TubeSegmentation) (size : Int3) :
    List point → RidgeState → Option RidgeState
  | [], st => some st
  | p :: rest, st =>
    (seedIteration sq fuelE fuelT T size st p).bind (ridgeLoop sq fuelE fuelT T size rest)

/-- The body of the loop over `centerlineDistances` for the entry `it`: the
new values of `max` and `trees`. -/
def selectStep (distances : IntMap Int) (acc : Int × List Int) (it : Int × Int) :
    Int × List Int :=
  (if it.2 > distances.get acc.1 0 then it.1 else acc.1,
   if it.2 > TreeMin then acc.2 ++ [it.1] else acc.2)

/-- The loop over `centerlineDistances` that finds `max` and collects `trees`. -/
def selectTrees (distances : IntMap Int) (first : Int) : Int × List Int :=
  distances.foldl (selectStep distances) (first, [])

/-- The end of `runRidgeTraversal`: the array `returnCenterlines`.  (The
copies into the by-value parameter `centerlineStack` do not reach the
result and are left out.) -/
def finalMask (size : Int3) (st : RidgeState) : Int → Int :=
  match st.centerlineDistances with
  | [] => fun _ => 0
  | first :: _ =>
    let sel := selectTrees st.centerlineDistances first.1
    fun i =>
      if 0 ≤ i ∧ i < totalSize size then
        if st.centerlines i = sel.1 then 1
        else if st.centerlines i ∈ sel.2 then 1
        else 0
      else 0

/-- The writes `T.TDF[0] = 0; T.Fx[0] = 1; T.Fy[0] = 0; T.Fz[0] = 0`. -/
def writeSentinel (T : TubeSegmentation) : TubeSegmentation :=
  { T with TDF := setAt T.TDF 0 0, Fx := setAt T.Fx 0 1, Fy := setAt T.Fy 0 0,
           Fz := setAt T.Fz 0 0 }

/-- The state before the first seed is popped. -/
def initialRidgeState : RidgeState :=
  { centerlines := fun _ => 0, counter := 1, centerlineDistances := [], centerlineStacks := [] }

/-- The function `runRidgeTraversal`: the returned mask together with the
field bundle as the call leaves it; `none` when a loop without a cap did
not end within its fuel. -/
def runRidgeTraversal (sq : ℚ → ℚ) (fuelE fuelT : Nat) (T : TubeSegmentation) (size : Int3) :
    Option ((Int → Int) × TubeSegmentation) :=
  let queue := popOrder (collectSeeds T size)
  let T1 := writeSentinel T
  (ridgeLoop sq fuelE fuelT T1 size queue initialRidgeState).map
    (fun st => (finalMask size st, T1))


/-! ## Graph centerline extraction (`runNewCenterlineAlg`) -/

/-- The local `thetaLimit = 0.5`. -/
def thetaLimit : ℚ := 1 / 2
/-- The local `TDFlimit = 0.5`. -/
def TDFlimit : ℚ := 1 / 2
/-- The local `maxDistance = 40.0f`. -/
def maxDistance : ℚ := 40
/-- The local `minTreeLength = 20`. -/
def minTreeLength : Int := 20

/-- The function `inBounds`. -/
def inBounds (pos size : Int3) : Bool :=
  decide (pos.x > 0 ∧ pos.y > 0 ∧ pos.z > 0 ∧ pos.x < size.x ∧ pos.y < size.y ∧ pos.z < size.z)

/-- The library function `round`: to the nearest integer, halves away from zero. -/
def roundF (q : ℚ) : Int := if q < 0 then -⌊-q + 1 / 2⌋ else ⌊q + 1 / 2⌋

/-- The function `normalize` on an `int3`. -/
def normalizeInt (sq : ℚ → ℚ) (a : Int3) : Float3 :=
  let sqrMag := sq ((a.x * a.x + a.y * a.y + a.z * a.z : Int) : ℚ)
  { x := (a.x : ℚ) / sqrMag, y := (a.y : ℚ) / sqrMag, z := (a.z : ℚ) / sqrMag }

/-- The operator `int3 - int3`. -/
def Int3.sub (a b : Int3) : Int3 := { x := a.x - b.x, y := a.y - b.y, z := a.z - b.z }

/-- The length `sqrt(r.x*r.x+r.y*r.y+r.z*r.z)` of an `int3`. -/
def lengthInt (sq : ℚ → ℚ) (r : Int3) : ℚ := sq ((r.x * r.x + r.y * r.y + r.z * r.z : Int) : ℚ)

/-- The voxels `(x,y,z)` of the grid in the order of the loops over `z`, `y`, `x`. -/
def gridScan (size : Int3) : List Int3 :=
  (intRange 0 size.z).flatMap (fun z =>
    (intRange 0 size.y).flatMap (fun y =>
      (intRange 0 size.x).map (fun x => ({ x := x, y := y, z := z } : Int3))))

/-- The multimap `candidates` in iteration order: the voxels with
`TDF > TDFlimit` by ascending key `-TDF`, equal keys in insertion order. -/
def collectCandidates (T : TubeSegmentation) (size : Int3) : List (ℚ × Int3) :=
  (((gridScan size).filter (fun n => decide (T.TDF (POS size n) > TDFlimit))).map
    (fun n => (-T.TDF (POS size n), n))).mergeSort (fun p q => decide (p.1 ≤ q.1))

/-- The locals `invalid` and `remove` of the candidate pass; the head of
`remove` is the top of the stack. -/
structure CandidateScan where
  invalid : Bool
  remove : List Int3

/-- The body of the window loops of the candidate pass for the offset
`(a,b,c)`: the locals, and whether a `break` left the loop over `c`. -/
def candidateVisit (sq acosF : ℚ → ℚ) (T : TubeSegmentation) (size : Int3)
    (centerpoints : Int → Int) (x : Int3) (e1 : Float3) (maxD : Int) (a b c : Int)
    (st : CandidateScan) : CandidateScan × Bool :=
  let n : Int3 := { x := x.x + a, y := x.y + b, z := x.z + c }
  if ¬ inBounds n size then (st, false)
  else if a = 0 ∧ b = 0 ∧ c = 0 then (st, false)
  else
    let r : Float3 := { x := ((n.x - x.x : Int) : ℚ), y := ((n.y - x.y : Int) : ℚ),
                        z := ((n.z - x.z : Int) : ℚ) }
    let dp := dot e1 r
    let r_projected : Float3 :=
      { x := r.x - e1.x * dp, y := r.y - e1.y * dp, z := r.z - e1.z * dp }
    let theta := acosF (dot (normalize sq r) (normalize sq r_projected))
    let len := sq (r.x * r.x + r.y * r.y + r.z * r.z)
    if theta < thetaLimit ∧ len < (maxD : ℚ) ∧ fieldMag sq T (POS size n) < fieldMag sq T (POS size x)
    then ({ st with invalid := true }, true)
    else if centerpoints (POS size n) = 1 ∧ len < (maxD : ℚ) then
      if fieldMag sq T (POS size n) > fieldMag sq T (POS size x) ∧
          T.radius (POS size x) ≥ T.radius (POS size n) then
        -- x is better choice than n
        ({ st with remove := n :: st.remove }, false)
      else if len < (maxD : ℚ) * (1 / 2) then ({ st with invalid := true }, true)
      else (st, false)
    else (st, false)

/-- The loop over `c` of the candidate pass, with its `break`. -/
def candidateScanC (sq acosF : ℚ → ℚ) (T : TubeSegmentation) (size : Int3)
    (centerpoints : Int → Int) (x : Int3) (e1 : Float3) (maxD : Int) (a b : Int)
    (st : CandidateScan) : CandidateScan :=
  (forInt (-maxD) (maxD + 1) (fun c (acc : CandidateScan × Bool) =>
    if acc.2 then acc
    else candidateVisit sq acosF T size centerpoints x e1 maxD a b c acc.1) (st, false)).1

/-- The pass of the candidate loop for the candidate `x`: the array
`centerpoints` afterwards; `none` when the eigen-solver does not return. -/
def processCandidate (sq acosF : ℚ → ℚ) (fuelE : Nat) (T : TubeSegmentation) (size : Int3)
    (centerpoints : Int → Int) (x : Int3) : Option (Int → Int) :=
  (getTubeDirection sq fuelE T x size).map (fun e1 =>
    let radius := T.radius (POS size x)
    let maxD : Int := roundF (max radius 3)
    let scan := forInt (-maxD) (maxD + 1) (fun a st =>
      forInt (-maxD) (maxD + 1) (fun b st =>
        candidateScanC sq acosF T size centerpoints x e1 maxD a b st) st)
      { invalid := false, remove := [] }
    if ¬ scan.invalid then
      scan.remove.foldl (fun cp n => setAt cp (POS size n) 0) (setAt centerpoints (POS size x) 1)
    else centerpoints)

/-- The candidate loop. -/
def selectCenterpoints (sq acosF : ℚ → ℚ) (fuelE : Nat) (T : TubeSegmentation) (size : Int3) :
    List (ℚ × Int3) → (Int → Int) → Option (Int → Int)
  | [], centerpoints => some centerpoints
  | cand :: rest, centerpoints =>
    (processCandidate sq acosF fuelE T size centerpoints cand.2).bind
      (selectCenterpoints sq acosF fuelE T size rest)

/-- The graph `MyGraph`: the positions of the vertices (a vertex is its index
in the list) and the edges in the order they were added, with their weight. -/
structure MyGraph where
  vertices : List Int3
  edges : List (Nat × Nat × ℚ)

/-- The position `graph[v].pos`. -/
def MyGraph.pos (g : MyGraph) (v : Nat) : Int3 := g.vertices.getD v { x := 0, y := 0, z := 0 }

/-- The loops that add one vertex per voxel with `centerpoints == 1`. -/
def collectVertices (size : Int3) (centerpoints : Int → Int) : List Int3 :=
  (gridScan size).filter (fun n => decide (centerpoints (POS size n) = 1))

/-- The sum over `i = 0..39` of `field[POS(r)]` at the rounded sample
`r = round(xa + v*alpha)`, `alpha = i/maxDistance`, of a segment. -/
def sampleSegment (size : Int3) (field : Int → ℚ) (xa v : Int3) : ℚ :=
  forUp 0 40 (fun i acc =>
    let alpha : ℚ := (i : ℚ) / maxDistance
    let r : Int3 := { x := roundF ((xa.x : ℚ) + (v.x : ℚ) * alpha),
                      y := roundF ((xa.y : ℚ) + (v.y : ℚ) * alpha),
                      z := roundF ((xa.z : ℚ) + (v.z : ℚ) * alpha) }
    acc + field (POS size r)) 0

/-- The locals `shortestDistance`, `bestPair1`, `bestPair2` and
`validPairFound` of the pair loops. -/
structure PairSearch where
  shortestDistance : ℚ
  bestPair1 : Nat
  bestPair2 : Nat
  validPairFound : Bool

/-- The body of the pair loops for the neighbours `xb1`, `xb2` of `xa`. -/
def pairVisit (sq acosF : ℚ → ℚ) (T : TubeSegmentation) (size : Int3) (g : MyGraph)
    (xa : Int3) (v1 v2 : Nat) (st : PairSearch) : PairSearch :=
  let xb1 := g.pos v1
  let xb2 := g.pos v2
  if xb1.x = xb2.x ∧ xb1.y = xb2.y ∧ xb1.z = xb2.z then st
  else if xb1.x = xa.x ∧ xb1.y = xa.y ∧ xb1.z = xa.z then st
  else if xb2.x = xa.x ∧ xb2.y = xa.y ∧ xb2.z = xa.z then st
  else
    -- Check angle
    let xb1v : Int3 := { x := xb1.x - xa.x, y := xb1.y - xa.y, z := xb1.z - xa.z }
    let xb2v : Int3 := { x := xb2.x - xa.x, y := xb2.y - xa.y, z := xb2.z - xa.z }
    let angle := acosF (dot (normalizeInt sq xb1v) (normalizeInt sq xb2v))
    if angle < 209 / 100 then st
    -- Check TDF
    else if sampleSegment size T.TDF xa xb1v / maxDistance < 1 / 2 then st
    else if sampleSegment size T.TDF xa xb2v / maxDistance < 1 / 2 then st
    -- If distance in shorter than previous, select it
    else if lengthInt sq xb1v + lengthInt sq xb2v < st.shortestDistance then
      { shortestDistance := lengthInt sq xb1v + lengthInt sq xb2v,
        bestPair1 := v1, bestPair2 := v2, validPairFound := true }
    else st

/-- The call `boost::add_edge(u, v, graph)` followed by the assignment of the
weight.  `MyGraph` is an `adjacency_list` with the edge container `listS`, which
admits parallel edges: the call always adds the edge and returns `ok = true`. -/
def addEdge (g : MyGraph) (u v : Nat) (w : ℚ) : MyGraph :=
  { g with edges := g.edges ++ [(u, v, w)] }

/-- The pass of the vertex loop for the vertex `va`. -/
def linkVertex (sq acosF : ℚ → ℚ) (T : TubeSegmentation) (size : Int3)
    (g : MyGraph) (va : Nat) : MyGraph :=
  let xa := g.pos va
  let neighbors := (List.range g.vertices.length).filter (fun vb =>
    decide (¬ lengthInt sq (Int3.sub (g.pos vb) xa) > maxDistance))
  if neighbors.length < 2 then g
  else
    let search := neighbors.foldl (fun st v1 =>
      neighbors.foldl (fun st v2 => pairVisit sq acosF T size g xa v1 v2 st) st)
      { shortestDistance := 9999, bestPair1 := 0, bestPair2 := 0, validPairFound := false }
    -- Add the selected pair to result
    if search.validPairFound then
      let xb1v := Int3.sub (g.pos search.bestPair1) xa
      let xb2v := Int3.sub (g.pos search.bestPair2) xa
      let avgGVF := sampleSegment size (fieldMag sq T) xa xb1v
      let avgGVF2 := sampleSegment size (fieldMag sq T) xa xb2v
      let g1 := addEdge g va search.bestPair1 (avgGVF / maxDistance)
      addEdge g1 va search.bestPair2 (avgGVF2 / maxDistance)
    else g

/-- The vertices adjacent to `v`, in the order of its out-edge list. -/
def MyGraph.adjacent (g : MyGraph) (v : Nat) : List Nat :=
  g.edges.filterMap (fun en =>
    if en.1 = v then some en.2.1 else if en.2.1 = v then some en.1 else none)

/-- The vertices within `k` edges of the vertices of `front`. -/
def MyGraph.reach (g : MyGraph) : Nat → List Nat → List Nat
  | 0, front => front
  | k + 1, front => MyGraph.reach g k (front ++ front.flatMap (MyGraph.adjacent g))

/-- The least vertex of the connected component of `v`. -/
def MyGraph.root (g : MyGraph) (v : Nat) : Nat :=
  (MyGraph.reach g g.vertices.length [v]).foldl min v

/-- The library call `boost::connected_components(graph, &c[0])`: the array
`c`, which numbers the components in the order of their least vertex. -/
def connectedComponents (g : MyGraph) : List Nat :=
  (List.range g.vertices.length).map (fun v =>
    ((List.range (MyGraph.root g v)).filter (fun u => decide (MyGraph.root g u = u))).length)

/-- The number of components that `boost::connected_components` returns. -/
def numComponents (g : MyGraph) : Nat :=
  ((List.range g.vertices.length).filter (fun u => decide (MyGraph.root g u = u))).length

/-- The array `ccSize`. -/
def ccSize (c : List Nat) (i : Nat) : Nat := c.count i

/-- The loop that selects `maxCC`. -/
def selectMaxCC (c : List Nat) (num : Nat) : Nat :=
  forUp 0 num (fun i maxCC => if ccSize c i > ccSize c maxCC then i else maxCC) 0

/-- The loops that rasterize the edge from `xa` to the adjacent `xb`. -/
def drawEdge (size : Int3) (xa xb : Int3) (centerpoints2 : Int → Int) : Int → Int :=
  let r := Int3.sub xb xa
  let line := forUp 0 40 (fun i cp =>
    let alpha : ℚ := (i : ℚ) / maxDistance
    let n : Int3 := { x := roundF ((xa.x : ℚ) + alpha * (r.x : ℚ)),
                      y := roundF ((xa.y : ℚ) + alpha * (r.y : ℚ)),
                      z := roundF ((xa.z : ℚ) + alpha * (r.z : ℚ)) }
    setAt cp (POS size n) 1) centerpoints2
  setAt (setAt line (POS size xb) 2) (POS size xa) 2

/-- The final loop over the vertices: the array `centerpoints2`. -/
def drawComponent (size : Int3) (g : MyGraph) (c : List Nat) (maxCC : Nat) : Int → Int :=
  forUp 0 c.length (fun i cp =>
    if c.getD i 0 = maxCC then
      (MyGraph.adjacent g i).foldl (fun cp vb => drawEdge size (g.pos i) (g.pos vb) cp) cp
    else cp) (fun _ => 0)

/-- The vertex loop: one pass of `linkVertex` per vertex, from the graph with
the given vertices and no edge. -/
def linkVertices (sq acosF : ℚ → ℚ) (T : TubeSegmentation) (size : Int3)
    (vertices : List Int3) : MyGraph :=
  (List.range vertices.length).foldl (fun g va => linkVertex sq acosF T size g va)
    { vertices := vertices, edges := [] }

/-- The graph of `runNewCenterlineAlg`: the vertices are the voxels with
`centerpoints == 1`, in the order of the loops over `z`, `y`, `x`, and the edges
are those of the vertex loop. -/
def buildGraph (sq acosF : ℚ → ℚ) (T : TubeSegmentation) (size : Int3)
    (centerpoints : Int → Int) : MyGraph :=
  linkVertices sq acosF T size (collectVertices size centerpoints)

/-- The function `runNewCenterlineAlg`, from the arrays read back from the
device on: the array `centerpoints2` handed to the returned image; `none`
when the eigen-solver did not return within `fuelE` iterations. -/
def runNewCenterlineAlg (sq acosF : ℚ → ℚ) (fuelE : Nat)
    (T : TubeSegmentation) (size : Int3) : Option (Int → Int) :=
  (selectCenterpoints sq acosF fuelE T size (collectCandidates T size) (fun _ => 0)).map
    (fun centerpoints =>
      let g := buildGraph sq acosF T size centerpoints
      let c := connectedComponents g
      let num := numComponents g
      let maxCC := selectMaxCC c num
      drawComponent size g c maxCC)

/-! ## Predicates used in the statements -/

/-- The voxel lies at least two voxels inside the grid on every axis. -/
def inMargin (size pos : Int3) : Prop :=
  2 ≤ pos.x ∧ pos.x ≤ size.x - 2 ∧ 2 ≤ pos.y ∧ pos.y ≤ size.y - 2 ∧
    2 ≤ pos.z ∧ pos.z ≤ size.z - 2

instance (size pos : Int3) : Decidable (inMargin size pos) := by
  unfold inMargin; infer_instance

/-- The bookkeeping of a walk agrees with its path stack: `distance` counts
the points, `meanTube` sums their TDF, and every point is marked in
`newCenterlines` and lies inside the margin. -/
structure PathInv (T : TubeSegmentation) (size : Int3) (tr : Traversal) : Prop where
  dist : tr.distance = (tr.stack.length : Int)
  mean : tr.meanTube = (tr.stack.map (fun q => T.TDF (POS size q.pos))).sum
  marked : ∀ q ∈ tr.stack, tr.newCenterlines (POS size q.pos) = 1
  inside : ∀ q ∈ tr.stack, inMargin size q.pos

/-- The connection locals of a walk are consistent: a recorded connection
is a positive label, and a second connection differs from the first. -/
structure ConnInv (tr : Traversal) : Prop where
  prev : tr.prevConnection = -1 ∨ 0 < tr.prevConnection
  second : tr.secondConnection = -1 ∨
    (0 < tr.secondConnection ∧ tr.prevConnection ≠ -1 ∧
      tr.secondConnection ≠ tr.prevConnection)
  conn : tr.connections = 0 ∨ tr.connections = 5

/-- Two walks carry the same connection locals. -/
def SameConn (tr1 tr2 : Traversal) : Prop :=
  tr2.prevConnection = tr1.prevConnection ∧ tr2.secondConnection = tr1.secondConnection ∧
    tr2.connections = tr1.connections

/-! ## Concrete inputs -/

/-- A grid of 24 x 6 x 6 voxels. -/
def exampleSize : Int3 := { x := 24, y := 6, z := 6 }

/-- The TDF values, in sixteenths, of the voxels `(2,3,3)` to `(21,3,3)` of the
example volume. -/
def exampleProfile : List ℚ :=
  [13, 14, 16, 6, 6, 6, 6, 13, 12, 11, 10, 6, 6, 6, 6, 15, 13, 12, 14, 9]

/-- A volume with one straight tube along the x axis, on the line `y = z = 3`:
the vector field is `(1/2, 0, 0)` everywhere, the radius is zero, and the TDF
is zero off the line. -/
def exampleTube : TubeSegmentation :=
  { Fx := fun _ => 1 / 2,
    Fy := fun _ => 0,
    Fz := fun _ => 0,
    TDF := fun i => if 506 ≤ i ∧ i ≤ 525 then exampleProfile.getD (i - 506).toNat 0 / 16 else 0,
    radius := fun _ => 0 }

/-- The seed on the voxel `(x,3,3)` of the example volume. -/
def exampleSeed (x : Int) : point :=
  { value := exampleTube.TDF (LPOS exampleSize x 3 3), x := x, y := 3, z := 3 }

/-- A field that takes the listed values on the listed voxels and is zero
elsewhere. -/
def tableField (size : Int3) (entries : List (Int3 × ℚ)) : Int → ℚ :=
  fun i =>
    match entries.find? (fun en => decide (POS size en.1 = i)) with
    | some en => en.2
    | none => 0

/-- A grid of 17 x 10 x 6 voxels. -/
def bendSize : Int3 := { x := 17, y := 10, z := 6 }

/-- The voxels with a nonzero TDF of the bend volume, in the plane `z = 3`: a
straight tube on `y = 6` (`x = 9..14`), and a tube with a right angle at
`(7,3)`, one leg on `x = 7` (`y = 3..8`), the other on `y = 3` (`x = 2..6`). -/
def bendTDF : List (Int3 × ℚ) :=
  [(⟨9, 6, 3⟩, 9 / 16), (⟨10, 6, 3⟩, 9 / 16), (⟨11, 6, 3⟩, 1), (⟨12, 6, 3⟩, 9 / 16),
   (⟨13, 6, 3⟩, 9 / 16), (⟨14, 6, 3⟩, 9 / 16),
   (⟨7, 3, 3⟩, 14 / 16), (⟨7, 4, 3⟩, 9 / 16), (⟨7, 5, 3⟩, 15 / 16), (⟨7, 6, 3⟩, 9 / 16),
   (⟨7, 7, 3⟩, 9 / 16), (⟨7, 8, 3⟩, 9 / 16),
   (⟨6, 3, 3⟩, 9 / 16), (⟨5, 3, 3⟩, 9 / 16), (⟨4, 3, 3⟩, 9 / 16), (⟨3, 3, 3⟩, 9 / 16),
   (⟨2, 3, 3⟩, 9 / 16)]

/-- The bend volume: the vector field is `(1/2, 0, 0)` everywhere except
`(-1/2, 0, 0)` on the voxel `(8,5,3)` beside the tube, which makes the
y axis the tube direction at `(7,5,3)`; the radius is zero. -/
def bendTube : TubeSegmentation :=
  { Fx := fun i => if i = POS bendSize ⟨8, 5, 3⟩ then -1 / 2 else 1 / 2,
    Fy := fun _ => 0,
    Fz := fun _ => 0,
    TDF := tableField bendSize bendTDF,
    radius := fun _ => 0 }

/-- The seed on the voxel `(x,y,3)` of the bend volume. -/
def bendSeed (x y : Int) : point :=
  { value := bendTube.TDF (LPOS bendSize x y 3), x := x, y := y, z := 3 }

/-- The labels of the listed voxels. -/
def labelsAt (size : Int3) (centerlines : Int → Int) (voxels : List Int3) : List Int :=
  voxels.map (fun v => centerlines (POS size v))

/-- The state of the seed loop on the example volume after the first `n`
seeds of the queue. -/
def exampleState (n : Nat) : RidgeState :=
  (ridgeLoop sqrtQ 1 30 (writeSentinel exampleTube) exampleSize
    ((popOrder (collectSeeds exampleTube exampleSize)).take n) initialRidgeState).getD
      initialRidgeState

/-- The state of the seed loop on the bend volume after the first `n` seeds
of the queue. -/
def bendState (n : Nat) : RidgeState :=
  (ridgeLoop sqrtQ 1 30 (writeSentinel bendTube) bendSize
    ((popOrder (collectSeeds bendTube bendSize)).take n) initialRidgeState).getD
      initialRidgeState

/-- A volume whose fields are zero everywhere. -/
def zeroTube : TubeSegmentation :=
  { Fx := fun _ => 0, Fy := fun _ => 0, Fz := fun _ => 0, TDF := fun _ => 0,
    radius := fun _ => 0 }

/-- A symmetric matrix that differs from `exampleMatrix` by the entries
`2^-60` at `(1,2)` and `(2,1)`. -/
def perturbedMatrix : Nat → Nat → ℚ :=
  fun i j => (([[0, 12, 0], [12, 7, 1 / 2 ^ 60], [0, 1 / 2 ^ 60, 5]] : List (List ℚ)).getD i []).getD j 0

/-- The number of voxels of the grid that a walk has not marked in
`newCenterlines`. -/
def unmarked (size : Int3) (newCenterlines : Int → Int) : Nat :=
  ((Finset.range (totalSize size).toNat).filter
    (fun (k : Nat) => newCenterlines (k : Int) ≠ 1)).card

/-- The number of voxels of the grid that a walk has marked in `newCenterlines`
(the test `newCenterlines[i] > 0` of the relabelling loops). -/
def markedCount (size : Int3) (newCenterlines : Int → Int) : Nat :=
  ((Finset.range (totalSize size).toNat).filter
    (fun (k : Nat) => newCenterlines (k : Int) > 0)).card

/-- The points of a walk are distinct voxels, and `newCenterlines` marks no voxel
beyond them. -/
structure DistinctInv (size : Int3) (tr : Traversal) : Prop where
  nodup : (tr.stack.map (fun q => POS size q.pos)).Nodup
  only : ∀ i, tr.newCenterlines i ≠ 0 → ∃ q ∈ tr.stack, POS size q.pos = i

/-! ## Graph centerline extraction: predicates and concrete inputs -/

/-- The arc cosine used by concrete runs: the polynomial approximation
`sqrt(1-x)*(a0 + a1*x + a2*x^2 + a3*x^3)` of Abramowitz and Stegun (4.4.45),
accurate to `10^-4` on `[0,1]`, continued by `acos(-x) = pi - acos(x)`; exact at
`1`, and constant outside `[-1,1]`. -/
def acosQ (x : ℚ) : ℚ :=
  let poly : ℚ → ℚ := fun y =>
    sqrtQ (1 - y) * (15707288 / 10000000 + y * (-2121144 / 10000000 +
      y * (742610 / 10000000 + y * (-187293 / 10000000))))
  if x ≥ 1 then 0
  else if x ≤ -1 then 31415927 / 10000000
  else if x < 0 then 31415927 / 10000000 - poly (-x)
  else poly x

/-- The body of the window loops of the candidate pass where the vector field
has the same magnitude at `n` and at `x`: neither the test `SQR_MAG(n) <
SQR_MAG(x)` nor the test `SQR_MAG(n) > SQR_MAG(x)` can hold, and what is left is
the test for a centerpoint closer than `maxD/2`. -/
def nearVisit (sq : ℚ → ℚ) (size : Int3) (centerpoints : Int → Int) (x : Int3) (maxD : Int)
    (a b c : Int) (st : CandidateScan) : CandidateScan × Bool :=
  let n : Int3 := { x := x.x + a, y := x.y + b, z := x.z + c }
  if ¬ inBounds n size then (st, false)
  else if a = 0 ∧ b = 0 ∧ c = 0 then (st, false)
  else
    let r : Float3 := { x := ((n.x - x.x : Int) : ℚ), y := ((n.y - x.y : Int) : ℚ),
                        z := ((n.z - x.z : Int) : ℚ) }
    let len := sq (r.x * r.x + r.y * r.y + r.z * r.z)
    if centerpoints (POS size n) = 1 ∧ len < (maxD : ℚ) ∧ len < (maxD : ℚ) * (1 / 2) then
      ({ st with invalid := true }, true)
    else (st, false)

/-- The window loops of the candidate pass with `nearVisit` as their body. -/
def nearScan (sq : ℚ → ℚ) (size : Int3) (centerpoints : Int → Int) (x : Int3) (maxD : Int) :
    CandidateScan :=
  forInt (-maxD) (maxD + 1) (fun a st =>
    forInt (-maxD) (maxD + 1) (fun b st =>
      (forInt (-maxD) (maxD + 1) (fun c (acc : CandidateScan × Bool) =>
        if acc.2 then acc
        else nearVisit sq size centerpoints x maxD a b c acc.1) (st, false)).1) st)
    { invalid := false, remove := [] }

/-- The array `centerpoints` after the pass for the candidate `x`, where the
vector field has the same magnitude everywhere. -/
def acceptCandidate (sq : ℚ → ℚ) (T : TubeSegmentation) (size : Int3)
    (centerpoints : Int → Int) (x : Int3) : Int → Int :=
  if ¬ (nearScan sq size centerpoints x (roundF (max (T.radius (POS size x)) 3))).invalid then
    setAt centerpoints (POS size x) 1
  else centerpoints

/-- The angle `acos(dot(normalize(xb1v), normalize(xb2v)))` at the vertex `va`
between the directions to the vertices `v1` and `v2`. -/
def angleAt (sq acosF : ℚ → ℚ) (g : MyGraph) (va v1 v2 : Nat) : ℚ :=
  acosF (dot (normalizeInt sq (Int3.sub (g.pos v1) (g.pos va)))
    (normalizeInt sq (Int3.sub (g.pos v2) (g.pos va))))

/-- The value `avgTDF / maxDistance` of the segment from the vertex `va` to the
vertex `vb`. -/
def segmentTDF (T : TubeSegmentation) (size : Int3) (g : MyGraph) (va vb : Nat) : ℚ :=
  sampleSegment size T.TDF (g.pos va) (Int3.sub (g.pos vb) (g.pos va)) / maxDistance

/-- The distance between the vertices `va` and `vb`. -/
def linkLength (sq : ℚ → ℚ) (g : MyGraph) (va vb : Nat) : ℚ :=
  lengthInt sq (Int3.sub (g.pos vb) (g.pos va))

/-- The weight `avgGVF / maxDistance` of the edge from `va` to `vb`. -/
def edgeWeight (sq : ℚ → ℚ) (T : TubeSegmentation) (size : Int3) (g : MyGraph) (va vb : Nat) :
    ℚ :=
  sampleSegment size (fieldMag sq T) (g.pos va) (Int3.sub (g.pos vb) (g.pos va)) / maxDistance

/-- A valid pair of the vertex `va`, in the words of the specification: two
vertices at distinct positions, both different from `va` and within distance 40
of it, with an angle of at least 2.09 between the two directions and an
average TDF of at least 0.5 over the 40 samples of either segment. -/
def validPair (sq acosF : ℚ → ℚ) (T : TubeSegmentation) (size : Int3) (g : MyGraph)
    (va v1 v2 : Nat) : Prop :=
  v1 < g.vertices.length ∧ v2 < g.vertices.length ∧
  g.pos v1 ≠ g.pos v2 ∧ g.pos v1 ≠ g.pos va ∧ g.pos v2 ≠ g.pos va ∧
  linkLength sq g va v1 ≤ 40 ∧ linkLength sq g va v2 ≤ 40 ∧
  angleAt sq acosF g va v1 v2 ≥ 209 / 100 ∧
  segmentTDF T size g va v1 ≥ 1 / 2 ∧ segmentTDF T size g va v2 ≥ 1 / 2

/-- What the pair loops of the vertex `va` have found so far: nothing yet, or
a valid pair together with its total length. -/
def SearchInv (sq acosF : ℚ → ℚ) (T : TubeSegmentation) (size : Int3) (g : MyGraph) (va : Nat)
    (st : PairSearch) : Prop :=
  (st.validPairFound = false ∧ st.shortestDistance = 9999) ∨
  (st.validPairFound = true ∧ validPair sq acosF T size g va st.bestPair1 st.bestPair2 ∧
    st.shortestDistance =
      linkLength sq g va st.bestPair1 + linkLength sq g va st.bestPair2)

/-- The edges of `g` that the pass of the vertex `va` added: those whose
first end is `va`. -/
def passEdges (g : MyGraph) (va : Nat) : List (Nat × Nat × ℚ) :=
  g.edges.filter (fun en => decide (en.1 = va))

/-- The state of the vertex loop before the pass of the vertex `k`: the
vertices are untouched, no pass from `k` on has added an edge, and every
earlier pass has added nothing or the two edges to a shortest valid pair. -/
structure GraphInv (sq acosF : ℚ → ℚ) (T : TubeSegmentation) (size : Int3)
    (vertices : List Int3) (k : Nat) (g : MyGraph) : Prop where
  verts : g.vertices = vertices
  later : ∀ va, k ≤ va → passEdges g va = []
  passes : ∀ va, passEdges g va = [] ∨
    ∃ v1 v2, validPair sq acosF T size g va v1 v2 ∧
      (∀ u1 u2, validPair sq acosF T size g va u1 u2 →
        linkLength sq g va v1 + linkLength sq g va v2 ≤
          linkLength sq g va u1 + linkLength sq g va u2) ∧
      passEdges g va = [(va, v1, edgeWeight sq T size g va v1),
        (va, v2, edgeWeight sq T size g va v2)]

/-- A grid of 16 x 5 x 5 voxels. -/
def gapSize : Int3 := { x := 16, y := 5, z := 5 }

/-- A volume with a tube along the x axis, on the line `y = z = 2`, that is
interrupted: the TDF is 1 on the voxels `x = 2..4` and `x = 9..13` of the line
and zero elsewhere; the vector field is `(1/2, 0, 0)` everywhere and the radius
is zero. -/
def gapTube : TubeSegmentation :=
  { Fx := fun _ => 1 / 2,
    Fy := fun _ => 0,
    Fz := fun _ => 0,
    TDF := fun i => if (194 ≤ i ∧ i ≤ 196) ∨ (201 ≤ i ∧ i ≤ 205) then 1 else 0,
    radius := fun _ => 0 }

/-- The array `centerpoints` after the candidate loop on the gap volume. -/
def gapCenterpoints : Int → Int :=
  (collectCandidates gapTube gapSize).foldl
    (fun cp cand => acceptCandidate sqrtQ gapTube gapSize cp cand.2) (fun _ => 0)

/-- The vertices of the graph of the gap volume. -/
def gapVertices : List Int3 := [⟨2, 2, 2⟩, ⟨4, 2, 2⟩, ⟨9, 2, 2⟩, ⟨11, 2, 2⟩, ⟨13, 2, 2⟩]

/-- The graph of the gap volume. -/
def gapGraph : MyGraph :=
  { vertices := gapVertices,
    edges := [(1, 0, 1 / 2), (1, 4, 1 / 2), (3, 2, 1 / 2), (3, 4, 1 / 2)] }

instance (sq acosF : ℚ → ℚ) (T : TubeSegmentation) (size : Int3) (g : MyGraph)
    (va v1 v2 : Nat) : Decidable (validPair sq acosF T size g va v1 v2) := by
  unfold validPair; infer_instance

/-! ## Array indices -/

/-- The voxel lies in the grid. -/
def inGrid (size pos : Int3) : Prop :=
  0 ≤ pos.x ∧ pos.x < size.x ∧ 0 ≤ pos.y ∧ pos.y < size.y ∧ 0 ≤ pos.z ∧ pos.z < size.z

/-- The index lies in the arrays of `totalSize` entries. -/
def inRange (size : Int3) (i : Int) : Prop := 0 ≤ i ∧ i < totalSize size

/-- The voxels `npos` at which a call of `gradient` at `pos` reads the three
components of the vector field. -/
def gradientStencil (pos : Int3) (dimensions : Int) : List Int3 :=
  [{ pos with x := pos.x + 1 }, { pos with x := pos.x + 1 - 2 }] ++
  (if dimensions > 1 then [{ pos with y := pos.y + 1 }, { pos with y := pos.y + 1 - 2 }]
    else []) ++
  (if dimensions > 2 then [{ pos with z := pos.z + 1 }, { pos with z := pos.z + 1 - 2 }]
    else [])

/-- The indices that `getTubeDirection` and `doEigen` read at `pos`: those of
the calls `gradient(T, pos, 0, 1, size)`, `gradient(T, pos, 1, 2, size)` and
`gradient(T, pos, 2, 3, size)`. -/
def eigenReads (size pos : Int3) : List Int :=
  (gradientStencil pos 1 ++ gradientStencil pos 2 ++ gradientStencil pos 3).map (POS size)

/-- The indices that the seed test reads at the voxel `(x,y,z)`. -/
def seedReads (size : Int3) (x y z : Int) : List Int :=
  LPOS size x y z :: POS size { x := x, y := y, z := z } ::
    (intRange (-2) 2).flatMap (fun a => (intRange (-2) 2).flatMap (fun b =>
      (intRange (-2) 2).map (fun c => POS size { x := x + a, y := y + b, z := z + c })))

/-- The indices that a pass through the body of the `while(true)` loop reads
or writes apart from those of `doEigen`: the index of `maxPoint = {0,0,0}` and
the indices of the voxels around `position`. -/
def scanReads (size position : Int3) : List Int :=
  POS size { x := 0, y := 0, z := 0 } ::
    (intRange (-1) 2).flatMap (fun a => (intRange (-1) 2).flatMap (fun b =>
      (intRange (-1) 2).map (fun c =>
        POS size { x := position.x + a, y := position.y + b, z := position.z + c })))

/-- A graph with the components `{0}`, `{1,2}` and `{3,4}`. -/
def tieGraph : MyGraph :=
  { vertices := [⟨1, 1, 1⟩, ⟨2, 1, 1⟩, ⟨3, 1, 1⟩, ⟨4, 1, 1⟩, ⟨5, 1, 1⟩],
    edges := [(1, 2, 0), (3, 4, 0)] }

/-- A volume whose TDF is 1 on the corner voxel `(0,0,0)` and zero elsewhere;
the vector field is `(1/2, 0, 0)` everywhere and the radius is zero. -/
def borderTube : TubeSegmentation :=
  { Fx := fun _ => 1 / 2,
    Fy := fun _ => 0,
    Fz := fun _ => 0,
    TDF := fun i => if i = 0 then 1 else 0,
    radius := fun _ => 0 }

/-- The volume `borderTube` with another value of `Fx` at the index `-1`. -/
def borderTubeBefore : TubeSegmentation :=
  { borderTube with Fx := fun i => if i = -1 then -1 / 2 else 1 / 2 }

instance (size : Int3) (i : Int) : Decidable (inRange size i) := by
  unfold inRange; infer_instance

instance (size pos : Int3) : Decidable (inGrid size pos) := by
  unfold inGrid; infer_instance

/-! ## Parameters and the dataset reader -/

/-- The type `paramList`, whose declaration is in a header that is not among
the sources at hand: a map from parameter names to values, both strings; a
list with at most one entry per name here. -/
abbrev paramList := List (String × String)

/-- The call `parameters.count(parameterName)`. -/
def paramCount (parameters : paramList) (parameterName : String) : Nat :=
  (parameters.filter (fun en => decide (en.1 = parameterName))).length

/-- The value `parameters[parameterName]` of a name that the list holds. -/
def paramValue (parameters : paramList) (parameterName : String) : String :=
  ((parameters.find? (fun en => decide (en.1 = parameterName))).map Prod.snd).getD ""

/-- The function `getParamf`; `atof` is the library function. -/
def getParamf (atof : String → ℚ) (parameters : paramList) (parameterName : String)
    (defaultValue : ℚ) : ℚ :=
  if paramCount parameters parameterName = 1 then atof (paramValue parameters parameterName)
  else defaultValue

/-- The function `getParami`; `atoi` is the library function. -/
def getParami (atoi : String → Int) (parameters : paramList) (parameterName : String)
    (defaultValue : Int) : Int :=
  if paramCount parameters parameterName = 1 then atoi (paramValue parameters parameterName)
  else defaultValue

/-- The function `getParamstr`. -/
def getParamstr (parameters : paramList) (parameterName : String) (defaultValue : String) :
    String :=
  if paramCount parameters parameterName = 1 then paramValue parameters parameterName
  else defaultValue

/-- The call `runRidgeTraversal(T, size, parameters, centerlineStack)` with its
two by-value arguments: the body of the function, which `runRidgeTraversal`
embeds, never mentions `parameters`, and only assigns to its own copy of
`centerlineStack`. -/
def runRidgeTraversalCall (sq : ℚ → ℚ) (fuelE fuelT : Nat) (T : TubeSegmentation) (size : Int3)
    (parameters : paramList) (centerlineStack : List CenterlinePoint) :
    Option ((Int → Int) × TubeSegmentation) :=
  runRidgeTraversal sq fuelE fuelT T size

/-- After the claim of an overridable seed threshold: the value that the
parameter list supplies under the name `Thigh`, and the default `0.6` when it
supplies none. -/
def overriddenThigh (atof : String → ℚ) (parameters : paramList) : ℚ :=
  getParamf atof parameters "Thigh" Thigh

/-- After the claim: the body of the seed scan with the threshold `thigh` in
place of the local `Thigh`. -/
def seedVisitWith (thigh : ℚ) (T : TubeSegmentation) (size : Int3) (x y z : Int)
    (queue : List point) : List point :=
  if T.TDF (LPOS size x y z) < thigh then queue
  else if seedValid T size x y z then
    { value := T.TDF (LPOS size x y z), x := x, y := y, z := z } :: queue
  else queue

/-- After the claim: the seed collection with the threshold `thigh`. -/
def collectSeedsWith (thigh : ℚ) (T : TubeSegmentation) (size : Int3) : List point :=
  forInt 2 (size.z - 2) (fun z q =>
    forInt 2 (size.y - 2) (fun y q =>
      forInt 2 (size.x - 2) (fun x q => seedVisitWith thigh T size x y z q) q) q) []

/-- After the claim: the ridge traversal with the seed threshold `thigh` in
place of the local `Thigh`. -/
def runRidgeTraversalWith (thigh : ℚ) (sq : ℚ → ℚ) (fuelE fuelT : Nat) (T : TubeSegmentation)
    (size : Int3) : Option ((Int → Int) × TubeSegmentation) :=
  let queue := popOrder (collectSeedsWith thigh T size)
  let T1 := writeSentinel T
  (ridgeLoop sq fuelE fuelT T1 size queue initialRidgeState).map
    (fun st => (finalMask size st, T1))

/-- The values of `atof` on the strings of the examples. -/
def exampleAtof (s : String) : ℚ := if s = "0.9" then 9 / 10 else 0

/-- What `readDatasetAndTransfer` can throw: `SIPL::FileNotFoundException`,
`SIPL::SIPLException` with its message, and the `std::out_of_range` of
`substr`. -/
inductive ReaderException where
  | fileNotFound (filename : String)
  | sipl (message : String)
  | outOfRange
  deriving DecidableEq

/-- Modelled from the spec: the class hierarchy of the SIPL exceptions, whose
header is not among the sources at hand.  The test `WrongFilenameException`
expects a `SIPL::IOException` where `readDatasetAndTransfer` throws a
`SIPL::FileNotFoundException`: a file-not-found exception is an I/O exception. -/
def ReaderException.isIOException : ReaderException → Bool
  | ReaderException.fileNotFound _ => true
  | _ => false

/-- What `readDatasetAndTransfer` does beyond its own locals, in order: a header
line read with `getline`, a volume read by `SIPL::Volume<T>(filename)`, a kernel
launched with `enqueueNDRangeKernel`. -/
inductive ReaderEvent where
  | headerLine (line : String)
  | volumeRead (typeName : String)
  | kernelLaunch (kernel : String)
  deriving DecidableEq

/-- The events of a call of `readDatasetAndTransfer`, and the exception it
ended with, if any; otherwise the local `type` passed to the kernel `toFloat`. -/
structure ReaderRun where
  events : List ReaderEvent
  outcome : Except ReaderException Int

/-- The call `line.substr(pos)`: `none` where it throws `std::out_of_range`. -/
def substrFrom (line : String) (pos : Nat) : Option String :=
  if pos > line.data.length then none else some (String.mk (line.data.drop pos))

/-- The loop `do { getline; ... } while(!mhdFile.eof())` over the lines that
`getline` delivers: the header lines read, and the local `typeName`, or `none`
where `substr` throws. -/
def parseHeader : List String → String → List ReaderEvent → List ReaderEvent × Option String
  | [], typeName, events => (events, some typeName)
  | line :: rest, typeName, events =>
    if String.mk (line.data.take 11) = "ElementType" then
      match substrFrom line (11 + 3) with
      | none => (events ++ [ReaderEvent.headerLine line], none)
      | some t => parseHeader rest t (events ++ [ReaderEvent.headerLine line])
    else parseHeader rest typeName (events ++ [ReaderEvent.headerLine line])

/-- The lines "Remove any trailing spaces": `pos = typeName.find(" ")`, and
`typeName.substr(0,pos)` when `pos > 0`. -/
def trimTypeName (typeName : String) : String :=
  let pos := typeName.data.indexOf ' '
  if pos < typeName.data.length ∧ pos > 0 then String.mk (typeName.data.take pos) else typeName

/-- The local `type` for the element types that the function supports. -/
def elementType (typeName : String) : Option Int :=
  if typeName = "MET_SHORT" then some 1
  else if typeName = "MET_USHORT" then some 2
  else if typeName = "MET_CHAR" then some 1
  else if typeName = "MET_UCHAR" then some 2
  else if typeName = "MET_FLOAT" then some 3
  else none

/-- The function `readDatasetAndTransfer`, as far as its exceptions and the
order of its reads and kernel launches go.  `files` gives, for the name of a
file that can be opened, the lines that `getline` delivers (a file that cannot
be opened has none); the volume and the images on the device are not
modelled. -/
def readDatasetAndTransfer (files : String → Option (List String)) (filename : String)
    (parameters : paramList) : ReaderRun :=
  match files filename with
  | none => { events := [], outcome := Except.error (ReaderException.fileNotFound filename) }
  | some lines =>
    -- the body of a do-while loop runs at least once
    let header := parseHeader (if lines = [] then [""] else lines) "" []
    match header.2 with
    | none => { events := header.1, outcome := Except.error ReaderException.outOfRange }
    | some typeName0 =>
      let typeName := trimTypeName typeName0
      if typeName = "" then
        { events := header.1,
          outcome := Except.error (ReaderException.sipl "no data type defined in MHD file") }
      else
        match elementType typeName with
        | none =>
          { events := header.1,
            outcome := Except.error (ReaderException.sipl ("unsupported filetype " ++ typeName)) }
        | some type =>
          let cropping :=
            if paramCount parameters "cropping" = 1 then
              [ReaderEvent.kernelLaunch "cropDataset", ReaderEvent.kernelLaunch "cropDataset",
               ReaderEvent.kernelLaunch "cropDataset"]
            else []
          { events := header.1 ++ [ReaderEvent.volumeRead typeName] ++ cropping ++
              [ReaderEvent.kernelLaunch "toFloat"],
            outcome := Except.ok type }

/-- The files of the examples: the header `volume.mhd` alone. -/
def exampleFiles (filename : String) : Option (List String) :=
  if filename = "volume.mhd" then
    some ["ObjectType = Image", "NDims = 3", "ElementType = MET_SHORT", ""]
  else none

/-- The loop `while(SIZE % 4 != 0)` of `readDatasetAndTransfer` that adjusts
the crop window `[x1, x2)` of an axis of length `size`, with the local `lower`
that the three loops share: the window and `lower` when the loop ends, `none`
when it has not ended after `fuel` passes. -/
def adjustLoop (size : Int) : Nat → Int → Int → Bool → Option (Int × Int × Bool)
  | 0, _, _, _ => none
  | fuel + 1, x1, x2, lower =>
    if Int.tmod (x2 - x1) 4 ≠ 0 then
      if lower = true ∧ x1 > 0 then adjustLoop size fuel (x1 - 1) x2 (!lower)
      else if x2 < size then adjustLoop size fuel x1 (x2 + 1) (!lower)
      else adjustLoop size fuel x1 x2 (!lower)
    else some (x1, x2, lower)

/-- The three loops "Make them dividable by 4", for the axes x, y and z in this
order: the three windows. -/
def adjustWindows (size : Int3) (fuel : Nat) (x1 x2 y1 y2 z1 z2 : Int) :
    Option ((Int × Int) × (Int × Int) × (Int × Int)) :=
  (adjustLoop size.x fuel x1 x2 false).bind (fun rx =>
    (adjustLoop size.y fuel y1 y2 rx.2.2).bind (fun ry =>
      (adjustLoop size.z fuel z1 z2 ry.2.2).map (fun rz =>
        ((rx.1, rx.2.1), (ry.1, ry.2.1), (rz.1, rz.2.1)))))

/-! ## Diagonal matrices in the eigen-solver -/

/-- The diagonal matrix `diag(a,b,c)`. -/
def diagMatrix (a b c : ℚ) : Nat → Nat → ℚ :=
  fun i j => if i = j then (if i = 0 then a else if i = 1 then b else if i = 2 then c else 0) else 0

/-- The state `tred2` starts from for the matrix `A`. -/
def startState (A : Nat → Nat → ℚ) : EigState :=
  { V := fun i j => A i j, d := fun _ => 0, e := fun _ => 0 }

/-- The value of `scale` in step `i` of the reduction loop of `tred2`. -/
def tred2Scale (i : Nat) (s : EigState) : ℚ :=
  forUp 0 i (fun k acc => acc + |s.d k|) (0 : ℚ)

/-- The state of `tred2` before its reduction loop. -/
def tred2Start (s : EigState) : EigState :=
  { s with d := forUp 0 SIZE (fun j d => set1 d j (s.V (SIZE - 1) j)) s.d }

/-! ## Bookkeeping of the seed loop -/

/-- The bookkeeping of the seed loop: every nonzero label sits on a voxel of the
grid and is a key of the tree-length map, the two maps have the same keys, and
every key lies in `[1, counter)`. -/
structure BookInv (size : Int3) (st : RidgeState) : Prop where
  labels : ∀ i, st.centerlines i ≠ 0 →
    (0 ≤ i ∧ i < totalSize size) ∧ st.centerlines i ∈ IntMap.keys st.centerlineDistances
  counterPos : 1 ≤ st.counter
  sameKeys : ∀ k, k ∈ IntMap.keys st.centerlineDistances ↔ k ∈ IntMap.keys st.centerlineStacks
  range : ∀ k, k ∈ IntMap.keys st.centerlineDistances → 1 ≤ k ∧ k < st.counter

/-- The connection locals of a walk hold `-1` or positive labels read from the
label volume, and the second one differs from the first. -/
structure HitInv (centerlines : Int → Int) (tr : Traversal) : Prop where
  prev : tr.prevConnection = -1 ∨
    (0 < tr.prevConnection ∧ ∃ i, centerlines i = tr.prevConnection)
  second : tr.secondConnection = -1 ∨
    (0 < tr.secondConnection ∧ (∃ i, centerlines i = tr.secondConnection) ∧
      tr.prevConnection ≠ -1 ∧ tr.secondConnection ≠ tr.prevConnection)

/-! ## Spacing of the centerpoints -/

/-- The locals of the window loops at a later point `s1` of the pass than `s`:
`invalid` stays set and nothing leaves the stack `remove`. -/
def ScanExt (s s1 : CandidateScan) : Prop :=
  (s.invalid = true → s1.invalid = true) ∧ ∀ m ∈ s.remove, m ∈ s1.remove

/-- The voxel `n = x + (a,b,c)` is inside the volume, differs from `x`, is an
accepted centerpoint, and is closer to `x` than `maxD` and than `maxD/2`. -/
def nearCenterpoint (sq : ℚ → ℚ) (size : Int3) (centerpoints : Int → Int) (x : Int3)
    (maxD : Int) (a b c : Int) : Prop :=
  let n : Int3 := { x := x.x + a, y := x.y + b, z := x.z + c }
  let r : Float3 := { x := ((n.x - x.x : Int) : ℚ), y := ((n.y - x.y : Int) : ℚ),
                      z := ((n.z - x.z : Int) : ℚ) }
  inBounds n size = true ∧ ¬ (a = 0 ∧ b = 0 ∧ c = 0) ∧ centerpoints (POS size n) = 1 ∧
    sq (r.x * r.x + r.y * r.y + r.z * r.z) < (maxD : ℚ) ∧
    sq (r.x * r.x + r.y * r.y + r.z * r.z) < (maxD : ℚ) * (1 / 2)

/-- In the locals `s`, the offset `(a,b,c)` has been dealt with: if `invalid`
is not set and `x + (a,b,c)` is a near centerpoint, it is on the stack
`remove`. -/
def Handled (sq : ℚ → ℚ) (size : Int3) (centerpoints : Int → Int) (x : Int3)
    (maxD : Int) (a b c : Int) (s : CandidateScan) : Prop :=
  s.invalid = false → nearCenterpoint sq size centerpoints x maxD a b c →
    ({ x := x.x + a, y := x.y + b, z := x.z + c } : Int3) ∈ s.remove

/-- No two marked voxels inside the volume are face- or edge-adjacent. -/
def Spaced (size : Int3) (centerpoints : Int → Int) : Prop :=
  ∀ p q : Int3, inBounds p size = true → inBounds q size = true → p ≠ q →
    centerpoints (POS size p) = 1 → centerpoints (POS size q) = 1 →
    3 ≤ (p.x - q.x) ^ 2 + (p.y - q.y) ^ 2 + (p.z - q.z) ^ 2

/-! ## Connectivity of the labels -/

/-- The voxels with a nonzero TDF of the cross volume: those of the bend
volume and the voxel `(7,2,3)`, which lengthens the leg on `x = 7` past the
corner `(7,3,3)`. -/
def crossTDF : List (Int3 × ℚ) := (⟨7, 2, 3⟩, 9 / 16) :: bendTDF

/-- The cross volume: the bend volume with the TDF `crossTDF`. -/
def crossTube : TubeSegmentation := { bendTube with TDF := tableField bendSize crossTDF }

/-- The seed on the voxel `(x,y,3)` of the cross volume. -/
def crossSeed (x y : Int) : point :=
  { value := crossTube.TDF (LPOS bendSize x y 3), x := x, y := y, z := 3 }

/-- The state of the seed loop on the cross volume after the first `n` seeds
of the queue. -/
def crossState (n : Nat) : RidgeState :=
  (ridgeLoop sqrtQ 1 30 (writeSentinel crossTube) bendSize
    ((popOrder (collectSeeds crossTube bendSize)).take n) initialRidgeState).getD
      initialRidgeState

/-- The voxels `(7,2,3)` to `(7,8,3)` of the leg on `x = 7`. -/
def legVoxels : List Int3 :=
  [⟨7, 2, 3⟩, ⟨7, 3, 3⟩, ⟨7, 4, 3⟩, ⟨7, 5, 3⟩, ⟨7, 6, 3⟩, ⟨7, 7, 3⟩, ⟨7, 8, 3⟩]

/-- Two different voxels are 26-neighbours. -/
def adjacent26 (p q : Int3) : Prop :=
  p ≠ q ∧ |p.x - q.x| ≤ 1 ∧ |p.y - q.y| ≤ 1 ∧ |p.z - q.z| ≤ 1

/-- The voxel lies in the grid and carries `label` in the label volume. -/
def hasLabel (size : Int3) (centerlines : Int → Int) (label : Int) (p : Int3) : Prop :=
  inGrid size p ∧ centerlines (POS size p) = label

/-- A chain of 26-neighbouring voxels that carry `label` leads from `p` to `q`. -/
def LabelChain (size : Int3) (centerlines : Int → Int) (label : Int) : Int3 → Int3 → Prop :=
  Relation.ReflTransGen (fun p q => adjacent26 p q ∧ hasLabel size centerlines label q)

/-- The set of voxels that carry `label` is 26-connected. -/
def Connected26 (size : Int3) (centerlines : Int → Int) (label : Int) : Prop :=
  ∀ p q, hasLabel size centerlines label p → hasLabel size centerlines label q →
    LabelChain size centerlines label p q

/-- The 27 voxels of the 3 x 3 x 3 block around `p`. -/
def block27 (p : Int3) : List Int3 :=
  (intRange (-1) 2).flatMap (fun a =>
    (intRange (-1) 2).flatMap (fun b =>
      (intRange (-1) 2).map (fun c => ({ x := p.x + a, y := p.y + b, z := p.z + c } : Int3))))

/-! ## Loop lemmas -/

theorem forUp_zero_two (body : Nat → σ → σ) (s : σ) : forUp 0 2 body s = body 1 (body 0 s) := rfl

theorem forUp_one_three (body : Nat → σ → σ) (s : σ) : forUp 1 3 body s = body 2 (body 1 s) := rfl

theorem forUp_two_three (body : Nat → σ → σ) (s : σ) : forUp 2 3 body s = body 2 s := rfl

theorem forUp_zero_three (body : Nat → σ → σ) (s : σ) :
    forUp 0 3 body s = body 2 (body 1 (body 0 s)) := rfl

/-! ## The final sort of `tql2` -/

theorem sortSelect_zero (s : EigState) :
    ∃ k p, forUp (0 + 1) SIZE (fun j (kp : Nat × ℚ) =>
        if |s.d j| < |kp.2| then (j, s.d j) else kp) (0, s.d 0) = (k, p) ∧
      k < 3 ∧ p = s.d k ∧ |p| ≤ |s.d 0| ∧ |p| ≤ |s.d 1| ∧ |p| ≤ |s.d 2| := by
  simp only [forUp, SIZE, List.range', List.foldl]
  by_cases h1 : |s.d 1| < |s.d 0|
  · by_cases h2 : |s.d 2| < |s.d 1|
    · exact ⟨2, s.d 2, by simp [h1, h2], by decide, rfl, by linarith, by linarith, le_refl _⟩
    · exact ⟨1, s.d 1, by simp [h1, h2], by decide, rfl, by linarith, le_refl _, by linarith⟩
  · by_cases h2 : |s.d 2| < |s.d 0|
    · exact ⟨2, s.d 2, by simp [h1, h2], by decide, rfl, by linarith, by linarith, le_refl _⟩
    · exact ⟨0, s.d 0, by simp [h1, h2], by decide, rfl, le_refl _, by linarith, by linarith⟩

theorem swapLoop (V : Nat → Nat → ℚ) (i k : Nat) (hik : i ≠ k) (a b : Nat) (ha : a < 3) :
    forUp 0 SIZE (fun j V =>
      let p := V j i
      let W := set2 V j i (V j k)
      set2 W j k p) V a b = if b = i then V a k else if b = k then V a i else V a b := by
  simp only [forUp, SIZE, List.range', List.foldl, set2]
  interval_cases a <;> by_cases h1 : b = i <;> by_cases h2 : b = k <;> simp [h1, h2, hik, hik.symm]

theorem tql2SortStep_zero (s : EigState) :
    |(tql2SortStep 0 s).d 0| ≤ |(tql2SortStep 0 s).d 1| ∧
    |(tql2SortStep 0 s).d 0| ≤ |(tql2SortStep 0 s).d 2| ∧
    ∃ σ : Equiv.Perm (Fin 3), ∀ i : Fin 3,
      (tql2SortStep 0 s).d i = s.d (σ i) ∧ ∀ j : Fin 3, (tql2SortStep 0 s).V j i = s.V j (σ i) := by
  obtain ⟨k, p, hsel, hk, hp, h0, h1, h2⟩ := sortSelect_zero s
  unfold tql2SortStep
  rw [hsel]
  subst hp
  interval_cases k
  · simp only [ne_eq, not_true_eq_false, if_false]
    exact ⟨h1, h2, Equiv.refl _, fun i => ⟨rfl, fun j => rfl⟩⟩
  · simp only [ne_eq, one_ne_zero, not_false_eq_true, if_true]
    refine ⟨by simpa [set1] using h0, by simpa [set1] using h2, Equiv.swap 0 1, ?_⟩
    intro i
    constructor
    · fin_cases i <;> simp [set1, Equiv.swap_apply_def]
    · intro j
      rw [swapLoop _ _ _ (by decide) _ _ j.isLt]
      fin_cases i <;> simp [Equiv.swap_apply_def]
  · simp only [ne_eq, OfNat.ofNat_ne_zero, not_false_eq_true, if_true]
    refine ⟨by simpa [set1] using h1, by simpa [set1] using h0, Equiv.swap 0 2, ?_⟩
    intro i
    constructor
    · fin_cases i <;> simp [set1, Equiv.swap_apply_def]
    · intro j
      rw [swapLoop _ _ _ (by decide) _ _ j.isLt]
      fin_cases i <;> simp [Equiv.swap_apply_def]

theorem sortSelect_one (s : EigState) :
    ∃ k p, forUp (1 + 1) SIZE (fun j (kp : Nat × ℚ) =>
        if |s.d j| < |kp.2| then (j, s.d j) else kp) (1, s.d 1) = (k, p) ∧
      1 ≤ k ∧ k < 3 ∧ p = s.d k ∧ |p| ≤ |s.d 1| ∧ |p| ≤ |s.d 2| := by
  simp only [forUp, SIZE, List.range', List.foldl]
  by_cases h2 : |s.d 2| < |s.d 1|
  · exact ⟨2, s.d 2, by simp [h2], by decide, by decide, rfl, by linarith, le_refl _⟩
  · exact ⟨1, s.d 1, by simp [h2], by decide, by decide, rfl, le_refl _, by linarith⟩

theorem tql2SortStep_one (s : EigState) :
    |(tql2SortStep 1 s).d 1| ≤ |(tql2SortStep 1 s).d 2| ∧
    ∃ σ : Equiv.Perm (Fin 3), σ 0 = 0 ∧ ∀ i : Fin 3,
      (tql2SortStep 1 s).d i = s.d (σ i) ∧ ∀ j : Fin 3, (tql2SortStep 1 s).V j i = s.V j (σ i) := by
  obtain ⟨k, p, hsel, hk1, hk, hp, h1, h2⟩ := sortSelect_one s
  unfold tql2SortStep
  rw [hsel]
  subst hp
  interval_cases k
  · simp only [ne_eq, not_true_eq_false, if_false]
    exact ⟨h2, Equiv.refl _, rfl, fun i => ⟨rfl, fun j => rfl⟩⟩
  · simp only [ne_eq, OfNat.ofNat_ne_one, not_false_eq_true, if_true]
    refine ⟨by simpa [set1] using h1, Equiv.swap 1 2, by decide, ?_⟩
    intro i
    constructor
    · fin_cases i <;> simp [set1, Equiv.swap_apply_def]
    · intro j
      rw [swapLoop _ _ _ (by decide) _ _ j.isLt]
      fin_cases i <;> simp [Equiv.swap_apply_def]

/-- The final sort of `tql2` leaves `d` in ascending order of absolute value
and applies one permutation to `d` and to the columns of `V`. -/
theorem tql2Sort_sorted (s : EigState) :
    |(tql2Sort s).d 0| ≤ |(tql2Sort s).d 1| ∧ |(tql2Sort s).d 1| ≤ |(tql2Sort s).d 2| ∧
    ∃ σ : Equiv.Perm (Fin 3), ∀ i : Fin 3,
      (tql2Sort s).d i = s.d (σ i) ∧ ∀ j : Fin 3, (tql2Sort s).V j i = s.V j (σ i) := by
  have e : tql2Sort s = tql2SortStep 1 (tql2SortStep 0 s) := rfl
  obtain ⟨a1, a2, σ0, h0⟩ := tql2SortStep_zero s
  obtain ⟨b1, σ1, hfix, h1⟩ := tql2SortStep_one (tql2SortStep 0 s)
  rw [e]
  generalize tql2SortStep 0 s = t0 at a1 a2 h0 b1 h1
  generalize tql2SortStep 1 t0 = t1 at b1 h1
  have hd0 : t1.d 0 = t0.d 0 := by
    have h := (h1 0).1
    rw [hfix] at h
    exact h
  have hd1 : t1.d 1 = t0.d 1 ∨ t1.d 1 = t0.d 2 := by
    have h := (h1 1).1
    have hne : σ1 1 ≠ 0 := fun h => by
      have := σ1.injective (h.trans hfix.symm)
      exact absurd this (by decide)
    generalize σ1 1 = m at h hne
    fin_cases m
    · exact absurd rfl hne
    · exact Or.inl h
    · exact Or.inr h
  refine ⟨?_, b1, σ0 * σ1, ?_⟩
  · rw [hd0]
    rcases hd1 with h | h
    · rw [h]; exact a1
    · rw [h]; exact a2
  · intro i
    constructor
    · rw [(h1 i).1, (h0 (σ1 i)).1, Equiv.Perm.mul_apply]
    · intro j
      rw [(h1 i).2 j, (h0 (σ1 i)).2 j, Equiv.Perm.mul_apply]

theorem mem_intRange (lo hi i : Int) : i ∈ intRange lo hi ↔ lo ≤ i ∧ i < hi := by
  unfold intRange
  rw [List.mem_map]
  constructor
  · rintro ⟨k, hk, rfl⟩
    rw [List.mem_range] at hk
    have := Int.lt_toNat.mp hk
    omega
  · rintro ⟨h1, h2⟩
    have e : ((i - lo).toNat : Int) = i - lo := Int.toNat_of_nonneg (by omega)
    exact ⟨(i - lo).toNat, List.mem_range.mpr (Int.lt_toNat.mpr (by omega)), by omega⟩

theorem foldl_prepend_append {α β : Type} (g : β → List α) (l : List β) (q : List α) :
    l.foldl (fun acc i => g i ++ acc) q = l.foldl (fun acc i => g i ++ acc) [] ++ q := by
  induction l generalizing q with
  | nil => simp
  | cons b l ih =>
    simp only [List.foldl_cons, List.append_nil]
    rw [ih (g b ++ q), ih (g b), List.append_assoc]

theorem mem_foldl_prepend {α β : Type} (g : β → List α) (l : List β) (q : List α) (p : α) :
    p ∈ l.foldl (fun acc i => g i ++ acc) q ↔ p ∈ q ∨ ∃ i ∈ l, p ∈ g i := by
  induction l generalizing q with
  | nil => simp
  | cons b l ih =>
    simp only [List.foldl_cons, ih, List.mem_append, List.mem_cons, exists_eq_or_imp]
    tauto

/-- A loop whose body only puts new elements in front of the accumulator. -/
theorem forInt_prepend {α : Type} (lo hi : Int) (body : Int → List α → List α)
    (hb : ∀ i q, body i q = body i [] ++ q) (q : List α) :
    forInt lo hi body q = forInt lo hi body [] ++ q := by
  unfold forInt
  have e : (fun acc i => body i acc) = (fun acc i => body i [] ++ acc) := by
    funext acc i; exact hb i acc
  rw [e]
  exact foldl_prepend_append _ _ _

theorem mem_forInt {α : Type} (lo hi : Int) (body : Int → List α → List α)
    (hb : ∀ i q, body i q = body i [] ++ q) (p : α) :
    p ∈ forInt lo hi body [] ↔ ∃ i, lo ≤ i ∧ i < hi ∧ p ∈ body i [] := by
  unfold forInt
  have e : (fun acc i => body i acc) = (fun acc i => body i [] ++ acc) := by
    funext acc i; exact hb i acc
  rw [e, mem_foldl_prepend]
  simp only [List.not_mem_nil, false_or, mem_intRange]
  constructor
  · rintro ⟨i, ⟨h1, h2⟩, h3⟩; exact ⟨i, h1, h2, h3⟩
  · rintro ⟨i, h1, h2, h3⟩; exact ⟨i, ⟨h1, h2⟩, h3⟩

theorem foldl_and {β : Type} (g : β → Bool) (l : List β) (v : Bool) :
    l.foldl (fun acc i => acc && g i) v = (v && l.all g) := by
  induction l generalizing v with
  | nil => simp
  | cons b l ih => simp [ih, Bool.and_assoc]

theorem foldl_break {β : Type} (E : β → Prop) [DecidablePred E] (l : List β) (v b : Bool) :
    l.foldl (fun (st : Bool × Bool) c =>
      if st.2 then st else if E c then (false, true) else st) (v, b)
      = if b then (v, b) else if l.any (fun c => decide (E c)) then (false, true) else (v, false) := by
  induction l generalizing v b with
  | nil => cases b <;> simp
  | cons c l ih =>
    simp only [List.foldl_cons, List.any_cons]
    cases b
    · by_cases hc : E c
      · simp [hc, ih]
      · simp [hc, ih]
    · simp [ih]

/-! ## Seed collection -/

theorem POS_eq_LPOS (size : Int3) (x y z : Int) :
    POS size { x := x, y := y, z := z } = LPOS size x y z := by
  unfold POS LPOS
  ring

theorem seedScanC_eq (T : TubeSegmentation) (size : Int3) (x y z a b : Int) (valid : Bool) :
    seedScanC T size x y z a b valid =
      (valid && (intRange (-2) 2).all (fun c =>
        decide (¬ T.TDF (LPOS size (x + a) (y + b) (z + c)) > T.TDF (LPOS size x y z)))) := by
  unfold seedScanC forInt
  simp only [POS_eq_LPOS]
  rw [foldl_break (fun c => T.TDF (LPOS size (x + a) (y + b) (z + c)) > T.TDF (LPOS size x y z))]
  simp only [Bool.false_eq_true, if_false]
  by_cases h : ((intRange (-2) 2).any fun c =>
      decide (T.TDF (LPOS size (x + a) (y + b) (z + c)) > T.TDF (LPOS size x y z))) = true
  · rw [if_pos h]
    have : ((intRange (-2) 2).all fun c =>
        decide (¬ T.TDF (LPOS size (x + a) (y + b) (z + c)) > T.TDF (LPOS size x y z))) = false := by
      rw [List.any_eq_true] at h
      obtain ⟨c, hc, hE⟩ := h
      rw [List.all_eq_false]
      exact ⟨c, hc, by simpa using hE⟩
    rw [this]; simp
  · rw [if_neg h]
    have : ((intRange (-2) 2).all fun c =>
        decide (¬ T.TDF (LPOS size (x + a) (y + b) (z + c)) > T.TDF (LPOS size x y z))) = true := by
      rw [List.all_eq_true]
      intro c hc
      rw [List.any_eq_true] at h
      by_contra hE
      exact h ⟨c, hc, by simpa using hE⟩
    rw [this]; simp

/-- The flag `valid` of the seed test: no voxel of the 4x4x4 block has a
strictly larger TDF. -/
theorem seedValid_iff (T : TubeSegmentation) (size : Int3) (x y z : Int) :
    seedValid T size x y z = true ↔
      ∀ a b c : Int, -2 ≤ a → a < 2 → -2 ≤ b → b < 2 → -2 ≤ c → c < 2 →
        T.TDF (LPOS size (x + a) (y + b) (z + c)) ≤ T.TDF (LPOS size x y z) := by
  unfold seedValid
  have inner : ∀ a valid, forInt (-2) 2 (fun b valid => seedScanC T size x y z a b valid) valid
      = (valid && (intRange (-2) 2).all (fun b => (intRange (-2) 2).all (fun c =>
        decide (¬ T.TDF (LPOS size (x + a) (y + b) (z + c)) > T.TDF (LPOS size x y z))))) := by
    intro a valid
    unfold forInt
    simp only [seedScanC_eq]
    exact foldl_and _ _ _
  simp only [inner]
  unfold forInt
  rw [foldl_and]
  simp only [Bool.true_and, List.all_eq_true, mem_intRange, decide_eq_true_eq, not_lt]
  constructor
  · intro h a b c ha1 ha2 hb1 hb2 hc1 hc2
    exact h a ⟨ha1, ha2⟩ b ⟨hb1, hb2⟩ c ⟨hc1, hc2⟩
  · intro h a ha b hb c hc
    exact h a b c ha.1 ha.2 hb.1 hb.2 hc.1 hc.2

theorem seedVisit_prepend (T : TubeSegmentation) (size : Int3) (x y z : Int) (q : List point) :
    seedVisit T size x y z q = seedVisit T size x y z [] ++ q := by
  unfold seedVisit
  split_ifs <;> simp

theorem mem_seedVisit (T : TubeSegmentation) (size : Int3) (x y z : Int) (p : point) :
    p ∈ seedVisit T size x y z [] ↔
      p = { value := T.TDF (LPOS size x y z), x := x, y := y, z := z } ∧
        T.TDF (LPOS size x y z) ≥ Thigh ∧ seedValid T size x y z = true := by
  unfold seedVisit
  split_ifs with h1 h2
  · simp only [List.not_mem_nil, false_iff, not_and]
    intro _ h; exact absurd h1 (not_lt.mpr h)
  · simp only [List.mem_singleton]
    exact ⟨fun h => ⟨h, not_lt.mp h1, h2⟩, fun h => h.1⟩
  · simp only [List.not_mem_nil, false_iff, not_and]
    intro _ _ h; exact h2 h

/-- The points pushed by the seed collection loops. -/
theorem mem_collectSeeds (T : TubeSegmentation) (size : Int3) (p : point) :
    p ∈ collectSeeds T size ↔
      ∃ z, 2 ≤ z ∧ z < size.z - 2 ∧ ∃ y, 2 ≤ y ∧ y < size.y - 2 ∧ ∃ x, 2 ≤ x ∧ x < size.x - 2 ∧
        p = { value := T.TDF (LPOS size x y z), x := x, y := y, z := z } ∧
          T.TDF (LPOS size x y z) ≥ Thigh ∧ seedValid T size x y z = true := by
  unfold collectSeeds
  have hx : ∀ z y (q : List point),
      forInt 2 (size.x - 2) (fun x q => seedVisit T size x y z q) q
        = forInt 2 (size.x - 2) (fun x q => seedVisit T size x y z q) [] ++ q :=
    fun z y q => forInt_prepend _ _ _ (fun x q => seedVisit_prepend T size x y z q) q
  have hy : ∀ z (q : List point),
      forInt 2 (size.y - 2) (fun y q =>
          forInt 2 (size.x - 2) (fun x q => seedVisit T size x y z q) q) q
        = forInt 2 (size.y - 2) (fun y q =>
          forInt 2 (size.x - 2) (fun x q => seedVisit T size x y z q) q) [] ++ q :=
    fun z q => forInt_prepend _ _ _ (fun y q => hx z y q) q
  rw [mem_forInt _ _ _ (fun z q => hy z q)]
  refine exists_congr (fun z => and_congr_right (fun _ => and_congr_right (fun _ => ?_)))
  rw [mem_forInt _ _ _ (fun y q => hx z y q)]
  refine exists_congr (fun y => and_congr_right (fun _ => and_congr_right (fun _ => ?_)))
  rw [mem_forInt _ _ _ (fun x q => seedVisit_prepend T size x y z q)]
  refine exists_congr (fun x => and_congr_right (fun _ => and_congr_right (fun _ => ?_)))
  exact mem_seedVisit T size x y z p

/-- C3: the voxel `(x,y,z)` is pushed into the seed queue if and only if it
lies at least two voxels inside the grid on every axis, its TDF is at
least `Thigh`, and no voxel of the block of offsets `-2..1` around it has a
strictly larger TDF; the point pushed carries the TDF of the voxel. -/
theorem seed_pushed_iff (T : TubeSegmentation) (size : Int3) (x y z : Int) (v : ℚ) :
    ({ value := v, x := x, y := y, z := z } : point) ∈ popOrder (collectSeeds T size) ↔
      (2 ≤ x ∧ x < size.x - 2 ∧ 2 ≤ y ∧ y < size.y - 2 ∧ 2 ≤ z ∧ z < size.z - 2 ∧
        T.TDF (LPOS size x y z) ≥ Thigh ∧
        (∀ a b c : Int, -2 ≤ a → a < 2 → -2 ≤ b → b < 2 → -2 ≤ c → c < 2 →
          T.TDF (LPOS size (x + a) (y + b) (z + c)) ≤ T.TDF (LPOS size x y z)) ∧
        v = T.TDF (LPOS size x y z)) := by
  unfold popOrder
  rw [List.mem_mergeSort, List.mem_reverse, mem_collectSeeds]
  constructor
  · rintro ⟨z', hz1, hz2, y', hy1, hy2, x', hx1, hx2, hp, ht, hv⟩
    simp only [point.mk.injEq] at hp
    obtain ⟨rfl, rfl, rfl, rfl⟩ := hp
    exact ⟨hx1, hx2, hy1, hy2, hz1, hz2, ht, (seedValid_iff T size x y z).mp hv, rfl⟩
  · rintro ⟨hx1, hx2, hy1, hy2, hz1, hz2, ht, hv, rfl⟩
    exact ⟨z, hz1, hz2, y, hy1, hy2, x, hx1, hx2, rfl, ht, (seedValid_iff T size x y z).mpr hv⟩

/-- Every seed of the queue lies inside the margin. -/
theorem seed_inMargin (T : TubeSegmentation) (size : Int3) (p : point)
    (h : p ∈ popOrder (collectSeeds T size)) :
    inMargin size { x := p.x, y := p.y, z := p.z } := by
  unfold popOrder at h
  rw [List.mem_mergeSort, List.mem_reverse, mem_collectSeeds] at h
  obtain ⟨z, hz1, hz2, y, hy1, hy2, x, hx1, hx2, rfl, _, _⟩ := h
  unfold inMargin
  simp only
  omega

/-! ## The walk from one seed -/

theorem foldl_invariant {σ β : Type} (P : σ → Prop) (f : σ → β → σ) (l : List β) (s : σ)
    (h0 : P s) (hstep : ∀ i ∈ l, ∀ s, P s → P (f s i)) : P (l.foldl f s) := by
  induction l generalizing s with
  | nil => exact h0
  | cons b l ih =>
    simp only [List.foldl_cons]
    exact ih _ (hstep b (List.mem_cons_self _ _) s h0)
      (fun i hi s hs => hstep i (List.mem_cons_of_mem _ hi) s hs)

theorem forInt_invariant {σ : Type} (P : σ → Prop) (lo hi : Int) (body : Int → σ → σ) (s : σ)
    (h0 : P s) (hstep : ∀ i, lo ≤ i → i < hi → ∀ s, P s → P (body i s)) :
    P (forInt lo hi body s) := by
  unfold forInt
  apply foldl_invariant P _ _ _ h0
  intro i hi s hs
  rw [mem_intRange] at hi
  exact hstep i hi.1 hi.2 s hs

/-- The point a scan of the neighbours ends on is the initial `{0,0,0}` or one
of the 26 neighbours of the current position. -/
theorem scanNeighbors_cases (sq : ℚ → ℚ) (T : TubeSegmentation) (size position : Int3)
    (t_i : Float3) :
    scanNeighbors sq T size position t_i = { x := 0, y := 0, z := 0 } ∨
    ∃ a b c : Int, -1 ≤ a ∧ a ≤ 1 ∧ -1 ≤ b ∧ b ≤ 1 ∧ -1 ≤ c ∧ c ≤ 1 ∧
      scanNeighbors sq T size position t_i =
        { x := position.x + a, y := position.y + b, z := position.z + c } := by
  unfold scanNeighbors
  let P : Int3 → Prop := fun mp => mp = { x := 0, y := 0, z := 0 } ∨
    ∃ a b c : Int, -1 ≤ a ∧ a ≤ 1 ∧ -1 ≤ b ∧ b ≤ 1 ∧ -1 ≤ c ∧ c ≤ 1 ∧
      mp = { x := position.x + a, y := position.y + b, z := position.z + c }
  apply forInt_invariant P
  · exact Or.inl rfl
  · intro a ha1 ha2 mp hmp
    apply forInt_invariant P _ _ _ _ hmp
    intro b hb1 hb2 mp hmp
    apply forInt_invariant P _ _ _ _ hmp
    intro c hc1 hc2 mp hmp
    unfold scanVisit
    simp only
    split_ifs
    all_goals first
      | exact hmp
      | exact Or.inr ⟨a, b, c, ha1, by omega, hb1, by omega, hc1, by omega, rfl⟩

theorem POS_in_range (size pos : Int3) (h : inMargin size pos) :
    0 ≤ POS size pos ∧ POS size pos < totalSize size := by
  obtain ⟨hx1, hx2, hy1, hy2, hz1, hz2⟩ := h
  unfold POS totalSize
  constructor
  · have h1 : 0 ≤ pos.y * size.x := mul_nonneg (by omega) (by omega)
    have h2 : 0 ≤ pos.z * size.x * size.y := mul_nonneg (mul_nonneg (by omega) (by omega)) (by omega)
    omega
  · have h1 : pos.y * size.x ≤ (size.y - 2) * size.x := mul_le_mul_of_nonneg_right hy2 (by omega)
    have h2 : pos.z * (size.x * size.y) ≤ (size.z - 2) * (size.x * size.y) :=
      mul_le_mul_of_nonneg_right hz2 (mul_nonneg (by omega) (by omega))
    have h3 : 0 < size.x * size.y := mul_pos (by omega) (by omega)
    nlinarith

theorem LPOS_eq_POS (size p : Int3) : LPOS size p.x p.y p.z = POS size p := by
  unfold POS LPOS
  ring

/-- The three ways a pass through the loop body can end: a `break` that leaves
the locals alone, a hit on an existing tree, or the acceptance of a new point
inside the margin that no tree and no earlier step of this walk owns. -/
theorem traverseStep_cases (sq : ℚ → ℚ) (fuelE : Nat) (T : TubeSegmentation) (size : Int3)
    (centerlines : Int → Int) (tr : Traversal) (w : Walker) (r : StepResult)
    (h : traverseStep sq fuelE T size centerlines tr w = some r) :
    (∃ ex, r = StepResult.stop tr ex ∧ ∀ t, ex ≠ Exit.hit t) ∨
    (∃ t, 0 < t ∧ r = StepResult.stop (recordHit tr t) (Exit.hit t)) ∨
    (∃ maxPoint fr, r = acceptPoint sq T size tr w maxPoint fr ∧ inMargin size maxPoint ∧
      centerlines (POS size maxPoint) ≤ 0 ∧ tr.newCenterlines (POS size maxPoint) ≠ 1) := by
  unfold traverseStep at h
  simp only at h
  split_ifs at h with hb hsum hhit hlow hloop
  · exact Or.inl ⟨Exit.outOfBounds, (Option.some.inj h).symm, fun t => by simp⟩
  · exact Or.inr (Or.inl ⟨_, hhit, (Option.some.inj h).symm⟩)
  · exact Or.inl ⟨Exit.belowThreshold, (Option.some.inj h).symm, fun t => by simp⟩
  · exact Or.inl ⟨Exit.loop, (Option.some.inj h).symm, fun t => by simp⟩
  · rw [Option.map_eq_some'] at h
    obtain ⟨fr, _, hr⟩ := h
    refine Or.inr (Or.inr ⟨_, fr, hr.symm, ?_, ?_, ?_⟩)
    · rcases scanNeighbors_cases sq T size w.position w.t_i with h0 | ⟨a, b, c, ha1, ha2, hb1, hb2, hc1, hc2, hn⟩
      · rw [h0] at hsum
        simp at hsum
      · rw [hn]
        simp only [not_or, not_lt] at hb
        unfold inMargin
        simp only
        omega
    · rw [← LPOS_eq_POS]; exact not_lt.mp hhit
    · rw [← LPOS_eq_POS]; exact hloop
  · exact Or.inl ⟨Exit.noPoint, (Option.some.inj h).symm, fun t => by simp⟩

theorem acceptPoint_spec (sq : ℚ → ℚ) (T : TubeSegmentation) (size : Int3) (tr : Traversal)
    (w : Walker) (maxPoint : Int3) (fr : EigenFrame) (hin : inMargin size maxPoint) :
    ∃ tr1 w1, acceptPoint sq T size tr w maxPoint fr = StepResult.next tr1 w1 ∧
      (PathInv T size tr → PathInv T size tr1) ∧ SameConn tr tr1 := by
  unfold acceptPoint
  refine ⟨_, _, rfl, ?_, ⟨rfl, rfl, rfl⟩⟩
  intro hinv
  simp only [LPOS_eq_POS]
  constructor
  · simp only [List.length_cons, Nat.cast_add, Nat.cast_one, hinv.dist]
  · simp only [List.map_cons, List.sum_cons, hinv.mean]
    ring
  · intro q hq
    simp only [List.mem_cons] at hq
    unfold setAt
    rcases hq with rfl | hq
    · simp
    · by_cases he : POS size q.pos = POS size maxPoint
      · simp [he]
      · simp [he, hinv.marked q hq]
  · intro q hq
    simp only [List.mem_cons] at hq
    rcases hq with rfl | hq
    · exact hin
    · exact hinv.inside q hq

theorem recordHit_pathInv (T : TubeSegmentation) (size : Int3) (tr : Traversal) (t : Int)
    (hinv : PathInv T size tr) : PathInv T size (recordHit tr t) := by
  unfold recordHit
  split_ifs <;> exact ⟨hinv.dist, hinv.mean, hinv.marked, hinv.inside⟩

theorem recordHit_connInv (tr : Traversal) (t : Int) (ht : 0 < t) (hinv : ConnInv tr) :
    ConnInv (recordHit tr t) := by
  unfold recordHit
  split_ifs with h1 h2
  · refine ⟨Or.inr ht, ?_, hinv.conn⟩
    rcases hinv.second with h | ⟨_, h, _⟩
    · exact Or.inl h
    · exact absurd h1 h
  · exact ⟨hinv.prev, hinv.second, Or.inr rfl⟩
  · exact ⟨hinv.prev, Or.inr ⟨ht, h1, fun h => h2 h.symm⟩, hinv.conn⟩

/-- The `while(true)` loop of a direction: up to the `break` the walk keeps its
connection locals and its path bookkeeping stays consistent; a hit then
records the positive label it stepped on, any other `break` changes nothing. -/
theorem traverseLoop_spec (sq : ℚ → ℚ) (fuelE : Nat) (T : TubeSegmentation) (size : Int3)
    (centerlines : Int → Int) (fuelT : Nat) :
    ∀ (tr : Traversal) (w : Walker) (tr1 : Traversal) (ex : Exit),
      traverseLoop sq fuelE T size centerlines fuelT tr w = some (tr1, ex) →
      ∃ trm, (PathInv T size tr → PathInv T size trm) ∧ SameConn tr trm ∧
        ((∃ t, ex = Exit.hit t ∧ 0 < t ∧ tr1 = recordHit trm t) ∨
          ((∀ t, ex ≠ Exit.hit t) ∧ tr1 = trm)) := by
  induction fuelT with
  | zero => intro tr w tr1 ex h; simp [traverseLoop] at h
  | succ n ih =>
    intro tr w tr1 ex h
    unfold traverseLoop at h
    cases hstep : traverseStep sq fuelE T size centerlines tr w with
    | none => rw [hstep] at h; simp at h
    | some r =>
      rw [hstep] at h
      rcases traverseStep_cases sq fuelE T size centerlines tr w r hstep with
        ⟨ex0, rfl, hex⟩ | ⟨t, ht, rfl⟩ | ⟨maxPoint, fr, rfl, hin, _, _⟩
      · simp only [Option.some.injEq, Prod.mk.injEq] at h
        obtain ⟨rfl, rfl⟩ := h
        exact ⟨tr, id, ⟨rfl, rfl, rfl⟩, Or.inr ⟨hex, rfl⟩⟩
      · simp only [Option.some.injEq, Prod.mk.injEq] at h
        obtain ⟨rfl, rfl⟩ := h
        exact ⟨tr, id, ⟨rfl, rfl, rfl⟩, Or.inl ⟨t, rfl, ht, rfl⟩⟩
      · obtain ⟨tr2, w2, he, hinv2, hsame⟩ := acceptPoint_spec sq T size tr w maxPoint fr hin
        rw [he] at h
        simp only at h
        obtain ⟨trm, hm1, hm2, hm3⟩ := ih tr2 w2 tr1 ex h
        refine ⟨trm, fun hinv => hm1 (hinv2 hinv), ?_, hm3⟩
        exact ⟨hm2.1.trans hsame.1, hm2.2.1.trans hsame.2.1, hm2.2.2.trans hsame.2.2⟩

theorem traverseDirection_spec (sq : ℚ → ℚ) (fuelE fuelT : Nat) (T : TubeSegmentation)
    (size : Int3) (centerlines : Int → Int) (p : point) (direction : Int)
    (tr tr1 : Traversal) (ex : Exit)
    (h : traverseDirection sq fuelE fuelT T size centerlines p direction tr = some (tr1, ex)) :
    ∃ trm, (PathInv T size tr → PathInv T size trm) ∧ SameConn tr trm ∧
      ((∃ t, ex = Exit.hit t ∧ 0 < t ∧ tr1 = recordHit trm t) ∨
        ((∀ t, ex ≠ Exit.hit t) ∧ tr1 = trm)) := by
  unfold traverseDirection at h
  simp only [Option.bind_eq_some] at h
  obtain ⟨e, _, hl⟩ := h
  exact traverseLoop_spec sq fuelE T size centerlines fuelT _ _ _ _ hl

theorem connInv_of_sameConn (tr trm : Traversal) (h : SameConn tr trm) (hinv : ConnInv tr) :
    ConnInv trm := by
  obtain ⟨h1, h2, h3⟩ := h
  exact ⟨by rw [h1]; exact hinv.prev, by rw [h1, h2]; exact hinv.second,
    by rw [h3]; exact hinv.conn⟩

theorem traverseDirection_inv (sq : ℚ → ℚ) (fuelE fuelT : Nat) (T : TubeSegmentation)
    (size : Int3) (centerlines : Int → Int) (p : point) (direction : Int)
    (tr tr1 : Traversal) (ex : Exit)
    (h : traverseDirection sq fuelE fuelT T size centerlines p direction tr = some (tr1, ex)) :
    (PathInv T size tr → PathInv T size tr1) ∧ (ConnInv tr → ConnInv tr1) := by
  obtain ⟨trm, hp, hs, hex⟩ := traverseDirection_spec sq fuelE fuelT T size centerlines p
    direction tr tr1 ex h
  rcases hex with ⟨t, _, ht, rfl⟩ | ⟨_, rfl⟩
  · exact ⟨fun hi => recordHit_pathInv T size trm t (hp hi),
      fun hi => recordHit_connInv trm t ht (connInv_of_sameConn tr trm hs hi)⟩
  · exact ⟨hp, connInv_of_sameConn tr tr1 hs⟩

theorem startTraversal_pathInv (T : TubeSegmentation) (size : Int3) (p : point)
    (hseed : inMargin size { x := p.x, y := p.y, z := p.z }) :
    PathInv T size (startTraversal T size p) := by
  unfold startTraversal
  constructor
  · simp
  · simp [POS_eq_LPOS]
  · intro q hq
    simp only [List.mem_singleton] at hq
    subst hq
    simp [setAt, POS_eq_LPOS]
  · intro q hq
    simp only [List.mem_singleton] at hq
    subst hq
    exact hseed

theorem startTraversal_connInv (T : TubeSegmentation) (size : Int3) (p : point) :
    ConnInv (startTraversal T size p) :=
  ⟨Or.inl rfl, Or.inl rfl, Or.inl rfl⟩

/-- The locals at the end of the walk from a seed: the connection locals are
consistent, and so is the path bookkeeping when the seed lies in the margin. -/
theorem traverseSeed_inv (sq : ℚ → ℚ) (fuelE fuelT : Nat) (T : TubeSegmentation) (size : Int3)
    (centerlines : Int → Int) (p : point) (tr : Traversal) (ex1 ex2 : Exit)
    (h : traverseSeed sq fuelE fuelT T size centerlines p = some (tr, ex1, ex2)) :
    ConnInv tr ∧ (inMargin size { x := p.x, y := p.y, z := p.z } → PathInv T size tr) := by
  unfold traverseSeed at h
  simp only [Option.bind_eq_some, Option.map_eq_some'] at h
  obtain ⟨⟨tr1, e1⟩, h1, ⟨tr2, e2⟩, h2, heq⟩ := h
  simp only [Prod.mk.injEq] at heq
  obtain ⟨rfl, rfl, rfl⟩ := heq
  have i1 := traverseDirection_inv sq fuelE fuelT T size centerlines p (-1) _ _ _ h1
  have i2 := traverseDirection_inv sq fuelE fuelT T size centerlines p 1 _ _ _ h2
  exact ⟨i2.2 (i1.2 (startTraversal_connInv T size p)),
    fun hseed => i2.1 (i1.1 (startTraversal_pathInv T size p hseed))⟩

/-! ## Acceptance of a path -/

theorem relabelPath_marked (size : Int3) (nc : Int → Int) (label : Int) (cl : Int → Int)
    (pos : Int3) (hin : inMargin size pos) (hm : nc (POS size pos) = 1) :
    relabelPath size nc label cl (POS size pos) = label := by
  obtain ⟨h1, h2⟩ := POS_in_range size pos hin
  unfold relabelPath
  simp [h1, h2, hm]

theorem relabelTree_of_eq (size : Int3) (old label : Int) (cl : Int → Int) (i : Int)
    (h : cl i = label) : relabelTree size old label cl i = label := by
  unfold relabelTree
  split_ifs <;> simp [h]

theorem acceptPath_rejected (size : Int3) (st : RidgeState) (tr : Traversal)
    (h : ¬ acceptTest tr) : acceptPath size st tr = st := by
  unfold acceptPath
  rw [if_neg h]

/-- An accepted path carries one label afterwards: the fresh id `counter` when
it touched no tree, the id of the first tree it touched otherwise. -/
theorem acceptPath_labels (T : TubeSegmentation) (size : Int3) (st : RidgeState)
    (tr : Traversal) (hinv : PathInv T size tr) (h : acceptTest tr) :
    ∀ q ∈ tr.stack, (acceptPath size st tr).centerlines (POS size q.pos) =
      if tr.prevConnection = -1 then st.counter else tr.prevConnection := by
  intro q hq
  have hl := fun label => relabelPath_marked size tr.newCenterlines label st.centerlines q.pos
    (hinv.inside q hq) (hinv.marked q hq)
  unfold acceptPath
  rw [if_pos h]
  by_cases h1 : tr.prevConnection = -1
  · simp only [h1, if_true]
    exact hl _
  · simp only [h1, if_false]
    by_cases h2 : tr.secondConnection = -1
    · simp only [h2, ne_eq, not_true_eq_false, if_false]
      exact hl _
    · simp only [h2, ne_eq, not_false_eq_true, if_true]
      exact relabelTree_of_eq _ _ _ _ _ (hl _)

/-- C5: when both directions of the walk from a seed end by stepping onto a
voxel of the same tree `t`, `connections` is 5 at the end and the seed
iteration returns the state it was given: no label, no tree length, no
path stack and no counter changes. -/
theorem same_tree_twice_rejected (sq : ℚ → ℚ) (fuelE fuelT : Nat) (T : TubeSegmentation)
    (size : Int3) (st : RidgeState) (p : point) (tr1 tr2 : Traversal) (t : Int)
    (h1 : traverseDirection sq fuelE fuelT T size st.centerlines p (-1)
      (startTraversal T size p) = some (tr1, Exit.hit t))
    (h2 : traverseDirection sq fuelE fuelT T size st.centerlines p 1 tr1
      = some (tr2, Exit.hit t)) :
    tr2.connections = 5 ∧ seedIteration sq fuelE fuelT T size st p = some st := by
  obtain ⟨trm, _, hs, hex⟩ := traverseDirection_spec sq fuelE fuelT T size st.centerlines p
    (-1) _ _ _ h1
  obtain ⟨trn, _, hs2, hex2⟩ := traverseDirection_spec sq fuelE fuelT T size st.centerlines p
    1 _ _ _ h2
  have hprev1 : tr1.prevConnection = t ∧ 0 < t := by
    rcases hex with ⟨t1, ht1, hpos, rfl⟩ | ⟨hne, _⟩
    · have : t1 = t := by injection ht1 with h; exact h.symm
      subst this
      have hm : trm.prevConnection = -1 := hs.1
      unfold recordHit
      rw [if_pos hm]
      exact ⟨rfl, hpos⟩
    · exact absurd rfl (hne t)
  have hconn : tr2.connections = 5 := by
    rcases hex2 with ⟨t2, ht2, hpos, rfl⟩ | ⟨hne, _⟩
    · have : t2 = t := by injection ht2 with h; exact h.symm
      subst this
      have hn : trn.prevConnection = t2 := hs2.1.trans hprev1.1
      unfold recordHit
      rw [if_neg (by rw [hn]; omega), if_pos hn]
    · exact absurd rfl (hne t)
  refine ⟨hconn, ?_⟩
  unfold seedIteration
  split_ifs with hskip
  · rfl
  · have htr : traverseSeed sq fuelE fuelT T size st.centerlines p
        = some (tr2, Exit.hit t, Exit.hit t) := by
      unfold traverseSeed
      rw [h1]
      simp only [Option.some_bind]
      rw [h2]
      rfl
    rw [htr]
    simp only [Option.map_some']
    rw [acceptPath_rejected]
    unfold acceptTest
    rw [hconn]
    simp

/-! ## The maps of the seed loop -/

theorem IntMap.find?_nil {α : Type} (k : Int) : IntMap.find? ([] : IntMap α) k = none := rfl

theorem IntMap.find?_cons {α : Type} (en : Int × α) (m : IntMap α) (k : Int) :
    IntMap.find? (en :: m) k = if en.1 = k then some en.2 else IntMap.find? m k := by
  unfold IntMap.find?
  by_cases h : en.1 = k
  · simp [List.find?, h]
  · simp [List.find?, h]

theorem IntMap.find?_eq_none {α : Type} (m : IntMap α) (k : Int) (h : k ∉ IntMap.keys m) :
    IntMap.find? m k = none := by
  induction m with
  | nil => rfl
  | cons en m ih =>
    simp only [IntMap.keys, List.map_cons, List.mem_cons, not_or] at h
    rw [IntMap.find?_cons, if_neg (fun e => h.1 e.symm)]
    exact ih h.2

theorem IntMap.find?_append {α : Type} (m n : IntMap α) (k : Int) :
    IntMap.find? (m ++ n) k = (IntMap.find? m k).orElse (fun _ => IntMap.find? n k) := by
  induction m with
  | nil => rfl
  | cons en m ih =>
    rw [List.cons_append, IntMap.find?_cons, IntMap.find?_cons]
    split_ifs
    · rfl
    · exact ih

theorem IntMap.find?_map_set {α : Type} (m : IntMap α) (k : Int) (v : α) (k1 : Int) :
    IntMap.find? (List.map (fun en => if en.1 = k then (k, v) else en) m) k1 =
      if k1 = k then (if k ∈ IntMap.keys m then some v else none) else IntMap.find? m k1 := by
  induction m with
  | nil => simp [IntMap.find?_nil, IntMap.keys]
  | cons en m ih =>
    rw [List.map_cons, IntMap.find?_cons, IntMap.find?_cons, ih]
    simp only [IntMap.keys, List.map_cons, List.mem_cons]
    by_cases h1 : en.1 = k
    · by_cases h2 : k1 = k
      · simp [h1, h2]
      · have : ¬ k = k1 := fun e => h2 e.symm
        simp [h1, h2, this]
    · by_cases h2 : k1 = k
      · subst h2
        have : ¬ k1 = en.1 := fun e => h1 e.symm
        simp only [h1, this, if_false, if_true, false_or]
      · simp [h1, h2]

theorem IntMap.get_set {α : Type} (m : IntMap α) (k : Int) (v d : α) (k1 : Int) :
    IntMap.get (IntMap.set m k v) k1 d = if k1 = k then v else IntMap.get m k1 d := by
  unfold IntMap.get IntMap.set
  by_cases hk : k ∈ IntMap.keys m
  · rw [if_pos hk, IntMap.find?_map_set, if_pos hk]
    split_ifs <;> rfl
  · rw [if_neg hk, IntMap.find?_append, IntMap.find?_cons, IntMap.find?_nil]
    by_cases h2 : k1 = k
    · subst h2
      rw [IntMap.find?_eq_none m k1 hk]
      simp
    · have : ¬ k = k1 := fun e => h2 e.symm
      simp only [this, if_false, h2]
      cases IntMap.find? m k1 <;> rfl

theorem IntMap.get_touch (m : IntMap Int) (k k1 : Int) :
    IntMap.get (IntMap.touch m k 0) k1 0 = IntMap.get m k1 0 := by
  unfold IntMap.get IntMap.touch
  by_cases hk : k ∈ IntMap.keys m
  · rw [if_pos hk]
  · rw [if_neg hk, IntMap.find?_append, IntMap.find?_cons, IntMap.find?_nil]
    by_cases h2 : k = k1
    · subst h2
      rw [IntMap.find?_eq_none m k hk]
      simp
    · simp only [h2, if_false]
      cases IntMap.find? m k1 <;> rfl

theorem IntMap.get_erase {α : Type} (m : IntMap α) (k k1 : Int) (d : α) (h : k1 ≠ k) :
    IntMap.get (IntMap.erase m k) k1 d = IntMap.get m k1 d := by
  unfold IntMap.get
  congr 1
  induction m with
  | nil => rfl
  | cons en m ih =>
    unfold IntMap.erase
    by_cases h1 : en.1 = k
    · have h2 : ¬ en.1 = k1 := fun e => h (e.symm.trans h1)
      rw [List.filter_cons_of_neg (by simpa using h1), IntMap.find?_cons, if_neg h2]
      exact ih
    · rw [List.filter_cons_of_pos (by simpa using h1), IntMap.find?_cons, IntMap.find?_cons]
      split_ifs
      · rfl
      · exact ih

theorem IntMap.not_mem_keys_erase {α : Type} (m : IntMap α) (k : Int) :
    k ∉ IntMap.keys (IntMap.erase m k) := by
  unfold IntMap.keys IntMap.erase
  simp only [List.mem_map, List.mem_filter, decide_eq_true_eq, not_exists, not_and]
  intro en hen hk
  exact absurd hk hen.2

theorem IntMap.mem_keys_set {α : Type} (m : IntMap α) (k : Int) (v : α) (k1 : Int) :
    k1 ∈ IntMap.keys (IntMap.set m k v) ↔ k1 ∈ IntMap.keys m ∨ k1 = k := by
  unfold IntMap.set
  by_cases hk : k ∈ IntMap.keys m
  · rw [if_pos hk]
    have e : IntMap.keys (List.map (fun en => if en.1 = k then (k, v) else en) m)
        = IntMap.keys m := by
      unfold IntMap.keys
      rw [List.map_map]
      apply List.map_congr_left
      intro en _
      simp only [Function.comp_apply]
      split_ifs with h
      · exact h.symm
      · rfl
    rw [e]
    constructor
    · exact Or.inl
    · rintro (h | rfl)
      · exact h
      · exact hk
  · rw [if_neg hk]
    simp [IntMap.keys]

/-! ## Merging two trees -/

theorem acceptPath_merge_eq (size : Int3) (st : RidgeState) (tr : Traversal)
    (hacc : acceptTest tr) (hprev : tr.prevConnection ≠ -1) (hsec : tr.secondConnection ≠ -1) :
    (acceptPath size st tr).centerlines =
        relabelTree size tr.secondConnection tr.prevConnection
          (relabelPath size tr.newCenterlines tr.prevConnection st.centerlines) ∧
    (acceptPath size st tr).centerlineDistances =
        IntMap.erase
          (IntMap.set
            (IntMap.touch (IntMap.touch (IntMap.set (IntMap.touch st.centerlineDistances
              tr.prevConnection 0) tr.prevConnection
              (IntMap.get (IntMap.touch st.centerlineDistances tr.prevConnection 0)
                tr.prevConnection 0 + tr.distance)) tr.secondConnection 0) tr.prevConnection 0)
            tr.prevConnection
            (IntMap.get (IntMap.touch (IntMap.touch (IntMap.set (IntMap.touch
                st.centerlineDistances tr.prevConnection 0) tr.prevConnection
                (IntMap.get (IntMap.touch st.centerlineDistances tr.prevConnection 0)
                  tr.prevConnection 0 + tr.distance)) tr.secondConnection 0)
                tr.prevConnection 0) tr.prevConnection 0 +
              IntMap.get (IntMap.touch (IntMap.touch (IntMap.set (IntMap.touch
                st.centerlineDistances tr.prevConnection 0) tr.prevConnection
                (IntMap.get (IntMap.touch st.centerlineDistances tr.prevConnection 0)
                  tr.prevConnection 0 + tr.distance)) tr.secondConnection 0)
                tr.prevConnection 0) tr.secondConnection 0))
          tr.secondConnection ∧
    ∃ stack, (acceptPath size st tr).centerlineStacks =
        IntMap.set (IntMap.erase (IntMap.touch (IntMap.touch st.centerlineStacks
          tr.prevConnection []) tr.secondConnection []) tr.secondConnection)
          tr.prevConnection stack := by
  unfold acceptPath
  rw [if_pos hacc, if_neg hprev, if_pos hsec]
  exact ⟨rfl, rfl, _, rfl⟩

/-- C7: when the path accepted for a seed connected two trees, `p` hit first
and `s` hit second, then `p` and `s` are distinct positive labels and after the
seed iteration every voxel that carried `p` or `s`, and every point of the new
path, carries `p`; no voxel carries `s`; and `s` is a key neither of the
tree-length map nor of the tree-stack map. -/
theorem merge_relabels (sq : ℚ → ℚ) (fuelE fuelT : Nat) (T : TubeSegmentation) (size : Int3)
    (st : RidgeState) (p : point) (tr : Traversal) (ex1 ex2 : Exit)
    (hseed : inMargin size { x := p.x, y := p.y, z := p.z })
    (hnew : st.centerlines (LPOS size p.x p.y p.z) ≠ 1)
    (htr : traverseSeed sq fuelE fuelT T size st.centerlines p = some (tr, ex1, ex2))
    (hacc : acceptTest tr) (hsec : tr.secondConnection ≠ -1) :
    ∃ st1, seedIteration sq fuelE fuelT T size st p = some st1 ∧
      0 < tr.prevConnection ∧ 0 < tr.secondConnection ∧
      tr.secondConnection ≠ tr.prevConnection ∧
      (∀ i, 0 ≤ i → i < totalSize size →
        (st.centerlines i = tr.prevConnection ∨ st.centerlines i = tr.secondConnection) →
        st1.centerlines i = tr.prevConnection) ∧
      (∀ q ∈ tr.stack, st1.centerlines (POS size q.pos) = tr.prevConnection) ∧
      (∀ i, 0 ≤ i → i < totalSize size → st1.centerlines i ≠ tr.secondConnection) ∧
      tr.secondConnection ∉ IntMap.keys st1.centerlineDistances ∧
      tr.secondConnection ∉ IntMap.keys st1.centerlineStacks := by
  obtain ⟨hconn, hpath⟩ := traverseSeed_inv sq fuelE fuelT T size st.centerlines p tr ex1 ex2 htr
  have hinv := hpath hseed
  have hs : 0 < tr.secondConnection ∧ tr.prevConnection ≠ -1 ∧
      tr.secondConnection ≠ tr.prevConnection := by
    rcases hconn.second with h | h
    · exact absurd h hsec
    · exact h
  have hp : 0 < tr.prevConnection := by
    rcases hconn.prev with h | h
    · exact absurd h hs.2.1
    · exact h
  obtain ⟨hcl, hdist, stack, hstacks⟩ := acceptPath_merge_eq size st tr hacc hs.2.1 hsec
  refine ⟨acceptPath size st tr, ?_, hp, hs.1, hs.2.2, ?_, ?_, ?_, ?_, ?_⟩
  · unfold seedIteration
    rw [if_neg hnew, htr]
    rfl
  · intro i h0 h1 hl
    rw [hcl]
    unfold relabelTree relabelPath
    simp only [h0, h1, true_and]
    split_ifs with ha hb hc
    · rfl
    · rfl
    · rfl
    · rcases hl with h | h
      · exact h
      · exact absurd h hc
  · intro q hq
    have := acceptPath_labels T size st tr hinv hacc q hq
    rw [if_neg hs.2.1] at this
    exact this
  · intro i h0 h1
    rw [hcl]
    unfold relabelTree
    simp only [h0, h1, true_and]
    split_ifs with ha
    · exact fun h => hs.2.2 h.symm
    · exact ha
  · rw [hdist]
    exact IntMap.not_mem_keys_erase _ _
  · rw [hstacks, IntMap.mem_keys_set]
    rintro (h | h)
    · exact IntMap.not_mem_keys_erase _ _ h
    · exact hs.2.2 h

/-- C8, as amended: when the path accepted for a seed connected two trees `p`
(hit first) and `s` (hit second), the length recorded for `p` afterwards is
the length recorded for `p` before, plus the number of points of the new
path, plus the length recorded for `s` before. -/
theorem merge_length (sq : ℚ → ℚ) (fuelE fuelT : Nat) (T : TubeSegmentation) (size : Int3)
    (st : RidgeState) (p : point) (tr : Traversal) (ex1 ex2 : Exit)
    (hseed : inMargin size { x := p.x, y := p.y, z := p.z })
    (hnew : st.centerlines (LPOS size p.x p.y p.z) ≠ 1)
    (htr : traverseSeed sq fuelE fuelT T size st.centerlines p = some (tr, ex1, ex2))
    (hacc : acceptTest tr) (hsec : tr.secondConnection ≠ -1) :
    ∃ st1, seedIteration sq fuelE fuelT T size st p = some st1 ∧
      IntMap.get st1.centerlineDistances tr.prevConnection 0 =
        IntMap.get st.centerlineDistances tr.prevConnection 0 + (tr.stack.length : Int) +
          IntMap.get st.centerlineDistances tr.secondConnection 0 ∧
      5 < tr.stack.length := by
  obtain ⟨hconn, hpath⟩ := traverseSeed_inv sq fuelE fuelT T size st.centerlines p tr ex1 ex2 htr
  have hinv := hpath hseed
  have hs : 0 < tr.secondConnection ∧ tr.prevConnection ≠ -1 ∧
      tr.secondConnection ≠ tr.prevConnection := by
    rcases hconn.second with h | h
    · exact absurd h hsec
    · exact h
  obtain ⟨_, hdist, _⟩ := acceptPath_merge_eq size st tr hacc hs.2.1 hsec
  refine ⟨acceptPath size st tr, ?_, ?_, ?_⟩
  · unfold seedIteration
    rw [if_neg hnew, htr]
    rfl
  · rw [hdist, IntMap.get_erase _ _ _ _ (fun h => hs.2.2 h.symm)]
    simp only [IntMap.get_set, IntMap.get_touch, if_true, if_neg hs.2.2]
    rw [hinv.dist]
  · have h := hacc.1
    rw [hinv.dist] at h
    unfold Dmin at h
    exact_mod_cast h

/-! ## The final mask -/

theorem IntMap.keys_set_nodup {α : Type} (m : IntMap α) (k : Int) (v : α)
    (h : (IntMap.keys m).Nodup) : (IntMap.keys (IntMap.set m k v)).Nodup := by
  unfold IntMap.set
  by_cases hk : k ∈ IntMap.keys m
  · rw [if_pos hk]
    have e : IntMap.keys (List.map (fun en => if en.1 = k then (k, v) else en) m)
        = IntMap.keys m := by
      unfold IntMap.keys
      rw [List.map_map]
      apply List.map_congr_left
      intro en _
      simp only [Function.comp_apply]
      split_ifs with h
      · exact h.symm
      · rfl
    rw [e]
    exact h
  · rw [if_neg hk]
    unfold IntMap.keys at *
    rw [List.map_append, List.map_singleton]
    exact List.Nodup.append h (List.nodup_singleton _) (by simpa using hk)

theorem IntMap.keys_touch_nodup {α : Type} (m : IntMap α) (k : Int) (d : α)
    (h : (IntMap.keys m).Nodup) : (IntMap.keys (IntMap.touch m k d)).Nodup := by
  unfold IntMap.touch
  by_cases hk : k ∈ IntMap.keys m
  · rw [if_pos hk]
    exact h
  · rw [if_neg hk]
    unfold IntMap.keys at *
    rw [List.map_append, List.map_singleton]
    exact List.Nodup.append h (List.nodup_singleton _) (by simpa using hk)

theorem IntMap.keys_erase_nodup {α : Type} (m : IntMap α) (k : Int)
    (h : (IntMap.keys m).Nodup) : (IntMap.keys (IntMap.erase m k)).Nodup := by
  unfold IntMap.keys IntMap.erase at *
  exact (List.filter_sublist m).map Prod.fst |>.nodup h

theorem IntMap.get_of_mem {α : Type} (m : IntMap α) (en : Int × α) (d : α)
    (h : (IntMap.keys m).Nodup) (hen : en ∈ m) : IntMap.get m en.1 d = en.2 := by
  unfold IntMap.get
  induction m with
  | nil => simp at hen
  | cons e m ih =>
    rw [IntMap.find?_cons]
    simp only [IntMap.keys, List.map_cons, List.nodup_cons] at h
    simp only [List.mem_cons] at hen
    rcases hen with rfl | hen
    · simp
    · have hne : ¬ e.1 = en.1 := by
        intro he
        apply h.1
        rw [he]
        exact List.mem_map_of_mem _ hen
      rw [if_neg hne]
      exact ih h.2 hen

theorem acceptPath_nodup (size : Int3) (st : RidgeState) (tr : Traversal)
    (h : (IntMap.keys st.centerlineDistances).Nodup) :
    (IntMap.keys (acceptPath size st tr).centerlineDistances).Nodup := by
  unfold acceptPath
  split_ifs
  · exact IntMap.keys_set_nodup _ _ _ h
  · exact IntMap.keys_erase_nodup _ _ (IntMap.keys_set_nodup _ _ _
      (IntMap.keys_touch_nodup _ _ _ (IntMap.keys_touch_nodup _ _ _
        (IntMap.keys_set_nodup _ _ _ (IntMap.keys_touch_nodup _ _ _ h)))))
  · exact IntMap.keys_set_nodup _ _ _ (IntMap.keys_touch_nodup _ _ _ h)
  · exact h

theorem seedIteration_nodup (sq : ℚ → ℚ) (fuelE fuelT : Nat) (T : TubeSegmentation)
    (size : Int3) (st st1 : RidgeState) (p : point)
    (h : seedIteration sq fuelE fuelT T size st p = some st1)
    (hn : (IntMap.keys st.centerlineDistances).Nodup) :
    (IntMap.keys st1.centerlineDistances).Nodup := by
  unfold seedIteration at h
  split_ifs at h
  · cases h; exact hn
  · rw [Option.map_eq_some'] at h
    obtain ⟨r, _, rfl⟩ := h
    exact acceptPath_nodup size st r.1 hn

/-- The tree-length map never holds two entries for one tree id. -/
theorem ridgeLoop_nodup (sq : ℚ → ℚ) (fuelE fuelT : Nat) (T : TubeSegmentation)
    (size : Int3) (queue : List point) :
    ∀ st st1 : RidgeState, ridgeLoop sq fuelE fuelT T size queue st = some st1 →
      (IntMap.keys st.centerlineDistances).Nodup →
      (IntMap.keys st1.centerlineDistances).Nodup := by
  induction queue with
  | nil =>
    intro st st1 h hn
    simp only [ridgeLoop, Option.some.injEq] at h
    subst h
    exact hn
  | cons p rest ih =>
    intro st st1 h hn
    simp only [ridgeLoop, Option.bind_eq_some] at h
    obtain ⟨s, hs, hr⟩ := h
    exact ih s st1 hr (seedIteration_nodup sq fuelE fuelT T size st s p hs hn)

/-- The loop that finds `max` and collects `trees`, run over a part `l` of the
map from the locals `(m, trees)`. -/
theorem selectTrees_fold (distances : IntMap Int) (hn : (IntMap.keys distances).Nodup)
    (l : List (Int × Int)) :
    ∀ (m : Int) (trees : List Int), (∀ en ∈ l, en ∈ distances) → m ∈ IntMap.keys distances →
      (l.foldl (selectStep distances) (m, trees)).1 ∈ IntMap.keys distances ∧
      IntMap.get distances m 0 ≤
        IntMap.get distances (l.foldl (selectStep distances) (m, trees)).1 0 ∧
      (∀ en ∈ l, en.2 ≤ IntMap.get distances (l.foldl (selectStep distances) (m, trees)).1 0) ∧
      (∀ k, k ∈ (l.foldl (selectStep distances) (m, trees)).2 ↔
        k ∈ trees ∨ ∃ en ∈ l, en.1 = k ∧ en.2 > 10) := by
  induction l with
  | nil =>
    intro m trees _ hm
    refine ⟨hm, le_refl _, fun en h => absurd h (List.not_mem_nil _), fun k => ?_⟩
    simp
  | cons it l ih =>
    intro m trees hl hm
    simp only [List.foldl_cons]
    have hit : it ∈ distances := hl it (List.mem_cons_self _ _)
    have hl2 : ∀ en ∈ l, en ∈ distances := fun en h => hl en (List.mem_cons_of_mem _ h)
    have hget : IntMap.get distances it.1 0 = it.2 := IntMap.get_of_mem distances it 0 hn hit
    have hkey : it.1 ∈ IntMap.keys distances := List.mem_map_of_mem _ hit
    have htrees : ∀ k, k ∈ (if it.2 > TreeMin then trees ++ [it.1] else trees) ↔
        k ∈ trees ∨ (it.1 = k ∧ it.2 > 10) := by
      intro k
      have hT : TreeMin = 10 := rfl
      rw [hT]
      split_ifs with ht
      · simp only [List.mem_append, List.mem_singleton]
        constructor
        · rintro (h | h)
          · exact Or.inl h
          · exact Or.inr ⟨h.symm, ht⟩
        · rintro (h | ⟨h, _⟩)
          · exact Or.inl h
          · exact Or.inr h.symm
      · constructor
        · exact Or.inl
        · rintro (h | ⟨_, h⟩)
          · exact h
          · exact absurd h ht
    have hmem : ∀ (k : Int) (A : Prop), (A ∨ ∃ en ∈ l, en.1 = k ∧ en.2 > 10) →
        (A ↔ k ∈ trees ∨ (it.1 = k ∧ it.2 > 10)) →
        (k ∈ trees ∨ ∃ en ∈ it :: l, en.1 = k ∧ en.2 > 10) := by
      intro k A h hA
      simp only [List.mem_cons, exists_eq_or_imp]
      rcases h with h | h
      · rcases hA.mp h with h | h
        · exact Or.inl h
        · exact Or.inr (Or.inl h)
      · exact Or.inr (Or.inr h)
    have hmem2 : ∀ (k : Int) (A : Prop), (k ∈ trees ∨ ∃ en ∈ it :: l, en.1 = k ∧ en.2 > 10) →
        (A ↔ k ∈ trees ∨ (it.1 = k ∧ it.2 > 10)) →
        (A ∨ ∃ en ∈ l, en.1 = k ∧ en.2 > 10) := by
      intro k A h hA
      simp only [List.mem_cons, exists_eq_or_imp] at h
      rcases h with h | h | h
      · exact Or.inl (hA.mpr (Or.inl h))
      · exact Or.inl (hA.mpr (Or.inr h))
      · exact Or.inr h
    have e : selectStep distances (m, trees) it =
        (if it.2 > IntMap.get distances m 0 then it.1 else m,
          if it.2 > TreeMin then trees ++ [it.1] else trees) := rfl
    rw [e]
    by_cases hgt : it.2 > IntMap.get distances m 0
    · rw [if_pos hgt]
      obtain ⟨h1, h2, h3, h4⟩ := ih it.1 (if it.2 > TreeMin then trees ++ [it.1] else trees) hl2 hkey
      refine ⟨h1, ?_, ?_, ?_⟩
      · rw [hget] at h2; omega
      · intro en hen
        simp only [List.mem_cons] at hen
        rcases hen with rfl | hen
        · rw [hget] at h2; exact h2
        · exact h3 en hen
      · intro k
        rw [h4 k]
        exact ⟨fun h => hmem k _ h (htrees k), fun h => hmem2 k _ h (htrees k)⟩
    · rw [if_neg hgt]
      obtain ⟨h1, h2, h3, h4⟩ := ih m (if it.2 > TreeMin then trees ++ [it.1] else trees) hl2 hm
      refine ⟨h1, h2, ?_, ?_⟩
      · intro en hen
        simp only [List.mem_cons] at hen
        rcases hen with rfl | hen
        · omega
        · exact h3 en hen
      · intro k
        rw [h4 k]
        exact ⟨fun h => hmem k _ h (htrees k), fun h => hmem2 k _ h (htrees k)⟩

/-- The final mask for a state with at least one tree: 1 on the voxels of a
tree of maximal length and of the trees longer than `TreeMin`, 0 elsewhere. -/
theorem finalMask_spec (size : Int3) (st : RidgeState)
    (hn : (IntMap.keys st.centerlineDistances).Nodup) (hne : st.centerlineDistances ≠ []) :
    ∃ m, m ∈ IntMap.keys st.centerlineDistances ∧
      (∀ en ∈ st.centerlineDistances, en.2 ≤ IntMap.get st.centerlineDistances m 0) ∧
      ∀ i, 0 ≤ i → i < totalSize size →
        finalMask size st i =
          if st.centerlines i = m ∨
            ∃ en ∈ st.centerlineDistances, en.1 = st.centerlines i ∧ en.2 > 10 then 1 else 0 := by
  unfold finalMask
  cases hd : st.centerlineDistances with
  | nil => exact absurd hd hne
  | cons first rest =>
    simp only
    have hkey : first.1 ∈ IntMap.keys (first :: rest) :=
      List.mem_map_of_mem _ (List.mem_cons_self _ _)
    rw [hd] at hn
    obtain ⟨h1, _, h3, h4⟩ := selectTrees_fold (first :: rest) hn (first :: rest) first.1 []
      (fun en h => h) hkey
    refine ⟨(selectTrees (first :: rest) first.1).1, h1, h3, ?_⟩
    intro i h0 ht
    simp only [h0, ht, and_self, if_true]
    have h5 : st.centerlines i ∈ (selectTrees (first :: rest) first.1).2 ↔
        ∃ en ∈ first :: rest, en.1 = st.centerlines i ∧ en.2 > 10 := by
      have := h4 (st.centerlines i)
      simp only [List.not_mem_nil, false_or] at this
      exact this
    by_cases hm : st.centerlines i = (selectTrees (first :: rest) first.1).1
    · rw [if_pos hm, if_pos (Or.inl hm)]
    · rw [if_neg hm]
      by_cases ht : ∃ en ∈ first :: rest, en.1 = st.centerlines i ∧ en.2 > 10
      · rw [if_pos (h5.mpr ht), if_pos (Or.inr ht)]
      · rw [if_neg (fun h => ht (h5.mp h)), if_neg]
        rintro (h | h)
        · exact hm h
        · exact ht h

/-- C9: when `runRidgeTraversal` returns and at least one tree was accepted
(the tree-length map of the final state is not empty), there is a tree `m`
whose recorded length is at least that of every tree, and the returned mask
is 1 exactly on the voxels whose label is `m` or a tree with a recorded
length above `TreeMin = 10`, and 0 on every other voxel. -/
theorem final_mask_marks_large_trees (sq : ℚ → ℚ) (fuelE fuelT : Nat) (T : TubeSegmentation)
    (size : Int3) (mask : Int → Int) (T1 : TubeSegmentation)
    (h : runRidgeTraversal sq fuelE fuelT T size = some (mask, T1)) :
    ∃ st, ridgeLoop sq fuelE fuelT (writeSentinel T) size (popOrder (collectSeeds T size))
        initialRidgeState = some st ∧
      (st.centerlineDistances ≠ [] →
        ∃ m, m ∈ IntMap.keys st.centerlineDistances ∧
          (∀ en ∈ st.centerlineDistances, en.2 ≤ IntMap.get st.centerlineDistances m 0) ∧
          ∀ i, 0 ≤ i → i < totalSize size →
            mask i = if st.centerlines i = m ∨
              ∃ en ∈ st.centerlineDistances, en.1 = st.centerlines i ∧ en.2 > 10
              then 1 else 0) := by
  unfold runRidgeTraversal at h
  simp only [Option.map_eq_some', Prod.mk.injEq] at h
  obtain ⟨st, hst, rfl, _⟩ := h
  refine ⟨st, hst, fun hne => ?_⟩
  have hn := ridgeLoop_nodup sq fuelE fuelT (writeSentinel T) size _ _ _ hst
    (by simp [initialRidgeState, IntMap.keys])
  exact finalMask_spec size st hn hne

/-! ## Empty inputs -/

theorem collectSeeds_zero (T : TubeSegmentation) (size : Int3) (hz : ∀ i, T.TDF i = 0) :
    collectSeeds T size = [] := by
  apply List.eq_nil_iff_forall_not_mem.mpr
  intro p hp
  rw [mem_collectSeeds] at hp
  obtain ⟨z, _, _, y, _, _, x, _, _, _, ht, _⟩ := hp
  rw [hz] at ht
  unfold Thigh at ht
  norm_num at ht

theorem collectCandidates_zero (T : TubeSegmentation) (size : Int3) (hz : ∀ i, T.TDF i = 0) :
    collectCandidates T size = [] := by
  unfold collectCandidates
  have : (gridScan size).filter (fun n => decide (T.TDF (POS size n) > TDFlimit)) = [] := by
    apply List.filter_eq_nil_iff.mpr
    intro n _
    rw [hz]
    unfold TDFlimit
    norm_num
  rw [this, List.map_nil, List.mergeSort_nil]

theorem finalMask_empty (size : Int3) (st : RidgeState) (h : st.centerlineDistances = []) :
    finalMask size st = fun _ => 0 := by
  unfold finalMask
  rw [h]

/-- C10: on every grid, when the TDF is zero on every voxel,
`runRidgeTraversal` returns the all-zero mask and `runNewCenterlineAlg`
returns the all-zero volume, whatever the fuel; and `runRidgeTraversal`
returns the all-zero mask whenever its seed loop ends with an empty
tree-length map. -/
theorem zero_tdf_zero_output (sq acosF : ℚ → ℚ) (fuelE fuelT : Nat)
    (T : TubeSegmentation) (size : Int3) (hz : ∀ i, T.TDF i = 0) :
    runRidgeTraversal sq fuelE fuelT T size = some (fun _ => 0, writeSentinel T) ∧
    runNewCenterlineAlg sq acosF fuelE T size = some (fun _ => 0) ∧
    ∀ (U : TubeSegmentation) (st : RidgeState),
      ridgeLoop sq fuelE fuelT (writeSentinel U) size (popOrder (collectSeeds U size))
        initialRidgeState = some st →
      st.centerlineDistances = [] →
      runRidgeTraversal sq fuelE fuelT U size = some (fun _ => 0, writeSentinel U) := by
  refine ⟨?_, ?_, ?_⟩
  · unfold runRidgeTraversal popOrder
    rw [collectSeeds_zero T size hz, List.reverse_nil, List.mergeSort_nil]
    rfl
  · unfold runNewCenterlineAlg
    rw [collectCandidates_zero T size hz]
    have hv : collectVertices size (fun _ => 0) = [] := by
      unfold collectVertices
      apply List.filter_eq_nil_iff.mpr
      intro n _
      simp
    simp only [selectCenterpoints, Option.map_some', buildGraph, hv]
    rfl
  · intro U st hst hempty
    unfold runRidgeTraversal
    simp only [hst, Option.map_some', finalMask_empty size st hempty]

/-! ## Termination of the walk -/

theorem unmarked_le (size : Int3) (nc : Int → Int) : unmarked size nc ≤ (totalSize size).toNat := by
  unfold unmarked
  calc _ ≤ (Finset.range (totalSize size).toNat).card := Finset.card_filter_le _ _
    _ = _ := Finset.card_range _

theorem unmarked_setAt_lt (size : Int3) (nc : Int → Int) (j : Int) (h0 : 0 ≤ j)
    (h1 : j < totalSize size) (hj : nc j ≠ 1) :
    unmarked size (setAt nc j 1) < unmarked size nc := by
  unfold unmarked
  apply Finset.card_lt_card
  rw [Finset.ssubset_iff_of_subset]
  · refine ⟨j.toNat, ?_, ?_⟩
    · simp only [Finset.mem_filter, Finset.mem_range]
      have e : ((j.toNat : Nat) : Int) = j := Int.toNat_of_nonneg h0
      refine ⟨Int.lt_toNat.mpr (by omega), ?_⟩
      rw [e]
      exact hj
    · simp only [Finset.mem_filter, Finset.mem_range, not_and, not_not]
      intro _
      have e : ((j.toNat : Nat) : Int) = j := Int.toNat_of_nonneg h0
      rw [e]
      simp [setAt]
  · intro k hk
    simp only [Finset.mem_filter, Finset.mem_range] at hk ⊢
    refine ⟨hk.1, ?_⟩
    have h2 := hk.2
    unfold setAt at h2
    split_ifs at h2 with he
    · exact absurd rfl h2
    · exact h2

theorem traverseStep_isSome (sq : ℚ → ℚ) (fuelE : Nat) (T : TubeSegmentation) (size : Int3)
    (centerlines : Int → Int) (tr : Traversal) (w : Walker)
    (hE : ∀ pos, (eigen_decomposition sq fuelE (hessian sq T pos size)).isSome = true) :
    (traverseStep sq fuelE T size centerlines tr w).isSome = true := by
  unfold traverseStep
  simp only
  split_ifs
  all_goals first
    | rfl
    | (unfold doEigen; simp only [Option.isSome_map']; exact hE _)

/-- A direction of the walk ends: when the eigen-solver returns at every
voxel, the `while(true)` loop reaches a `break` within as many passes as
there are voxels the walk has not marked yet, plus one. -/
theorem traverseLoop_isSome (sq : ℚ → ℚ) (fuelE : Nat) (T : TubeSegmentation) (size : Int3)
    (centerlines : Int → Int)
    (hE : ∀ pos, (eigen_decomposition sq fuelE (hessian sq T pos size)).isSome = true)
    (fuelT : Nat) :
    ∀ (tr : Traversal) (w : Walker), unmarked size tr.newCenterlines < fuelT →
      (traverseLoop sq fuelE T size centerlines fuelT tr w).isSome = true := by
  induction fuelT with
  | zero => intro tr w h; omega
  | succ n ih =>
    intro tr w hfuel
    unfold traverseLoop
    have hs := traverseStep_isSome sq fuelE T size centerlines tr w hE
    obtain ⟨r, hr⟩ := Option.isSome_iff_exists.mp hs
    rw [hr]
    rcases traverseStep_cases sq fuelE T size centerlines tr w r hr with
      ⟨ex0, rfl, _⟩ | ⟨t, _, rfl⟩ | ⟨maxPoint, fr, rfl, hin, _, hnew⟩
    · rfl
    · rfl
    · have e : acceptPoint sq T size tr w maxPoint fr = StepResult.next
          { tr with
            distance := tr.distance + 1,
            newCenterlines := setAt tr.newCenterlines (POS size maxPoint) 1,
            meanTube := tr.meanTube + T.TDF (POS size maxPoint),
            stack := { pos := maxPoint, next := tr.stack.head?.map (fun q => q.pos),
                       large := decide (T.radius (POS size maxPoint) > 3) } :: tr.stack }
          { belowTlow := if T.TDF (POS size maxPoint) < Tlow then w.belowTlow + 1 else 0,
            position := maxPoint,
            t_i := normalize sq
              { x := sign (dot (pickE1 fr w.t_i) w.t_i) * (pickE1 fr w.t_i).x + w.t_i.x + w.t_i_1.x,
                y := sign (dot (pickE1 fr w.t_i) w.t_i) * (pickE1 fr w.t_i).y + w.t_i.y + w.t_i_1.y,
                z := sign (dot (pickE1 fr w.t_i) w.t_i) * (pickE1 fr w.t_i).z + w.t_i.z + w.t_i_1.z },
            t_i_1 := w.t_i } := by
        unfold acceptPoint
        simp only [LPOS_eq_POS]
      rw [e]
      simp only
      apply ih
      simp only
      have hr := POS_in_range size maxPoint hin
      have := unmarked_setAt_lt size tr.newCenterlines (POS size maxPoint) hr.1 hr.2 hnew
      omega

theorem traverseDirection_isSome (sq : ℚ → ℚ) (fuelE fuelT : Nat) (T : TubeSegmentation)
    (size : Int3) (centerlines : Int → Int) (p : point) (direction : Int) (tr : Traversal)
    (hE : ∀ pos, (eigen_decomposition sq fuelE (hessian sq T pos size)).isSome = true)
    (hF : (totalSize size).toNat < fuelT) :
    (traverseDirection sq fuelE fuelT T size centerlines p direction tr).isSome = true := by
  have hg := hE { x := p.x, y := p.y, z := p.z }
  obtain ⟨r, hr⟩ := Option.isSome_iff_exists.mp hg
  simp only [traverseDirection, getTubeDirection, hr, Option.map_some', Option.some_bind]
  exact traverseLoop_isSome sq fuelE T size centerlines hE fuelT _ _
    (lt_of_le_of_lt (unmarked_le size _) hF)

theorem seedIteration_isSome (sq : ℚ → ℚ) (fuelE fuelT : Nat) (T : TubeSegmentation)
    (size : Int3) (st : RidgeState) (p : point)
    (hE : ∀ pos, (eigen_decomposition sq fuelE (hessian sq T pos size)).isSome = true)
    (hF : (totalSize size).toNat < fuelT) :
    (seedIteration sq fuelE fuelT T size st p).isSome = true := by
  unfold seedIteration
  split_ifs
  · rfl
  · unfold traverseSeed
    obtain ⟨r1, h1⟩ := Option.isSome_iff_exists.mp
      (traverseDirection_isSome sq fuelE fuelT T size st.centerlines p (-1)
        (startTraversal T size p) hE hF)
    obtain ⟨r2, h2⟩ := Option.isSome_iff_exists.mp
      (traverseDirection_isSome sq fuelE fuelT T size st.centerlines p 1 r1.1 hE hF)
    rw [h1]
    simp only [Option.some_bind, h2, Option.map_some', Option.isSome_some]

theorem ridgeLoop_isSome (sq : ℚ → ℚ) (fuelE fuelT : Nat) (T : TubeSegmentation)
    (size : Int3)
    (hE : ∀ pos, (eigen_decomposition sq fuelE (hessian sq T pos size)).isSome = true)
    (hF : (totalSize size).toNat < fuelT) (queue : List point) :
    ∀ st, (ridgeLoop sq fuelE fuelT T size queue st).isSome = true := by
  induction queue with
  | nil => intro st; rfl
  | cons p rest ih =>
    intro st
    unfold ridgeLoop
    obtain ⟨s, hs⟩ := Option.isSome_iff_exists.mp
      (seedIteration_isSome sq fuelE fuelT T size st p hE hF)
    rw [hs]
    exact ih s

/-- The function `runRidgeTraversal` returns: when the eigen-solver returns at
every voxel within `fuelE` iterations, more passes than the grid has voxels
are enough fuel for every walk. -/
theorem runRidgeTraversal_returns (sq : ℚ → ℚ) (fuelE fuelT : Nat) (T : TubeSegmentation)
    (size : Int3)
    (hE : ∀ pos,
      (eigen_decomposition sq fuelE (hessian sq (writeSentinel T) pos size)).isSome = true)
    (hF : (totalSize size).toNat < fuelT) :
    (runRidgeTraversal sq fuelE fuelT T size).isSome = true := by
  unfold runRidgeTraversal
  simp only [Option.isSome_map']
  exact ridgeLoop_isSome sq fuelE fuelT (writeSentinel T) size hE hF _ _

/-! ## Concrete runs -/

/-- The QL loop of `tql2` stops on the tolerance `eps*tst1`: on
`perturbedMatrix` the entry `2^-60` is dropped, the solver returns the
eigenvalues `5`, `-9`, `16` of `exampleMatrix`, and the first column of `V` is
not an exact eigenvector of `perturbedMatrix`. -/
theorem eigen_decomposition_tolerance :
    (eigen_decomposition sqrtQ 2 perturbedMatrix).map (fun r =>
      ([r.2 0, r.2 1, r.2 2], [r.1 0 0, r.1 1 0, r.1 2 0],
        decide (perturbedMatrix 1 0 * r.1 0 0 + perturbedMatrix 1 1 * r.1 1 0 +
          perturbedMatrix 1 2 * r.1 2 0 = r.2 0 * r.1 1 0)))
      = some ([5, -9, 16], [0, 0, 1], false) := by decide!

theorem some_getD_of_isSome {α : Type} (o : Option α) (d : α) (h : o.isSome = true) :
    o = some (o.getD d) := by
  cases o with
  | none => simp at h
  | some a => rfl

/-- The queue of the example volume: the seeds `(4,3,3)`, `(17,3,3)`,
`(20,3,3)` and `(9,3,3)`, in this order. -/
theorem exampleQueue : popOrder (collectSeeds exampleTube exampleSize) =
    [exampleSeed 4, exampleSeed 17, exampleSeed 20, exampleSeed 9] := by decide!

/-- The run on the example volume reaches `exampleState n` after `n` seeds. -/
theorem exampleState_reached (n : Nat) (h2 : 2 ≤ n) (h4 : n ≤ 4) :
    ridgeLoop sqrtQ 1 30 (writeSentinel exampleTube) exampleSize
      ((popOrder (collectSeeds exampleTube exampleSize)).take n) initialRidgeState
      = some (exampleState n) := by
  apply some_getD_of_isSome
  interval_cases n <;> decide!

/-- The tree lengths on the example volume after three and after four seeds. -/
theorem exampleLengths :
    (exampleState 3).centerlineDistances = [(1, 6), (2, 8)] ∧
    (exampleState 4).centerlineDistances = [(1, 20)] := by decide!

/-- The walk from the seed `(9,3,3)` of the example volume, popped in the
state `exampleState 3`: it hits tree 1, then tree 2, has 6 points and passes
the acceptance test. -/
theorem exampleWalk :
    (traverseSeed sqrtQ 1 30 (writeSentinel exampleTube) exampleSize
      (exampleState 3).centerlines (exampleSeed 9)).map
        (fun r => (r.1.prevConnection, r.1.secondConnection, r.1.distance,
          decide (acceptTest r.1))) = some (1, 2, 6, true) ∧
    (exampleState 3).centerlines
      (LPOS exampleSize (exampleSeed 9).x (exampleSeed 9).y (exampleSeed 9).z) ≠ 1 := by
  decide!

/-- On the example volume the seed `(9,3,3)` is popped fourth, in the state
`exampleState 3`, and its iteration leads to `exampleState 4`. -/
theorem exampleState_step :
    seedIteration sqrtQ 1 30 (writeSentinel exampleTube) exampleSize (exampleState 3)
      (exampleSeed 9) = some (exampleState 4) := by
  have h3 := exampleState_reached 3 (by decide) (by decide)
  have h4 := exampleState_reached 4 (by decide) (by decide)
  rw [exampleQueue] at h3 h4
  simp only [List.take, ridgeLoop, Option.bind_eq_some] at h3 h4
  obtain ⟨s1, ha, s2, hb, s3, hc, hd⟩ := h3
  obtain ⟨t1, ha4, t2, hb4, t3, hc4, t4, hd4, he4⟩ := h4
  rw [ha] at ha4
  cases ha4
  rw [hb] at hb4
  cases hb4
  rw [hc] at hc4
  cases hc4
  cases hd
  cases he4
  exact hd4

theorem sqrtQ_values : sqrtQ 1 = 1 ∧ sqrtQ (1 / 4) = 1 / 2 := by decide!

theorem exampleTube_normalized (i : Int) :
    normalizedComponent sqrtQ (writeSentinel exampleTube) (writeSentinel exampleTube).Fx i = 1 ∧
    normalizedComponent sqrtQ (writeSentinel exampleTube) (writeSentinel exampleTube).Fy i = 0 ∧
    normalizedComponent sqrtQ (writeSentinel exampleTube) (writeSentinel exampleTube).Fz i = 0 := by
  unfold normalizedComponent writeSentinel exampleTube setAt
  by_cases h : i = 0
  · simp only [h, if_true]
    norm_num [sqrtQ_values.1]
  · simp only [h, if_false]
    norm_num [sqrtQ_values.2]

/-- On the example volume the matrix handed to the eigen-solver is the same at
every voxel, and the solver returns on it. -/
theorem exampleTube_eigen (pos : Int3) :
    (eigen_decomposition sqrtQ 1
      (hessian sqrtQ (writeSentinel exampleTube) pos exampleSize)).isSome = true := by
  have e : hessian sqrtQ (writeSentinel exampleTube) pos exampleSize
      = hessian sqrtQ (writeSentinel exampleTube) ⟨5, 3, 3⟩ exampleSize := by
    funext i j
    unfold hessian gradient
    simp [exampleTube_normalized]
  rw [e]
  decide!

/-- The run on the example volume returns for every fuel above the number of
voxels. -/
theorem exampleTube_returns (fuelT : Nat) (hF : 864 < fuelT) :
    (runRidgeTraversal sqrtQ 1 fuelT exampleTube exampleSize).isSome = true :=
  runRidgeTraversal_returns sqrtQ 1 fuelT exampleTube exampleSize exampleTube_eigen
    (by
      have : (totalSize exampleSize).toNat = 864 := by decide
      omega)

/-- On the example volume the seed `(20,3,3)` lies inside tree 2: both
directions of its walk step onto tree 2 and the state stays as it was. -/
theorem same_tree_twice_rejected_witness :
    ∃ tr1 tr2,
      traverseDirection sqrtQ 1 30 (writeSentinel exampleTube) exampleSize
        (exampleState 2).centerlines (exampleSeed 20) (-1)
        (startTraversal (writeSentinel exampleTube) exampleSize (exampleSeed 20))
          = some (tr1, Exit.hit 2) ∧
      traverseDirection sqrtQ 1 30 (writeSentinel exampleTube) exampleSize
        (exampleState 2).centerlines (exampleSeed 20) 1 tr1 = some (tr2, Exit.hit 2) ∧
      tr2.connections = 5 ∧
      seedIteration sqrtQ 1 30 (writeSentinel exampleTube) exampleSize (exampleState 2)
        (exampleSeed 20) = some (exampleState 2) := by
  have hs : (traverseSeed sqrtQ 1 30 (writeSentinel exampleTube) exampleSize
      (exampleState 2).centerlines (exampleSeed 20)).map (fun r => r.2)
      = some (Exit.hit 2, Exit.hit 2) := by decide!
  obtain ⟨⟨tr, ex1, ex2⟩, htr, hd⟩ := Option.map_eq_some'.mp hs
  simp only [Prod.mk.injEq] at hd
  obtain ⟨rfl, rfl⟩ := hd
  unfold traverseSeed at htr
  simp only [Option.bind_eq_some, Option.map_eq_some'] at htr
  obtain ⟨⟨tr1, e1⟩, h1, ⟨tr2, e2⟩, h2, heq⟩ := htr
  simp only [Prod.mk.injEq] at heq
  obtain ⟨rfl, rfl, rfl⟩ := heq
  have h := same_tree_twice_rejected sqrtQ 1 30 (writeSentinel exampleTube) exampleSize
    (exampleState 2) (exampleSeed 20) tr1 tr2 2 h1 h2
  exact ⟨tr1, tr2, h1, h2, h.1, h.2⟩

/-- The queue of the bend volume: the seeds `(11,6,3)`, `(7,5,3)` and
`(7,3,3)`, in this order. -/
theorem bendQueue : popOrder (collectSeeds bendTube bendSize) =
    [bendSeed 11 6, bendSeed 7 5, bendSeed 7 3] := by decide!

/-- The run on the bend volume reaches `bendState n` after `n` seeds. -/
theorem bendState_reached (n : Nat) (h2 : 2 ≤ n) (h3 : n ≤ 3) :
    ridgeLoop sqrtQ 1 30 (writeSentinel bendTube) bendSize
      ((popOrder (collectSeeds bendTube bendSize)).take n) initialRidgeState
      = some (bendState n) := by
  apply some_getD_of_isSome
  interval_cases n <;> decide!

/-- C6, on the bend volume: when the seed `(7,3,3)` is popped its voxel
carries the label 2 of the tree grown from `(7,5,3)`, yet the seed is not
skipped: a walk starts from it, is accepted as the new tree 3, and the voxel
of the seed is relabelled from 2 to 3 while the length of tree 2 stays 6. -/
theorem labelled_seed_not_skipped :
    (bendState 2).centerlines (LPOS bendSize 7 3 3) = 2 ∧
    (bendState 2).counter = 3 ∧
    (bendState 2).centerlineDistances = [(1, 6), (2, 6)] ∧
    seedIteration sqrtQ 1 30 (writeSentinel bendTube) bendSize (bendState 2) (bendSeed 7 3)
      = some (bendState 3) ∧
    (bendState 3).centerlines (LPOS bendSize 7 3 3) = 3 ∧
    labelsAt bendSize (bendState 3).centerlines
      [⟨6, 3, 3⟩, ⟨5, 3, 3⟩, ⟨4, 3, 3⟩, ⟨3, 3, 3⟩, ⟨2, 3, 3⟩] = [3, 3, 3, 3, 3] ∧
    (bendState 3).counter = 4 ∧
    (bendState 3).centerlineDistances = [(1, 6), (2, 6), (3, 6)] := by
  have hA : (bendState 2).centerlines (LPOS bendSize 7 3 3) = 2 ∧
      (bendState 2).counter = 3 ∧
      (bendState 2).centerlineDistances = [(1, 6), (2, 6)] := by decide!
  have hB : (bendState 3).centerlines (LPOS bendSize 7 3 3) = 3 ∧
      labelsAt bendSize (bendState 3).centerlines
        [⟨6, 3, 3⟩, ⟨5, 3, 3⟩, ⟨4, 3, 3⟩, ⟨3, 3, 3⟩, ⟨2, 3, 3⟩] = [3, 3, 3, 3, 3] ∧
      (bendState 3).counter = 4 ∧
      (bendState 3).centerlineDistances = [(1, 6), (2, 6), (3, 6)] := by decide!
  refine ⟨hA.1, hA.2.1, hA.2.2, ?_, hB⟩
  have h2 := bendState_reached 2 (by decide) (by decide)
  have h3 := bendState_reached 3 (by decide) (by decide)
  rw [bendQueue] at h2 h3
  simp only [List.take, ridgeLoop, Option.bind_eq_some] at h2 h3
  obtain ⟨s1, ha, s2, hb, hc⟩ := h2
  obtain ⟨t1, ha3, t2, hb3, t3, hc3, hd3⟩ := h3
  rw [ha] at ha3
  cases ha3
  rw [hb] at hb3
  cases hb3
  cases hc
  cases hd3
  exact hc3

/-- On the example volume the path from the seed `(9,3,3)` merges tree 2 into
tree 1. -/
theorem merge_relabels_witness :
    ∃ tr ex1 ex2 st1,
      traverseSeed sqrtQ 1 30 (writeSentinel exampleTube) exampleSize
        (exampleState 3).centerlines (exampleSeed 9) = some (tr, ex1, ex2) ∧
      tr.prevConnection = 1 ∧ tr.secondConnection = 2 ∧
      seedIteration sqrtQ 1 30 (writeSentinel exampleTube) exampleSize (exampleState 3)
        (exampleSeed 9) = some st1 ∧
      (∀ i, 0 ≤ i → i < totalSize exampleSize →
        ((exampleState 3).centerlines i = 1 ∨ (exampleState 3).centerlines i = 2) →
        st1.centerlines i = 1) ∧
      (∀ q ∈ tr.stack, st1.centerlines (POS exampleSize q.pos) = 1) ∧
      (∀ i, 0 ≤ i → i < totalSize exampleSize → st1.centerlines i ≠ 2) ∧
      2 ∉ IntMap.keys st1.centerlineDistances ∧ 2 ∉ IntMap.keys st1.centerlineStacks := by
  obtain ⟨⟨tr, ex1, ex2⟩, htr, hd⟩ := Option.map_eq_some'.mp exampleWalk.1
  simp only [Prod.mk.injEq, decide_eq_true_eq] at hd
  obtain ⟨hd1, hd2, _, hd3⟩ := hd
  obtain ⟨st1, h1, _, _, _, h5, h6, h7, h8, h9⟩ := merge_relabels sqrtQ 1 30
    (writeSentinel exampleTube) exampleSize (exampleState 3) (exampleSeed 9) tr ex1 ex2
    (by decide) exampleWalk.2 htr hd3 (by rw [hd2]; decide)
  rw [hd1, hd2] at h5
  rw [hd1] at h6
  rw [hd2] at h7 h8 h9
  exact ⟨tr, ex1, ex2, st1, htr, hd1, hd2, h1, h5, h6, h7, h8, h9⟩

/-- On the example volume the merge of tree 2 into tree 1 by the path from
`(9,3,3)` records the sum of the two lengths and of the 6 points of the path. -/
theorem merge_length_witness :
    ∃ tr ex1 ex2 st1,
      traverseSeed sqrtQ 1 30 (writeSentinel exampleTube) exampleSize
        (exampleState 3).centerlines (exampleSeed 9) = some (tr, ex1, ex2) ∧
      tr.prevConnection = 1 ∧ tr.secondConnection = 2 ∧ tr.stack.length = 6 ∧
      seedIteration sqrtQ 1 30 (writeSentinel exampleTube) exampleSize (exampleState 3)
        (exampleSeed 9) = some st1 ∧
      IntMap.get st1.centerlineDistances 1 0 =
        IntMap.get (exampleState 3).centerlineDistances 1 0 + 6 +
          IntMap.get (exampleState 3).centerlineDistances 2 0 := by
  obtain ⟨⟨tr, ex1, ex2⟩, htr, hd⟩ := Option.map_eq_some'.mp exampleWalk.1
  simp only [Prod.mk.injEq, decide_eq_true_eq] at hd
  obtain ⟨hd1, hd2, hd3, hd4⟩ := hd
  have hlen : tr.stack.length = 6 := by
    have h := ((traverseSeed_inv sqrtQ 1 30 (writeSentinel exampleTube) exampleSize
      (exampleState 3).centerlines (exampleSeed 9) tr ex1 ex2 htr).2 (by decide)).dist
    rw [hd3] at h
    exact_mod_cast h.symm
  obtain ⟨st1, h1, h2, _⟩ := merge_length sqrtQ 1 30
    (writeSentinel exampleTube) exampleSize (exampleState 3) (exampleSeed 9) tr ex1 ex2
    (by decide) exampleWalk.2 htr hd4 (by rw [hd2]; decide)
  rw [hd1, hd2, hlen] at h2
  exact ⟨tr, ex1, ex2, st1, htr, hd1, hd2, hlen, h1, h2⟩

/-- C8 fails as stated: on the example volume the path from the seed
`(9,3,3)` (6 points) is accepted and connects tree 1 (length 6) with tree 2
(length 8); the length recorded for tree 1 afterwards is 20, not 6 + 8. -/
theorem merge_length_counterexample :
    (traverseSeed sqrtQ 1 30 (writeSentinel exampleTube) exampleSize
        (exampleState 3).centerlines (exampleSeed 9)).map
      (fun r => (r.1.prevConnection, r.1.secondConnection, r.1.distance,
        decide (acceptTest r.1))) = some (1, 2, 6, true) ∧
    seedIteration sqrtQ 1 30 (writeSentinel exampleTube) exampleSize (exampleState 3)
      (exampleSeed 9) = some (exampleState 4) ∧
    IntMap.get (exampleState 3).centerlineDistances 1 0 = 6 ∧
    IntMap.get (exampleState 3).centerlineDistances 2 0 = 8 ∧
    IntMap.get (exampleState 4).centerlineDistances 1 0 = 20 ∧
    ¬ (IntMap.get (exampleState 4).centerlineDistances 1 0 =
      IntMap.get (exampleState 3).centerlineDistances 1 0 +
        IntMap.get (exampleState 3).centerlineDistances 2 0) := by
  rw [exampleLengths.1, exampleLengths.2]
  exact ⟨exampleWalk.1, exampleState_step, by decide, by decide, by decide, by decide⟩

/-- The run on the example volume returns, with the single tree 1 left. -/
theorem final_mask_marks_large_trees_witness :
    ∃ mask T1, runRidgeTraversal sqrtQ 1 30 exampleTube exampleSize = some (mask, T1) ∧
      ∃ m, m ∈ IntMap.keys (exampleState 4).centerlineDistances ∧
        ∀ i, 0 ≤ i → i < totalSize exampleSize →
          mask i = if (exampleState 4).centerlines i = m ∨
            ∃ en ∈ (exampleState 4).centerlineDistances,
              en.1 = (exampleState 4).centerlines i ∧ en.2 > 10
            then 1 else 0 := by
  have h4 := exampleState_reached 4 (by decide) (by decide)
  have hq : (popOrder (collectSeeds exampleTube exampleSize)).take 4
      = popOrder (collectSeeds exampleTube exampleSize) := by
    rw [exampleQueue]; rfl
  rw [hq] at h4
  have hrun : runRidgeTraversal sqrtQ 1 30 exampleTube exampleSize
      = some (finalMask exampleSize (exampleState 4), writeSentinel exampleTube) := by
    unfold runRidgeTraversal
    simp only [h4, Option.map_some']
  obtain ⟨st, hst, hmask⟩ := final_mask_marks_large_trees sqrtQ 1 30 exampleTube exampleSize
    _ _ hrun
  rw [h4] at hst
  cases hst
  obtain ⟨m, hm, _, hspec⟩ := hmask (by rw [exampleLengths.2]; simp)
  exact ⟨_, _, hrun, m, hm, hspec⟩

/-- Both extractors return all-zero volumes on `zeroTube`, with no fuel at all. -/
theorem zero_tdf_zero_output_witness :
    (∀ i, zeroTube.TDF i = 0) ∧
    runRidgeTraversal sqrtQ 0 0 zeroTube exampleSize = some (fun _ => 0, writeSentinel zeroTube) ∧
    runNewCenterlineAlg sqrtQ (fun _ => 0) 0 zeroTube exampleSize = some (fun _ => 0) :=
  ⟨fun _ => rfl,
   (zero_tdf_zero_output sqrtQ (fun _ => 0) 0 0 zeroTube exampleSize (fun _ => rfl)).1,
   (zero_tdf_zero_output sqrtQ (fun _ => 0) 0 0 zeroTube exampleSize (fun _ => rfl)).2.1⟩

/-! ## Distinct points of a walk -/

theorem traverseLoop_invariant (sq : ℚ → ℚ) (fuelE : Nat) (T : TubeSegmentation) (size : Int3)
    (centerlines : Int → Int) (Q : Traversal → Prop)
    (hacc : ∀ (tr : Traversal) (w : Walker) (maxPoint : Int3) (fr : EigenFrame)
      (tr1 : Traversal) (w1 : Walker), Q tr → inMargin size maxPoint →
      tr.newCenterlines (POS size maxPoint) ≠ 1 →
      acceptPoint sq T size tr w maxPoint fr = StepResult.next tr1 w1 → Q tr1)
    (hhit : ∀ (tr : Traversal) (t : Int), Q tr → Q (recordHit tr t)) (fuelT : Nat) :
    ∀ (tr : Traversal) (w : Walker) (tr1 : Traversal) (ex : Exit),
      traverseLoop sq fuelE T size centerlines fuelT tr w = some (tr1, ex) → Q tr → Q tr1 := by
  induction fuelT with
  | zero => intro tr w tr1 ex h; simp [traverseLoop] at h
  | succ n ih =>
    intro tr w tr1 ex h hq
    unfold traverseLoop at h
    cases hstep : traverseStep sq fuelE T size centerlines tr w with
    | none => rw [hstep] at h; simp at h
    | some r =>
      rw [hstep] at h
      rcases traverseStep_cases sq fuelE T size centerlines tr w r hstep with
        ⟨ex0, rfl, hex⟩ | ⟨t, ht, rfl⟩ | ⟨maxPoint, fr, rfl, hin, _, hnew⟩
      · simp only [Option.some.injEq, Prod.mk.injEq] at h
        obtain ⟨rfl, rfl⟩ := h
        exact hq
      · simp only [Option.some.injEq, Prod.mk.injEq] at h
        obtain ⟨rfl, rfl⟩ := h
        exact hhit tr t hq
      · obtain ⟨tr2, w2, he, _, _⟩ := acceptPoint_spec sq T size tr w maxPoint fr hin
        rw [he] at h
        simp only at h
        exact ih tr2 w2 tr1 ex h (hacc tr w maxPoint fr tr2 w2 hq hin hnew he)

theorem traverseSeed_invariant (sq : ℚ → ℚ) (fuelE fuelT : Nat) (T : TubeSegmentation)
    (size : Int3) (centerlines : Int → Int) (Q : Traversal → Prop)
    (hacc : ∀ (tr : Traversal) (w : Walker) (maxPoint : Int3) (fr : EigenFrame)
      (tr1 : Traversal) (w1 : Walker), Q tr → inMargin size maxPoint →
      tr.newCenterlines (POS size maxPoint) ≠ 1 →
      acceptPoint sq T size tr w maxPoint fr = StepResult.next tr1 w1 → Q tr1)
    (hhit : ∀ (tr : Traversal) (t : Int), Q tr → Q (recordHit tr t))
    (p : point) (tr : Traversal) (ex1 ex2 : Exit)
    (h : traverseSeed sq fuelE fuelT T size centerlines p = some (tr, ex1, ex2))
    (h0 : Q (startTraversal T size p)) : Q tr := by
  unfold traverseSeed at h
  simp only [Option.bind_eq_some, Option.map_eq_some'] at h
  obtain ⟨⟨tr1, e1⟩, h1, ⟨tr2, e2⟩, h2, heq⟩ := h
  simp only [Prod.mk.injEq] at heq
  obtain ⟨rfl, rfl, rfl⟩ := heq
  unfold traverseDirection at h1 h2
  simp only [Option.bind_eq_some] at h1 h2
  obtain ⟨_, _, hl1⟩ := h1
  obtain ⟨_, _, hl2⟩ := h2
  exact traverseLoop_invariant sq fuelE T size centerlines Q hacc hhit fuelT _ _ _ _ hl2
    (traverseLoop_invariant sq fuelE T size centerlines Q hacc hhit fuelT _ _ _ _ hl1 h0)

theorem acceptPoint_distinct (sq : ℚ → ℚ) (T : TubeSegmentation) (size : Int3) (tr : Traversal)
    (w : Walker) (maxPoint : Int3) (fr : EigenFrame) (tr1 : Traversal) (w1 : Walker)
    (hq : PathInv T size tr ∧ DistinctInv size tr) (hin : inMargin size maxPoint)
    (hnew : tr.newCenterlines (POS size maxPoint) ≠ 1)
    (he : acceptPoint sq T size tr w maxPoint fr = StepResult.next tr1 w1) :
    PathInv T size tr1 ∧ DistinctInv size tr1 := by
  obtain ⟨tr2, w2, he2, hp, _⟩ := acceptPoint_spec sq T size tr w maxPoint fr hin
  have e12 : tr1 = tr2 := by
    rw [he] at he2
    injection he2
  subst e12
  refine ⟨hp hq.1, ?_⟩
  unfold acceptPoint at he
  injection he with h1 h2
  subst h1
  simp only [LPOS_eq_POS]
  constructor
  · simp only [List.map_cons, List.nodup_cons]
    refine ⟨?_, hq.2.nodup⟩
    intro hmem
    rw [List.mem_map] at hmem
    obtain ⟨q, hq1, hq2⟩ := hmem
    exact hnew (hq2 ▸ hq.1.marked q hq1)
  · intro i hi
    by_cases hc : i = POS size maxPoint
    · exact ⟨_, List.mem_cons_self _ _, hc.symm⟩
    · have hi2 : tr.newCenterlines i ≠ 0 := by
        simpa [setAt, hc] using hi
      obtain ⟨q, hq1, hq2⟩ := hq.2.only i hi2
      exact ⟨q, List.mem_cons_of_mem _ hq1, hq2⟩



theorem recordHit_distinct (T : TubeSegmentation) (size : Int3) (tr : Traversal) (t : Int)
    (hq : PathInv T size tr ∧ DistinctInv size tr) :
    PathInv T size (recordHit tr t) ∧ DistinctInv size (recordHit tr t) := by
  refine ⟨recordHit_pathInv T size tr t hq.1, ?_⟩
  unfold recordHit
  split_ifs <;> exact ⟨hq.2.nodup, hq.2.only⟩

theorem startTraversal_distinct (T : TubeSegmentation) (size : Int3) (p : point) :
    DistinctInv size (startTraversal T size p) := by
  unfold startTraversal
  constructor
  · simp
  · intro i hi
    by_cases hc : i = LPOS size p.x p.y p.z
    · exact ⟨_, List.mem_singleton.mpr rfl, by rw [hc, ← LPOS_eq_POS]⟩
    · simp [setAt, hc] at hi

theorem acceptPoint_bottom (sq : ℚ → ℚ) (T : TubeSegmentation) (size : Int3) (tr : Traversal)
    (w : Walker) (maxPoint : Int3) (fr : EigenFrame) (tr1 : Traversal) (w1 : Walker)
    (start : CenterlinePoint) (hq : tr.stack.getLast? = some start)
    (he : acceptPoint sq T size tr w maxPoint fr = StepResult.next tr1 w1) :
    tr1.stack.getLast? = some start := by
  unfold acceptPoint at he
  injection he with h1 h2
  subst h1
  show (_ :: tr.stack).getLast? = some start
  cases hs : tr.stack with
  | nil => rw [hs] at hq; simp at hq
  | cons a l =>
    rw [hs] at hq
    rw [List.getLast?_cons_cons]
    exact hq

theorem recordHit_stack (tr : Traversal) (t : Int) : (recordHit tr t).stack = tr.stack := by
  unfold recordHit
  split_ifs <;> rfl

theorem markedCount_eq (T : TubeSegmentation) (size : Int3) (tr : Traversal)
    (hp : PathInv T size tr) (hd : DistinctInv size tr) :
    markedCount size tr.newCenterlines = tr.stack.length := by
  unfold markedCount
  have hset : (Finset.range (totalSize size).toNat).filter
      (fun (k : Nat) => tr.newCenterlines (k : Int) > 0) =
      (tr.stack.map (fun q => (POS size q.pos).toNat)).toFinset := by
    ext k
    simp only [Finset.mem_filter, Finset.mem_range, List.mem_toFinset, List.mem_map]
    constructor
    · rintro ⟨_, hk⟩
      obtain ⟨q, hq1, hq2⟩ := hd.only (k : Int) (by omega)
      exact ⟨q, hq1, by rw [hq2]; rfl⟩
    · rintro ⟨q, hq1, hq2⟩
      obtain ⟨h0, h1⟩ := POS_in_range size q.pos (hp.inside q hq1)
      have e : ((k : Nat) : Int) = POS size q.pos := by
        rw [← hq2]; exact Int.toNat_of_nonneg h0
      refine ⟨by omega, ?_⟩
      rw [e, hp.marked q hq1]
      decide
  rw [hset, List.toFinset_card_of_nodup, List.length_map]
  have hn := hd.nodup
  have e : tr.stack.map (fun q => (POS size q.pos).toNat) =
      (tr.stack.map (fun q => POS size q.pos)).map Int.toNat := by
    rw [List.map_map]; rfl
  rw [e]
  apply List.Nodup.map_on _ hn
  intro a ha b hb hab
  rw [List.mem_map] at ha hb
  obtain ⟨q, hq1, rfl⟩ := ha
  obtain ⟨r, hr1, rfl⟩ := hb
  have h0 := (POS_in_range size q.pos (hp.inside q hq1)).1
  have h1 := (POS_in_range size r.pos (hp.inside r hr1)).1
  omega


/-- C11: a step of the walk accepts a voxel only if `newCenterlines` does not
mark it yet, and marks it and pushes it on the path stack; so at the end of
the walk from a seed the path stack holds the seed at the bottom and
pairwise distinct voxels, `newCenterlines` marks the voxels of the stack and no
other, and `distance` is both the number of points on the stack and the number
of marked voxels. -/
theorem walk_points_distinct (sq : ℚ → ℚ) (fuelE fuelT : Nat) (T : TubeSegmentation)
    (size : Int3) (centerlines : Int → Int) (p : point) (tr : Traversal) (ex1 ex2 : Exit)
    (hseed : inMargin size { x := p.x, y := p.y, z := p.z })
    (h : traverseSeed sq fuelE fuelT T size centerlines p = some (tr, ex1, ex2)) :
    (∀ (tr0 tr1 : Traversal) (w0 w1 : Walker),
      traverseStep sq fuelE T size centerlines tr0 w0 = some (StepResult.next tr1 w1) →
        tr0.newCenterlines (POS size w1.position) ≠ 1 ∧
        tr1.newCenterlines = setAt tr0.newCenterlines (POS size w1.position) 1 ∧
        tr1.stack.map (fun q => q.pos) = w1.position :: tr0.stack.map (fun q => q.pos)) ∧
    tr.stack.getLast? =
      some { pos := { x := p.x, y := p.y, z := p.z }, large := false, next := none } ∧
    (tr.stack.map (fun q => q.pos)).Nodup ∧
    (∀ i, tr.newCenterlines i > 0 ↔ ∃ q ∈ tr.stack, POS size q.pos = i) ∧
    tr.distance = (tr.stack.length : Int) ∧
    (markedCount size tr.newCenterlines : Int) = tr.distance := by
  have hinv : PathInv T size tr ∧ DistinctInv size tr :=
    traverseSeed_invariant sq fuelE fuelT T size centerlines
      (fun tr => PathInv T size tr ∧ DistinctInv size tr)
      (fun tr w maxPoint fr tr1 w1 hq hin hnew he =>
        acceptPoint_distinct sq T size tr w maxPoint fr tr1 w1 hq hin hnew he)
      (fun tr t hq => recordHit_distinct T size tr t hq) p tr ex1 ex2 h
      ⟨startTraversal_pathInv T size p hseed, startTraversal_distinct T size p⟩
  have hbottom := traverseSeed_invariant sq fuelE fuelT T size centerlines
      (fun tr => tr.stack.getLast? =
        some { pos := { x := p.x, y := p.y, z := p.z }, large := false, next := none })
      (fun tr w maxPoint fr tr1 w1 hq _ _ he =>
        acceptPoint_bottom sq T size tr w maxPoint fr tr1 w1 _ hq he)
      (fun tr t hq => by
        show (recordHit tr t).stack.getLast? = _
        rw [recordHit_stack]
        exact hq) p tr ex1 ex2 h rfl
  refine ⟨?_, hbottom, ?_, ?_, hinv.1.dist, ?_⟩
  · intro tr0 tr1 w0 w1 hstep
    rcases traverseStep_cases sq fuelE T size centerlines tr0 w0 _ hstep with
      ⟨ex0, hr, _⟩ | ⟨t, _, hr⟩ | ⟨maxPoint, fr, hr, _, _, hnew⟩
    · cases hr
    · cases hr
    · unfold acceptPoint at hr
      injection hr with h1 h2
      subst h1
      subst h2
      exact ⟨hnew, by simp only [LPOS_eq_POS], rfl⟩
  · have hn := hinv.2.nodup
    have e : tr.stack.map (fun q => POS size q.pos) =
        (tr.stack.map (fun q => q.pos)).map (POS size) := by
      rw [List.map_map]; rfl
    rw [e] at hn
    exact List.Nodup.of_map _ hn
  · intro i
    constructor
    · intro hi
      exact hinv.2.only i (by omega)
    · rintro ⟨q, hq1, hq2⟩
      rw [← hq2, hinv.1.marked q hq1]
      decide
  · rw [markedCount_eq T size tr hinv.1 hinv.2, hinv.1.dist]

/-- On the example volume the walk from the first seed `(4,3,3)` ends with the
six voxels `(2,3,3)` to `(7,3,3)` on its stack, the seed at the bottom, and
six marked voxels. -/
theorem walk_points_distinct_witness :
    ∃ tr ex1 ex2,
      traverseSeed sqrtQ 1 30 (writeSentinel exampleTube) exampleSize
        initialRidgeState.centerlines (exampleSeed 4) = some (tr, ex1, ex2) ∧
      tr.stack.map (fun q => q.pos) =
        [⟨7, 3, 3⟩, ⟨6, 3, 3⟩, ⟨5, 3, 3⟩, ⟨2, 3, 3⟩, ⟨3, 3, 3⟩, ⟨4, 3, 3⟩] ∧
      (tr.stack.map (fun q => q.pos)).Nodup ∧
      tr.distance = 6 ∧ markedCount exampleSize tr.newCenterlines = 6 := by
  have hs : (traverseSeed sqrtQ 1 30 (writeSentinel exampleTube) exampleSize
      initialRidgeState.centerlines (exampleSeed 4)).map
        (fun r => (r.1.stack.map (fun q => q.pos), r.1.distance))
      = some ([⟨7, 3, 3⟩, ⟨6, 3, 3⟩, ⟨5, 3, 3⟩, ⟨2, 3, 3⟩, ⟨3, 3, 3⟩, ⟨4, 3, 3⟩], 6) := by
    decide!
  obtain ⟨⟨tr, ex1, ex2⟩, htr, hd⟩ := Option.map_eq_some'.mp hs
  simp only [Prod.mk.injEq] at hd
  obtain ⟨_, _, h3, _, h5, h6⟩ := walk_points_distinct sqrtQ 1 30 (writeSentinel exampleTube)
    exampleSize initialRidgeState.centerlines (exampleSeed 4) tr ex1 ex2 (by decide) htr
  refine ⟨tr, ex1, ex2, htr, hd.1, h3, hd.2, ?_⟩
  have := h6.trans hd.2
  exact_mod_cast this

/-! ## Candidate selection where the vector field has one magnitude -/

theorem candidateVisit_const (sq acosF : ℚ → ℚ) (T : TubeSegmentation) (size : Int3)
    (hmag : ∀ i j, fieldMag sq T i = fieldMag sq T j)
    (centerpoints : Int → Int) (x : Int3) (e1 : Float3) (maxD : Int) (a b c : Int)
    (st : CandidateScan) :
    candidateVisit sq acosF T size centerpoints x e1 maxD a b c st =
      nearVisit sq size centerpoints x maxD a b c st := by
  unfold candidateVisit nearVisit
  simp only [hmag (POS size { x := x.x + a, y := x.y + b, z := x.z + c }) (POS size x),
    lt_irrefl, gt_iff_lt, and_false, false_and, if_false]
  split_ifs <;> first | rfl | tauto

theorem nearVisit_remove (sq : ℚ → ℚ) (size : Int3) (centerpoints : Int → Int) (x : Int3)
    (maxD : Int) (a b c : Int) (st : CandidateScan) :
    (nearVisit sq size centerpoints x maxD a b c st).1.remove = st.remove := by
  unfold nearVisit
  simp only
  split_ifs <;> rfl

theorem nearScan_remove (sq : ℚ → ℚ) (size : Int3) (centerpoints : Int → Int) (x : Int3)
    (maxD : Int) : (nearScan sq size centerpoints x maxD).remove = [] := by
  unfold nearScan
  let P : CandidateScan → Prop := fun st => st.remove = []
  apply forInt_invariant P _ _ _ _ rfl
  intro a _ _ st hst
  apply forInt_invariant P _ _ _ _ hst
  intro b _ _ st hst
  let P2 : CandidateScan × Bool → Prop := fun acc => acc.1.remove = []
  apply forInt_invariant P2 _ _ _ _ hst
  intro c _ _ acc hacc
  show (if acc.2 then acc else _).1.remove = []
  split_ifs
  · exact hacc
  · rw [nearVisit_remove]; exact hacc

theorem processCandidate_const (sq acosF : ℚ → ℚ) (fuelE : Nat) (T : TubeSegmentation)
    (size : Int3) (hmag : ∀ i j, fieldMag sq T i = fieldMag sq T j)
    (hE : ∀ pos, (eigen_decomposition sq fuelE (hessian sq T pos size)).isSome = true)
    (centerpoints : Int → Int) (x : Int3) :
    processCandidate sq acosF fuelE T size centerpoints x =
      some (acceptCandidate sq T size centerpoints x) := by
  unfold processCandidate
  obtain ⟨r, hr⟩ := Option.isSome_iff_exists.mp (hE x)
  unfold getTubeDirection
  rw [hr]
  simp only [Option.map_some', candidateScanC, candidateVisit_const sq acosF T size hmag]
  have hrem := nearScan_remove sq size centerpoints x (roundF (max (T.radius (POS size x)) 3))
  unfold nearScan at hrem
  unfold acceptCandidate nearScan
  simp only [hrem, List.foldl_nil]

theorem selectCenterpoints_const (sq acosF : ℚ → ℚ) (fuelE : Nat) (T : TubeSegmentation)
    (size : Int3) (hmag : ∀ i j, fieldMag sq T i = fieldMag sq T j)
    (hE : ∀ pos, (eigen_decomposition sq fuelE (hessian sq T pos size)).isSome = true)
    (cands : List (ℚ × Int3)) (centerpoints : Int → Int) :
    selectCenterpoints sq acosF fuelE T size cands centerpoints =
      some (cands.foldl (fun cp cand => acceptCandidate sq T size cp cand.2) centerpoints) := by
  induction cands generalizing centerpoints with
  | nil => rfl
  | cons cand rest ih =>
    unfold selectCenterpoints
    rw [processCandidate_const sq acosF fuelE T size hmag hE]
    simp only [Option.some_bind, List.foldl_cons]
    exact ih _

/-! ## The vertex loop of the graph algorithm -/

theorem foldl_le_start {σ β : Type} (m : σ → ℚ) (f : σ → β → σ) (l : List β) (s : σ)
    (hmono : ∀ st y, m (f st y) ≤ m st) : m (l.foldl f s) ≤ m s := by
  induction l generalizing s with
  | nil => exact le_refl _
  | cons b l ih => exact (ih (f s b)).trans (hmono s b)

theorem foldl_le_of_mem {σ β : Type} (m : σ → ℚ) (f : σ → β → σ) (l : List β) (s : σ)
    (x : β) (c : ℚ) (hmono : ∀ st y, m (f st y) ≤ m st) (hx : x ∈ l)
    (hc : ∀ st, m (f st x) ≤ c) : m (l.foldl f s) ≤ c := by
  induction l generalizing s with
  | nil => simp at hx
  | cons b l ih =>
    simp only [List.foldl_cons]
    rcases List.mem_cons.mp hx with rfl | hx
    · exact (foldl_le_start m f l _ hmono).trans (hc s)
    · exact ih _ hx

theorem Int3.ext_iff3 (a b : Int3) : a = b ↔ a.x = b.x ∧ a.y = b.y ∧ a.z = b.z := by
  cases a; cases b; simp

/-- The body of the pair loops, for two neighbours of `va`: a valid pair
replaces the best pair when it is strictly shorter, any other pair is skipped. -/
theorem pairVisit_eq (sq acosF : ℚ → ℚ) (T : TubeSegmentation) (size : Int3) (g : MyGraph)
    (va v1 v2 : Nat) (st : PairSearch)
    (h1 : v1 < g.vertices.length ∧ linkLength sq g va v1 ≤ 40)
    (h2 : v2 < g.vertices.length ∧ linkLength sq g va v2 ≤ 40) :
    (validPair sq acosF T size g va v1 v2 →
      pairVisit sq acosF T size g (g.pos va) v1 v2 st =
        if linkLength sq g va v1 + linkLength sq g va v2 < st.shortestDistance then
          { shortestDistance := linkLength sq g va v1 + linkLength sq g va v2,
            bestPair1 := v1, bestPair2 := v2, validPairFound := true }
        else st) ∧
    (¬ validPair sq acosF T size g va v1 v2 →
      pairVisit sq acosF T size g (g.pos va) v1 v2 st = st) := by
  unfold validPair
  constructor
  · rintro ⟨_, _, hd, ha, hb, _, _, hang, ht1, ht2⟩
    unfold pairVisit
    simp only [← Int3.ext_iff3]
    rw [if_neg hd, if_neg ha, if_neg hb]
    have hang2 : ¬ angleAt sq acosF g va v1 v2 < 209 / 100 := not_lt.mpr hang
    have ht12 : ¬ segmentTDF T size g va v1 < 1 / 2 := not_lt.mpr ht1
    have ht22 : ¬ segmentTDF T size g va v2 < 1 / 2 := not_lt.mpr ht2
    unfold angleAt Int3.sub at hang2
    unfold segmentTDF Int3.sub at ht12 ht22
    rw [if_neg hang2, if_neg ht12, if_neg ht22]
    rfl
  · intro hnot
    unfold pairVisit
    simp only [← Int3.ext_iff3]
    by_cases hd : g.pos v1 = g.pos v2
    · rw [if_pos hd]
    rw [if_neg hd]
    by_cases ha : g.pos v1 = g.pos va
    · rw [if_pos ha]
    rw [if_neg ha]
    by_cases hb : g.pos v2 = g.pos va
    · rw [if_pos hb]
    rw [if_neg hb]
    by_cases hang : angleAt sq acosF g va v1 v2 < 209 / 100
    · unfold angleAt Int3.sub at hang
      rw [if_pos hang]
    by_cases ht1 : segmentTDF T size g va v1 < 1 / 2
    · unfold angleAt Int3.sub at hang
      unfold segmentTDF Int3.sub at ht1
      rw [if_neg hang, if_pos ht1]
    by_cases ht2 : segmentTDF T size g va v2 < 1 / 2
    · unfold angleAt Int3.sub at hang
      unfold segmentTDF Int3.sub at ht1 ht2
      rw [if_neg hang, if_neg ht1, if_pos ht2]
    exact absurd ⟨h1.1, h2.1, hd, ha, hb, h1.2, h2.2, not_lt.mp hang, not_lt.mp ht1,
      not_lt.mp ht2⟩ hnot

theorem mem_neighbors (sq : ℚ → ℚ) (g : MyGraph) (va v : Nat) :
    v ∈ (List.range g.vertices.length).filter (fun vb =>
      decide (¬ lengthInt sq (Int3.sub (g.pos vb) (g.pos va)) > maxDistance)) ↔
    v < g.vertices.length ∧ linkLength sq g va v ≤ 40 := by
  simp only [List.mem_filter, List.mem_range, decide_eq_true_eq, not_lt, gt_iff_lt, linkLength,
    maxDistance]

theorem pairVisit_sound (sq acosF : ℚ → ℚ) (T : TubeSegmentation) (size : Int3) (g : MyGraph)
    (va v1 v2 : Nat) (st : PairSearch)
    (h1 : v1 < g.vertices.length ∧ linkLength sq g va v1 ≤ 40)
    (h2 : v2 < g.vertices.length ∧ linkLength sq g va v2 ≤ 40)
    (hst : SearchInv sq acosF T size g va st) :
    SearchInv sq acosF T size g va (pairVisit sq acosF T size g (g.pos va) v1 v2 st) := by
  obtain ⟨hv, hn⟩ := pairVisit_eq sq acosF T size g va v1 v2 st h1 h2
  by_cases hvalid : validPair sq acosF T size g va v1 v2
  · rw [hv hvalid]
    split_ifs
    · exact Or.inr ⟨rfl, hvalid, rfl⟩
    · exact hst
  · rw [hn hvalid]
    exact hst

theorem pairVisit_mono (sq acosF : ℚ → ℚ) (T : TubeSegmentation) (size : Int3) (g : MyGraph)
    (xa : Int3) (v1 v2 : Nat) (st : PairSearch) :
    (pairVisit sq acosF T size g xa v1 v2 st).shortestDistance ≤ st.shortestDistance := by
  unfold pairVisit
  simp only
  split_ifs with _ _ _ _ _ _ h
  all_goals first
    | exact le_refl _
    | exact le_of_lt h

theorem pairVisit_le (sq acosF : ℚ → ℚ) (T : TubeSegmentation) (size : Int3) (g : MyGraph)
    (va v1 v2 : Nat) (st : PairSearch)
    (hvalid : validPair sq acosF T size g va v1 v2) :
    (pairVisit sq acosF T size g (g.pos va) v1 v2 st).shortestDistance ≤
      linkLength sq g va v1 + linkLength sq g va v2 := by
  obtain ⟨hv, _⟩ := pairVisit_eq sq acosF T size g va v1 v2 st
    ⟨hvalid.1, hvalid.2.2.2.2.2.1⟩ ⟨hvalid.2.1, hvalid.2.2.2.2.2.2.1⟩
  rw [hv hvalid]
  split_ifs with h
  · exact le_refl _
  · exact not_lt.mp h

/-- The pass of the vertex loop for `va`: when no valid pair exists the graph
stays as it is; otherwise the pass adds the two edges from `va` to a valid pair
whose total length no valid pair undercuts. -/
theorem linkVertex_spec (sq acosF : ℚ → ℚ) (T : TubeSegmentation) (size : Int3) (g : MyGraph)
    (va : Nat) :
    ((∀ v1 v2, ¬ validPair sq acosF T size g va v1 v2) ∧
      linkVertex sq acosF T size g va = g) ∨
    ∃ v1 v2, validPair sq acosF T size g va v1 v2 ∧
      (∀ u1 u2, validPair sq acosF T size g va u1 u2 →
        linkLength sq g va v1 + linkLength sq g va v2 ≤
          linkLength sq g va u1 + linkLength sq g va u2) ∧
      linkVertex sq acosF T size g va =
        addEdge (addEdge g va v1 (edgeWeight sq T size g va v1)) va v2
          (edgeWeight sq T size g va v2) := by
  let N := (List.range g.vertices.length).filter (fun vb =>
    decide (¬ lengthInt sq (Int3.sub (g.pos vb) (g.pos va)) > maxDistance))
  let search := N.foldl (fun st v1 =>
      N.foldl (fun st v2 => pairVisit sq acosF T size g (g.pos va) v1 v2 st) st)
      { shortestDistance := 9999, bestPair1 := 0, bestPair2 := 0, validPairFound := false }
  have hmemN : ∀ v, v ∈ N ↔ v < g.vertices.length ∧ linkLength sq g va v ≤ 40 :=
    fun v => mem_neighbors sq g va v
  have hsound : SearchInv sq acosF T size g va search := by
    apply foldl_invariant (SearchInv sq acosF T size g va)
    · exact Or.inl ⟨rfl, rfl⟩
    · intro v1 hv1 st hst
      apply foldl_invariant (SearchInv sq acosF T size g va) _ _ _ hst
      intro v2 hv2 st hst
      exact pairVisit_sound sq acosF T size g va v1 v2 st ((hmemN v1).mp hv1)
        ((hmemN v2).mp hv2) hst
  have hmin : ∀ u1 u2, validPair sq acosF T size g va u1 u2 →
      search.shortestDistance ≤ linkLength sq g va u1 + linkLength sq g va u2 := by
    intro u1 u2 hvalid
    have hu1 : u1 ∈ N := (hmemN u1).mpr ⟨hvalid.1, hvalid.2.2.2.2.2.1⟩
    have hu2 : u2 ∈ N := (hmemN u2).mpr ⟨hvalid.2.1, hvalid.2.2.2.2.2.2.1⟩
    have hinner : ∀ (y : Nat) (st : PairSearch),
        (N.foldl (fun st v2 => pairVisit sq acosF T size g (g.pos va) y v2 st) st).shortestDistance
          ≤ st.shortestDistance := fun y st =>
      foldl_le_start (fun (st : PairSearch) => st.shortestDistance) _ N st
        (fun st z => pairVisit_mono sq acosF T size g (g.pos va) y z st)
    exact foldl_le_of_mem (fun (st : PairSearch) => st.shortestDistance)
      (fun st v1 => N.foldl (fun st v2 => pairVisit sq acosF T size g (g.pos va) v1 v2 st) st)
      N _ u1 _ (fun st y => hinner y st) hu1
      (fun st => foldl_le_of_mem (fun (st : PairSearch) => st.shortestDistance)
        (fun st v2 => pairVisit sq acosF T size g (g.pos va) u1 v2 st) N st u2 _
        (fun st z => pairVisit_mono sq acosF T size g (g.pos va) u1 z st) hu2
        (fun st => pairVisit_le sq acosF T size g va u1 u2 st hvalid))
  have hshort : ∀ u1 u2, validPair sq acosF T size g va u1 u2 →
      search.shortestDistance < 9999 := by
    intro u1 u2 hvalid
    have h1 := hvalid.2.2.2.2.2.1
    have h2 := hvalid.2.2.2.2.2.2.1
    have := hmin u1 u2 hvalid
    linarith
  have hlen : ∀ u1 u2, validPair sq acosF T size g va u1 u2 → ¬ N.length < 2 := by
    intro u1 u2 hvalid hlt
    have hu1 : u1 ∈ N := (hmemN u1).mpr ⟨hvalid.1, hvalid.2.2.2.2.2.1⟩
    have hu2 : u2 ∈ N := (hmemN u2).mpr ⟨hvalid.2.1, hvalid.2.2.2.2.2.2.1⟩
    have hne : u1 ≠ u2 := fun h => hvalid.2.2.1 (by rw [h])
    match hN : N, hu1, hu2, hlt with
    | [], hu1, _, _ => simp at hu1
    | [a], hu1, hu2, _ =>
      simp only [List.mem_singleton] at hu1 hu2
      exact hne (hu1.trans hu2.symm)
    | _ :: _ :: _, _, _, hlt =>
      simp only [List.length_cons] at hlt
      omega
  have hunfold : linkVertex sq acosF T size g va =
      if N.length < 2 then g
      else if search.validPairFound then
        addEdge (addEdge g va search.bestPair1 (edgeWeight sq T size g va search.bestPair1)) va
          search.bestPair2 (edgeWeight sq T size g va search.bestPair2)
      else g := rfl
  rw [hunfold]
  by_cases hN : N.length < 2
  · rw [if_pos hN]
    exact Or.inl ⟨fun v1 v2 hvalid => hlen v1 v2 hvalid hN, rfl⟩
  · rw [if_neg hN]
    rcases hsound with ⟨hf, h9⟩ | ⟨hf, hvalid, hs⟩
    · rw [hf]
      refine Or.inl ⟨fun v1 v2 hvalid => ?_, rfl⟩
      have := hshort v1 v2 hvalid
      rw [h9] at this
      exact lt_irrefl _ this
    · rw [hf]
      refine Or.inr ⟨search.bestPair1, search.bestPair2, hvalid, ?_, rfl⟩
      intro u1 u2 hu
      rw [← hs]
      exact hmin u1 u2 hu

theorem validPair_congr (sq acosF : ℚ → ℚ) (T : TubeSegmentation) (size : Int3)
    (g g1 : MyGraph) (h : g1.vertices = g.vertices) (va v1 v2 : Nat) :
    validPair sq acosF T size g1 va v1 v2 = validPair sq acosF T size g va v1 v2 := by
  unfold validPair linkLength angleAt segmentTDF MyGraph.pos
  rw [h]

theorem linkLength_congr (sq : ℚ → ℚ) (g g1 : MyGraph) (h : g1.vertices = g.vertices)
    (va v : Nat) : linkLength sq g1 va v = linkLength sq g va v := by
  unfold linkLength MyGraph.pos
  rw [h]

theorem edgeWeight_congr (sq : ℚ → ℚ) (T : TubeSegmentation) (size : Int3)
    (g g1 : MyGraph) (h : g1.vertices = g.vertices) (va v : Nat) :
    edgeWeight sq T size g1 va v = edgeWeight sq T size g va v := by
  unfold edgeWeight MyGraph.pos
  rw [h]

theorem linkVertex_vertices (sq acosF : ℚ → ℚ) (T : TubeSegmentation) (size : Int3)
    (g : MyGraph) (va : Nat) : (linkVertex sq acosF T size g va).vertices = g.vertices := by
  rcases linkVertex_spec sq acosF T size g va with ⟨_, h⟩ | ⟨v1, v2, _, _, h⟩
  · rw [h]
  · rw [h]; rfl

theorem linkVertex_inv (sq acosF : ℚ → ℚ) (T : TubeSegmentation) (size : Int3)
    (vertices : List Int3) (k : Nat) (g : MyGraph)
    (hinv : GraphInv sq acosF T size vertices k g) :
    GraphInv sq acosF T size vertices (k + 1) (linkVertex sq acosF T size g k) := by
  rcases linkVertex_spec sq acosF T size g k with ⟨_, h⟩ | ⟨v1, v2, hvalid, hmin, h⟩
  · rw [h]
    exact ⟨hinv.verts, fun va hva => hinv.later va (by omega), hinv.passes⟩
  · have hv : (linkVertex sq acosF T size g k).vertices = g.vertices :=
      linkVertex_vertices sq acosF T size g k
    have hedges : ∀ va, passEdges (linkVertex sq acosF T size g k) va =
        passEdges g va ++ if k = va then [(k, v1, edgeWeight sq T size g k v1),
          (k, v2, edgeWeight sq T size g k v2)] else [] := by
      intro va
      rw [h]
      unfold passEdges addEdge
      simp only [List.filter_append, List.append_assoc]
      by_cases hk : k = va
      · simp [hk]
      · simp [hk]
    refine ⟨hv.trans hinv.verts, ?_, ?_⟩
    · intro va hva
      rw [hedges va, hinv.later va (by omega), if_neg (by omega)]
      rfl
    · intro va
      by_cases hk : k = va
      · subst hk
        refine Or.inr ⟨v1, v2, ?_, ?_, ?_⟩
        · rw [validPair_congr sq acosF T size g _ hv]
          exact hvalid
        · intro u1 u2 hu
          rw [validPair_congr sq acosF T size g _ hv] at hu
          simp only [linkLength_congr sq g _ hv]
          exact hmin u1 u2 hu
        · rw [hedges k, hinv.later k (le_refl _), if_pos rfl]
          simp only [edgeWeight_congr sq T size g _ hv]
          rfl
      · rw [hedges va, if_neg hk, List.append_nil]
        rcases hinv.passes va with h0 | ⟨u1, u2, hu, hm, he⟩
        · exact Or.inl h0
        · refine Or.inr ⟨u1, u2, ?_, ?_, ?_⟩
          · rw [validPair_congr sq acosF T size g _ hv]
            exact hu
          · intro w1 w2 hw
            rw [validPair_congr sq acosF T size g _ hv] at hw
            simp only [linkLength_congr sq g _ hv]
            exact hm w1 w2 hw
          · simp only [edgeWeight_congr sq T size g _ hv]
            exact he

theorem linkVertices_fold_inv (sq acosF : ℚ → ℚ) (T : TubeSegmentation) (size : Int3)
    (vertices : List Int3) (k : Nat) :
    GraphInv sq acosF T size vertices k
      ((List.range k).foldl (fun g va => linkVertex sq acosF T size g va)
        { vertices := vertices, edges := [] }) := by
  induction k with
  | zero => exact ⟨rfl, fun _ _ => rfl, fun _ => Or.inl rfl⟩
  | succ k ih =>
    rw [List.range_succ, List.foldl_append]
    exact linkVertex_inv sq acosF T size vertices k _ ih

/-- The graph after the vertex loop. -/
theorem linkVertices_inv (sq acosF : ℚ → ℚ) (T : TubeSegmentation) (size : Int3)
    (vertices : List Int3) :
    GraphInv sq acosF T size vertices vertices.length
      (linkVertices sq acosF T size vertices) :=
  linkVertices_fold_inv sq acosF T size vertices vertices.length

theorem intRange_nodup (lo hi : Int) : (intRange lo hi).Nodup := by
  unfold intRange
  apply List.Nodup.map _ (List.nodup_range _)
  intro a b h
  simpa using h

theorem mem_gridScan (size p : Int3) :
    p ∈ gridScan size ↔ 0 ≤ p.x ∧ p.x < size.x ∧ 0 ≤ p.y ∧ p.y < size.y ∧
      0 ≤ p.z ∧ p.z < size.z := by
  unfold gridScan
  simp only [List.mem_flatMap, List.mem_map, mem_intRange]
  constructor
  · rintro ⟨z, hz, y, hy, x, hx, rfl⟩
    exact ⟨hx.1, hx.2, hy.1, hy.2, hz.1, hz.2⟩
  · rintro ⟨h1, h2, h3, h4, h5, h6⟩
    exact ⟨p.z, ⟨h5, h6⟩, p.y, ⟨h3, h4⟩, p.x, ⟨h1, h2⟩, rfl⟩

theorem gridScan_nodup (size : Int3) : (gridScan size).Nodup := by
  unfold gridScan
  rw [List.nodup_flatMap]
  constructor
  · intro z _
    rw [List.nodup_flatMap]
    constructor
    · intro y _
      apply List.Nodup.map _ (intRange_nodup _ _)
      intro a b h
      injection h
    · apply (intRange_nodup 0 size.y).imp
      intro y1 y2 hne
      simp only [Function.onFun, List.disjoint_left, List.mem_map]
      rintro p ⟨x1, _, rfl⟩ ⟨x2, _, h⟩
      injection h with _ hy
      exact hne hy.symm
  · apply (intRange_nodup 0 size.z).imp
    intro z1 z2 hne
    simp only [Function.onFun, List.disjoint_left, List.mem_flatMap, List.mem_map]
    rintro p ⟨y1, _, x1, _, rfl⟩ ⟨y2, _, x2, _, h⟩
    injection h with _ _ hz
    exact hne hz.symm

theorem collectVertices_nodup (size : Int3) (centerpoints : Int → Int) :
    (collectVertices size centerpoints).Nodup :=
  (gridScan_nodup size).filter _

theorem buildGraph_eq (sq acosF : ℚ → ℚ) (T : TubeSegmentation) (size : Int3)
    (centerpoints : Int → Int) :
    buildGraph sq acosF T size centerpoints =
      linkVertices sq acosF T size (collectVertices size centerpoints) := rfl

theorem mem_passEdges (g : MyGraph) (en : Nat × Nat × ℚ) (h : en ∈ g.edges) :
    en ∈ passEdges g en.1 := by
  unfold passEdges
  rw [List.mem_filter]
  exact ⟨h, by simp⟩

/-- C14: the graph that `runNewCenterlineAlg` builds from the array
`centerpoints` has no self-loop.  No two vertices share a position, and every
edge joins two vertices of the graph at different positions. -/
theorem graph_no_self_loop (sq acosF : ℚ → ℚ) (T : TubeSegmentation) (size : Int3)
    (centerpoints : Int → Int) :
    (buildGraph sq acosF T size centerpoints).vertices.Nodup ∧
    ∀ en ∈ (buildGraph sq acosF T size centerpoints).edges,
      en.1 < (buildGraph sq acosF T size centerpoints).vertices.length ∧
      en.2.1 < (buildGraph sq acosF T size centerpoints).vertices.length ∧
      (buildGraph sq acosF T size centerpoints).pos en.2.1 ≠
        (buildGraph sq acosF T size centerpoints).pos en.1 ∧
      en.2.1 ≠ en.1 := by
  rw [buildGraph_eq]
  have hinv := linkVertices_inv sq acosF T size (collectVertices size centerpoints)
  refine ⟨by rw [hinv.verts]; exact collectVertices_nodup size centerpoints, ?_⟩
  rintro ⟨a, b, w⟩ hen
  have hmem := mem_passEdges _ _ hen
  simp only at hmem ⊢
  have hlt : a < (linkVertices sq acosF T size
      (collectVertices size centerpoints)).vertices.length := by
    by_contra hge
    rw [hinv.verts] at hge
    rw [hinv.later a (by omega)] at hmem
    simp at hmem
  rcases hinv.passes a with h0 | ⟨v1, v2, hvalid, _, he⟩
  · rw [h0] at hmem
    simp at hmem
  · rw [he] at hmem
    simp only [List.mem_cons, List.mem_singleton, List.not_mem_nil, or_false, Prod.mk.injEq,
      true_and] at hmem
    rcases hmem with ⟨rfl, _⟩ | ⟨rfl, _⟩
    · exact ⟨hlt, hvalid.1, hvalid.2.2.2.1, fun e => hvalid.2.2.2.1 (by rw [e])⟩
    · exact ⟨hlt, hvalid.2.1, hvalid.2.2.2.2.1, fun e => hvalid.2.2.2.2.1 (by rw [e])⟩

theorem selectMaxCC_succ (c : List Nat) (n : Nat) :
    selectMaxCC c (n + 1) =
      if ccSize c n > ccSize c (selectMaxCC c n) then n else selectMaxCC c n := by
  unfold selectMaxCC forUp
  simp only [Nat.sub_zero, List.range'_concat, List.foldl_append, List.foldl_cons, List.foldl_nil,
    Nat.zero_add, Nat.one_mul]

theorem selectMaxCC_spec (c : List Nat) (n : Nat) :
    (n = 0 → selectMaxCC c n = 0) ∧ (0 < n → selectMaxCC c n < n) ∧
    (∀ i, i < n → ccSize c i ≤ ccSize c (selectMaxCC c n)) ∧
    (∀ i, i < selectMaxCC c n → ccSize c i < ccSize c (selectMaxCC c n)) := by
  induction n with
  | zero =>
    have h0 : selectMaxCC c 0 = 0 := rfl
    refine ⟨fun _ => h0, fun h => absurd h (lt_irrefl _), fun i hi => absurd hi (by omega), ?_⟩
    intro i hi
    rw [h0] at hi
    omega
  | succ n ih =>
    obtain ⟨h0, h1, h2, h3⟩ := ih
    rw [selectMaxCC_succ]
    by_cases hgt : ccSize c n > ccSize c (selectMaxCC c n)
    · rw [if_pos hgt]
      refine ⟨fun h => by omega, fun _ => by omega, ?_, ?_⟩
      · intro i hi
        by_cases hin : i = n
        · rw [hin]
        · have := h2 i (by omega)
          omega
      · intro i hi
        have := h2 i hi
        omega
    · rw [if_neg hgt]
      refine ⟨fun h => by omega, ?_, ?_, h3⟩
      · intro _
        by_cases hn : n = 0
        · rw [h0 hn]; omega
        · have := h1 (by omega)
          omega
      · intro i hi
        by_cases hin : i = n
        · rw [hin]; omega
        · exact h2 i (by omega)

theorem foldl_min_le (l : List Nat) (v : Nat) : l.foldl min v ≤ v := by
  induction l generalizing v with
  | nil => exact le_refl _
  | cons a l ih => exact (ih (min v a)).trans (Nat.min_le_left _ _)

theorem numComponents_pos (g : MyGraph) (hne : g.vertices ≠ []) : 0 < numComponents g := by
  unfold numComponents
  apply List.length_pos_of_mem (a := 0)
  rw [List.mem_filter, List.mem_range]
  refine ⟨List.length_pos.mpr hne, ?_⟩
  have : MyGraph.root g 0 ≤ 0 := foldl_min_le _ 0
  simp only [decide_eq_true_eq]
  omega

/-- C15: on a graph with at least one vertex the loop over the component
sizes selects a component `maxCC` that exists, has at least as many vertices
as every component, and has the smallest id among the components with as many
vertices. -/
theorem maxCC_largest_first (g : MyGraph) (hne : g.vertices ≠ []) :
    0 < numComponents g ∧
    selectMaxCC (connectedComponents g) (numComponents g) < numComponents g ∧
    (∀ i, i < numComponents g → ccSize (connectedComponents g) i ≤
      ccSize (connectedComponents g) (selectMaxCC (connectedComponents g) (numComponents g))) ∧
    (∀ i, i < numComponents g → ccSize (connectedComponents g) i =
      ccSize (connectedComponents g) (selectMaxCC (connectedComponents g) (numComponents g)) →
        selectMaxCC (connectedComponents g) (numComponents g) ≤ i) := by
  have hpos := numComponents_pos g hne
  obtain ⟨_, h1, h2, h3⟩ := selectMaxCC_spec (connectedComponents g) (numComponents g)
  refine ⟨hpos, h1 hpos, h2, ?_⟩
  intro i _ heq
  by_contra hlt
  have := h3 i (by omega)
  omega

/-! ## The graph algorithm on the gap volume -/

theorem gapTube_mag (i j : Int) : fieldMag sqrtQ gapTube i = fieldMag sqrtQ gapTube j := rfl

theorem sqrtQ_quarter : sqrtQ (1 / 4) = 1 / 2 := by decide!

theorem gapTube_eigen (pos : Int3) :
    (eigen_decomposition sqrtQ 1 (hessian sqrtQ gapTube pos gapSize)).isSome = true := by
  have e : hessian sqrtQ gapTube pos gapSize = hessian sqrtQ gapTube ⟨5, 2, 2⟩ gapSize := by
    funext i j
    unfold hessian gradient normalizedComponent gapTube
    norm_num [sqrtQ_quarter]
  rw [e]
  decide!

theorem gapSelect :
    selectCenterpoints sqrtQ acosQ 1 gapTube gapSize (collectCandidates gapTube gapSize)
      (fun _ => 0) = some gapCenterpoints :=
  selectCenterpoints_const sqrtQ acosQ 1 gapTube gapSize gapTube_mag gapTube_eigen _ _

theorem gapVertices_eq : collectVertices gapSize gapCenterpoints = gapVertices := by decide!

theorem gapGraph_eq : buildGraph sqrtQ acosQ gapTube gapSize gapCenterpoints = gapGraph := by
  rw [buildGraph_eq, gapVertices_eq]
  have h : (linkVertices sqrtQ acosQ gapTube gapSize gapVertices).vertices = gapGraph.vertices ∧
      (linkVertices sqrtQ acosQ gapTube gapSize gapVertices).edges = gapGraph.edges := by
    decide!
  generalize linkVertices sqrtQ acosQ gapTube gapSize gapVertices = g at h
  cases g
  cases hg : gapGraph
  rw [hg] at h
  simp only at h
  rw [h.1, h.2]

/-- The components of the graph of the gap volume: one component, which the
loop over the component sizes selects. -/
theorem gapComponents :
    connectedComponents gapGraph = [0, 0, 0, 0, 0] ∧ numComponents gapGraph = 1 ∧
    selectMaxCC (connectedComponents gapGraph) (numComponents gapGraph) = 0 := by decide!

/-- The run of `runNewCenterlineAlg` on the gap volume. -/
theorem gapRun :
    runNewCenterlineAlg sqrtQ acosQ 1 gapTube gapSize =
      some (drawComponent gapSize gapGraph [0, 0, 0, 0, 0] 0) := by
  unfold runNewCenterlineAlg
  rw [gapSelect]
  simp only [Option.map_some', gapGraph_eq, gapComponents.1, gapComponents.2.1]
  have h := gapComponents.2.2
  rw [gapComponents.1, gapComponents.2.1] at h
  rw [h]

/-- C16: on the gap volume the vertex at `(9,2,2)` belongs to the selected
component and has an edge to the vertex at `(11,2,2)`, and its voxel has the
value 1 in the returned volume: the edge between the vertices at `(4,2,2)` and
`(13,2,2)` is drawn over it after its own edge. -/
theorem vertex_voxel_overwritten :
    ∃ vol, runNewCenterlineAlg sqrtQ acosQ 1 gapTube gapSize = some vol ∧
      buildGraph sqrtQ acosQ gapTube gapSize gapCenterpoints = gapGraph ∧
      gapGraph.pos 2 = ⟨9, 2, 2⟩ ∧
      (connectedComponents gapGraph).getD 2 0 =
        selectMaxCC (connectedComponents gapGraph) (numComponents gapGraph) ∧
      MyGraph.adjacent gapGraph 2 = [3] ∧
      vol (POS gapSize ⟨9, 2, 2⟩) = 1 ∧
      gapGraph.vertices.map (fun v => vol (POS gapSize v)) = [2, 2, 1, 2, 2] := by
  refine ⟨_, gapRun, gapGraph_eq, ?_⟩
  decide!

/-- The graph of the gap volume has five vertices at different positions and
four edges, none of them a self-loop. -/
theorem graph_no_self_loop_witness :
    gapGraph.vertices.Nodup ∧ gapGraph.edges.length = 4 ∧
    ∀ en ∈ gapGraph.edges, en.1 < 5 ∧ en.2.1 < 5 ∧
      gapGraph.pos en.2.1 ≠ gapGraph.pos en.1 ∧ en.2.1 ≠ en.1 := by
  have h := graph_no_self_loop sqrtQ acosQ gapTube gapSize gapCenterpoints
  rw [gapGraph_eq] at h
  exact ⟨h.1, rfl, h.2⟩

/-! ## Array indices of the ridge traversal -/

theorem POS_inGrid (size pos : Int3) (h : inGrid size pos) : inRange size (POS size pos) := by
  obtain ⟨hx1, hx2, hy1, hy2, hz1, hz2⟩ := h
  unfold inRange POS totalSize
  constructor
  · have h1 : 0 ≤ pos.y * size.x := mul_nonneg hy1 (by omega)
    have h2 : 0 ≤ pos.z * size.x * size.y := mul_nonneg (mul_nonneg hz1 (by omega)) (by omega)
    omega
  · have h1 : pos.y * size.x ≤ (size.y - 1) * size.x :=
      mul_le_mul_of_nonneg_right (by omega) (by omega)
    have h2 : pos.z * (size.x * size.y) ≤ (size.z - 1) * (size.x * size.y) :=
      mul_le_mul_of_nonneg_right (by omega) (mul_nonneg (by omega) (by omega))
    nlinarith

theorem mem_gradientStencil (pos : Int3) (dimensions : Int) (n : Int3)
    (h : n ∈ gradientStencil pos dimensions) :
    pos.x - 1 ≤ n.x ∧ n.x ≤ pos.x + 1 ∧ pos.y - 1 ≤ n.y ∧ n.y ≤ pos.y + 1 ∧
      pos.z - 1 ≤ n.z ∧ n.z ≤ pos.z + 1 := by
  unfold gradientStencil at h
  simp only [List.mem_append, List.mem_cons, List.mem_singleton, List.not_mem_nil, or_false] at h
  rcases h with (h | h) | h
  · rcases h with rfl | rfl <;> simp only <;> omega
  · split_ifs at h
    · simp only [List.mem_cons, List.mem_singleton, List.not_mem_nil, or_false] at h
      rcases h with rfl | rfl <;> simp only <;> omega
    · simp at h
  · split_ifs at h
    · simp only [List.mem_cons, List.mem_singleton, List.not_mem_nil, or_false] at h
      rcases h with rfl | rfl <;> simp only <;> omega
    · simp at h

/-- The stencil of the tube-direction estimator stays in the grid at every
voxel inside the margin. -/
theorem eigenReads_inRange (size pos : Int3) (h : inMargin size pos) :
    ∀ i ∈ eigenReads size pos, inRange size i := by
  intro i hi
  unfold eigenReads at hi
  rw [List.mem_map] at hi
  obtain ⟨n, hn, rfl⟩ := hi
  apply POS_inGrid
  have hb : pos.x - 1 ≤ n.x ∧ n.x ≤ pos.x + 1 ∧ pos.y - 1 ≤ n.y ∧ n.y ≤ pos.y + 1 ∧
      pos.z - 1 ≤ n.z ∧ n.z ≤ pos.z + 1 := by
    simp only [List.mem_append] at hn
    rcases hn with (hn | hn) | hn <;> exact mem_gradientStencil _ _ _ hn
  unfold inMargin at h
  unfold inGrid
  omega

theorem seedReads_inRange (size : Int3) (x y z : Int)
    (hx1 : 2 ≤ x) (hx2 : x < size.x - 2) (hy1 : 2 ≤ y) (hy2 : y < size.y - 2)
    (hz1 : 2 ≤ z) (hz2 : z < size.z - 2) :
    ∀ i ∈ seedReads size x y z, inRange size i := by
  intro i hi
  unfold seedReads at hi
  simp only [List.mem_cons, List.mem_flatMap, List.mem_map, mem_intRange] at hi
  rcases hi with rfl | rfl | ⟨a, ha, b, hb, c, hc, rfl⟩
  · rw [← POS_eq_LPOS]
    apply POS_inGrid
    unfold inGrid
    simp only
    omega
  · apply POS_inGrid
    unfold inGrid
    simp only
    omega
  · apply POS_inGrid
    unfold inGrid
    simp only
    omega

theorem scanReads_inRange (size position : Int3)
    (h : ¬ (position.x < 3 ∨ position.x > size.x - 3 ∨ position.y < 3 ∨ position.y > size.y - 3 ∨
      position.z < 3 ∨ position.z > size.z - 3)) :
    ∀ i ∈ scanReads size position, inRange size i := by
  intro i hi
  unfold scanReads at hi
  simp only [List.mem_cons, List.mem_flatMap, List.mem_map, mem_intRange] at hi
  rcases hi with rfl | ⟨a, ha, b, hb, c, hc, rfl⟩
  · apply POS_inGrid
    unfold inGrid
    simp only
    omega
  · apply POS_inGrid
    unfold inGrid
    simp only
    omega

theorem foldl_congr_mem {σ β : Type} (f g : σ → β → σ) (l : List β) (s : σ)
    (h : ∀ i ∈ l, ∀ s, f s i = g s i) : l.foldl f s = l.foldl g s := by
  induction l generalizing s with
  | nil => rfl
  | cons b l ih =>
    simp only [List.foldl_cons]
    rw [h b (List.mem_cons_self _ _) s]
    exact ih _ (fun i hi s => h i (List.mem_cons_of_mem _ hi) s)

theorem forInt_congr {σ : Type} (lo hi : Int) (body body2 : Int → σ → σ) (s : σ)
    (h : ∀ i, lo ≤ i → i < hi → ∀ s, body i s = body2 i s) :
    forInt lo hi body s = forInt lo hi body2 s := by
  unfold forInt
  apply foldl_congr_mem
  intro i hi s
  rw [mem_intRange] at hi
  exact h i hi.1 hi.2 s

theorem normalizedComponent_congr (sq : ℚ → ℚ) (T U : TubeSegmentation) (F G : Int → ℚ)
    (i : Int) (h : T.Fx i = U.Fx i ∧ T.Fy i = U.Fy i ∧ T.Fz i = U.Fz i) (hF : F i = G i) :
    normalizedComponent sq T F i = normalizedComponent sq U G i := by
  unfold normalizedComponent
  rw [h.1, h.2.1, h.2.2, hF]

theorem gradient_reads (sq : ℚ → ℚ) (T U : TubeSegmentation) (pos size : Int3)
    (volumeComponent dimensions : Int)
    (h : ∀ n ∈ gradientStencil pos dimensions,
      T.Fx (POS size n) = U.Fx (POS size n) ∧ T.Fy (POS size n) = U.Fy (POS size n) ∧
        T.Fz (POS size n) = U.Fz (POS size n)) :
    gradient sq T pos volumeComponent dimensions size =
      gradient sq U pos volumeComponent dimensions size := by
  have key : ∀ (F G : Int → ℚ),
      (∀ n ∈ gradientStencil pos dimensions, F (POS size n) = G (POS size n)) →
      ({ x := (1 / 2) * (normalizedComponent sq T F (POS size { pos with x := pos.x + 1 }) -
            normalizedComponent sq T F (POS size { pos with x := pos.x + 1 - 2 })),
         y := (1 / 2) * ((if dimensions > 1 then
              normalizedComponent sq T F (POS size { pos with y := pos.y + 1 }) else 0) -
            (if dimensions > 1 then
              normalizedComponent sq T F (POS size { pos with y := pos.y + 1 - 2 }) else 0)),
         z := (1 / 2) * ((if dimensions > 2 then
              normalizedComponent sq T F (POS size { pos with z := pos.z + 1 }) else 0) -
            (if dimensions > 2 then
              normalizedComponent sq T F (POS size { pos with z := pos.z + 1 - 2 }) else 0)) } :
          Float3) =
      { x := (1 / 2) * (normalizedComponent sq U G (POS size { pos with x := pos.x + 1 }) -
            normalizedComponent sq U G (POS size { pos with x := pos.x + 1 - 2 })),
         y := (1 / 2) * ((if dimensions > 1 then
              normalizedComponent sq U G (POS size { pos with y := pos.y + 1 }) else 0) -
            (if dimensions > 1 then
              normalizedComponent sq U G (POS size { pos with y := pos.y + 1 - 2 }) else 0)),
         z := (1 / 2) * ((if dimensions > 2 then
              normalizedComponent sq U G (POS size { pos with z := pos.z + 1 }) else 0) -
            (if dimensions > 2 then
              normalizedComponent sq U G (POS size { pos with z := pos.z + 1 - 2 }) else 0)) } := by
    intro F G hFG
    have e : ∀ n ∈ gradientStencil pos dimensions,
        normalizedComponent sq T F (POS size n) = normalizedComponent sq U G (POS size n) :=
      fun n hn => normalizedComponent_congr sq T U F G _ (h n hn) (hFG n hn)
    rw [e _ (by simp [gradientStencil]), e _ (by simp [gradientStencil])]
    by_cases h1 : dimensions > 1
    · rw [if_pos h1, if_pos h1, if_pos h1, if_pos h1, e _ (by simp [gradientStencil, h1]),
        e _ (by simp [gradientStencil, h1])]
      by_cases h2 : dimensions > 2
      · rw [if_pos h2, if_pos h2, if_pos h2, if_pos h2, e _ (by simp [gradientStencil, h2]),
          e _ (by simp [gradientStencil, h2])]
      · rw [if_neg h2, if_neg h2, if_neg h2, if_neg h2]
    · rw [if_neg h1, if_neg h1, if_neg h1, if_neg h1]
      by_cases h2 : dimensions > 2
      · rw [if_pos h2, if_pos h2, if_pos h2, if_pos h2, e _ (by simp [gradientStencil, h2]),
          e _ (by simp [gradientStencil, h2])]
      · rw [if_neg h2, if_neg h2, if_neg h2, if_neg h2]
  unfold gradient
  by_cases c0 : volumeComponent = 0
  · simp only [c0, if_true]
    exact key T.Fx U.Fx (fun n hn => (h n hn).1)
  · by_cases c1 : volumeComponent = 1
    · simp only [c1, if_true, one_ne_zero, if_false]
      exact key T.Fy U.Fy (fun n hn => (h n hn).2.1)
    · by_cases c2 : volumeComponent = 2
      · simp only [c2, if_true, OfNat.ofNat_ne_zero, OfNat.ofNat_ne_one, if_false]
        exact key T.Fz U.Fz (fun n hn => (h n hn).2.2)
      · simp only [c0, c1, c2, if_false]

/-- The matrix that `getTubeDirection` and `doEigen` hand to the eigen-solver
depends on the vector field at the indices of `eigenReads` only. -/
theorem hessian_reads (sq : ℚ → ℚ) (T U : TubeSegmentation) (pos size : Int3)
    (h : ∀ i ∈ eigenReads size pos, T.Fx i = U.Fx i ∧ T.Fy i = U.Fy i ∧ T.Fz i = U.Fz i) :
    hessian sq T pos size = hessian sq U pos size := by
  have hg : ∀ d, (d = 1 ∨ d = 2 ∨ d = 3) → ∀ n ∈ gradientStencil pos d,
      T.Fx (POS size n) = U.Fx (POS size n) ∧ T.Fy (POS size n) = U.Fy (POS size n) ∧
        T.Fz (POS size n) = U.Fz (POS size n) := by
    intro d hd n hn
    apply h
    unfold eigenReads
    rw [List.mem_map]
    refine ⟨n, ?_, rfl⟩
    simp only [List.mem_append]
    rcases hd with rfl | rfl | rfl
    · exact Or.inl (Or.inl hn)
    · exact Or.inl (Or.inr hn)
    · exact Or.inr hn
  unfold hessian
  rw [gradient_reads sq T U pos size 0 1 (hg 1 (Or.inl rfl)),
    gradient_reads sq T U pos size 1 2 (hg 2 (Or.inr (Or.inl rfl))),
    gradient_reads sq T U pos size 2 3 (hg 3 (Or.inr (Or.inr rfl)))]

theorem foldl_congr_inv {σ β : Type} (P : σ → Prop) (f g : σ → β → σ) (l : List β) (s : σ)
    (h0 : P s) (h : ∀ i ∈ l, ∀ s, P s → f s i = g s i ∧ P (f s i)) :
    l.foldl f s = l.foldl g s ∧ P (l.foldl f s) := by
  induction l generalizing s with
  | nil => exact ⟨rfl, h0⟩
  | cons b l ih =>
    simp only [List.foldl_cons]
    obtain ⟨e, hp⟩ := h b (List.mem_cons_self _ _) s h0
    rw [← e]
    exact ih _ hp (fun i hi s hs => h i (List.mem_cons_of_mem _ hi) s hs)

theorem forInt_congr_inv {σ : Type} (P : σ → Prop) (lo hi : Int) (body body2 : Int → σ → σ)
    (s : σ) (h0 : P s)
    (h : ∀ i, lo ≤ i → i < hi → ∀ s, P s → body i s = body2 i s ∧ P (body i s)) :
    forInt lo hi body s = forInt lo hi body2 s ∧ P (forInt lo hi body s) := by
  unfold forInt
  apply foldl_congr_inv P _ _ _ _ h0
  intro i hi s hs
  rw [mem_intRange] at hi
  exact h i hi.1 hi.2 s hs

/-- The seed test at `(x,y,z)` depends on the TDF at the indices of `seedReads`
only. -/
theorem seedVisit_reads (T U : TubeSegmentation) (size : Int3) (x y z : Int) (q : List point)
    (h : ∀ i ∈ seedReads size x y z, T.TDF i = U.TDF i) :
    seedVisit T size x y z q = seedVisit U size x y z q := by
  have h0 : T.TDF (LPOS size x y z) = U.TDF (LPOS size x y z) :=
    h _ (by simp [seedReads])
  have hc : T.TDF (POS size { x := x, y := y, z := z }) =
      U.TDF (POS size { x := x, y := y, z := z }) := h _ (by simp [seedReads])
  have hn : ∀ a b c : Int, -2 ≤ a → a < 2 → -2 ≤ b → b < 2 → -2 ≤ c → c < 2 →
      T.TDF (POS size { x := x + a, y := y + b, z := z + c }) =
        U.TDF (POS size { x := x + a, y := y + b, z := z + c }) := by
    intro a b c ha1 ha2 hb1 hb2 hc1 hc2
    apply h
    unfold seedReads
    simp only [List.mem_cons, List.mem_flatMap, List.mem_map, mem_intRange]
    exact Or.inr (Or.inr ⟨a, ⟨ha1, ha2⟩, b, ⟨hb1, hb2⟩, c, ⟨hc1, hc2⟩, rfl⟩)
  have hv : seedValid T size x y z = seedValid U size x y z := by
    unfold seedValid
    apply forInt_congr
    intro a ha1 ha2 valid
    apply forInt_congr
    intro b hb1 hb2 valid
    unfold seedScanC
    congr 1
    apply forInt_congr
    intro c hc1 hc2 st
    rw [hn a b c ha1 ha2 hb1 hb2 hc1 hc2, hc]
  unfold seedVisit
  rw [h0, hv]

/-- The neighbour scan at `position` depends on the fields at the indices of
`scanReads` only, and its winner is at one of these indices. -/
theorem scanNeighbors_reads (sq : ℚ → ℚ) (T U : TubeSegmentation) (size position : Int3)
    (t_i : Float3)
    (h : ∀ i ∈ scanReads size position, T.TDF i = U.TDF i ∧ T.radius i = U.radius i ∧
      T.Fx i = U.Fx i ∧ T.Fy i = U.Fy i ∧ T.Fz i = U.Fz i) :
    scanNeighbors sq T size position t_i = scanNeighbors sq U size position t_i ∧
      POS size (scanNeighbors sq T size position t_i) ∈ scanReads size position := by
  let P : Int3 → Prop := fun mp => POS size mp ∈ scanReads size position
  have hmag : ∀ i ∈ scanReads size position, fieldMag sq T i = fieldMag sq U i := by
    intro i hi
    obtain ⟨_, _, h3, h4, h5⟩ := h i hi
    unfold fieldMag
    rw [h3, h4, h5]
  unfold scanNeighbors
  apply forInt_congr_inv P
  · show POS size _ ∈ scanReads size position
    simp [scanReads]
  · intro a ha1 ha2 mp hmp
    apply forInt_congr_inv P _ _ _ _ _ hmp
    intro b hb1 hb2 mp hmp
    apply forInt_congr_inv P _ _ _ _ _ hmp
    intro c hc1 hc2 mp hmp
    have hn : POS size { x := position.x + a, y := position.y + b, z := position.z + c } ∈
        scanReads size position := by
      unfold scanReads
      simp only [List.mem_cons, List.mem_flatMap, List.mem_map, mem_intRange]
      exact Or.inr ⟨a, ⟨ha1, ha2⟩, b, ⟨hb1, hb2⟩, c, ⟨hc1, hc2⟩, rfl⟩
    constructor
    · unfold scanVisit
      simp only [← POS_eq_LPOS, (h _ hn).1, (h _ hn).2.1, hmag _ hn, hmag _ hmp, (h _ hmp).1]
    · unfold scanVisit
      simp only
      split_ifs
      all_goals first
        | exact hmp
        | exact hn

theorem setAt_values (cp : Int → Int) (i v : Int) (hv : v = 0 ∨ v = 1 ∨ v = 2)
    (h : ∀ k, cp k = 0 ∨ cp k = 1 ∨ cp k = 2) :
    ∀ k, setAt cp i v k = 0 ∨ setAt cp i v k = 1 ∨ setAt cp i v k = 2 := by
  intro k
  unfold setAt
  split_ifs
  · exact hv
  · exact h k

theorem forUp_invariant {σ : Type} (P : σ → Prop) (lo hi : Nat) (body : Nat → σ → σ) (s : σ)
    (h0 : P s) (hstep : ∀ i s, P s → P (body i s)) : P (forUp lo hi body s) := by
  unfold forUp
  exact foldl_invariant P _ _ _ h0 (fun i _ s hs => hstep i s hs)

theorem drawEdge_values (size xa xb : Int3) (cp : Int → Int)
    (h : ∀ k, cp k = 0 ∨ cp k = 1 ∨ cp k = 2) :
    ∀ k, drawEdge size xa xb cp k = 0 ∨ drawEdge size xa xb cp k = 1 ∨
      drawEdge size xa xb cp k = 2 := by
  unfold drawEdge
  apply setAt_values _ _ _ (Or.inr (Or.inr rfl))
  apply setAt_values _ _ _ (Or.inr (Or.inr rfl))
  apply forUp_invariant (fun cp : Int → Int => ∀ k, cp k = 0 ∨ cp k = 1 ∨ cp k = 2) _ _ _ _ h
  intro i cp hcp
  exact setAt_values _ _ _ (Or.inr (Or.inl rfl)) hcp

/-- Every voxel of the volume that the final loop of `runNewCenterlineAlg`
writes is 0, 1 or 2. -/
theorem drawComponent_values (size : Int3) (g : MyGraph) (c : List Nat) (maxCC : Nat) :
    ∀ k, drawComponent size g c maxCC k = 0 ∨ drawComponent size g c maxCC k = 1 ∨
      drawComponent size g c maxCC k = 2 := by
  unfold drawComponent
  apply forUp_invariant (fun cp : Int → Int => ∀ k, cp k = 0 ∨ cp k = 1 ∨ cp k = 2)
  · intro k; exact Or.inl rfl
  · intro i cp hcp
    split_ifs
    · apply foldl_invariant (fun cp : Int → Int => ∀ k, cp k = 0 ∨ cp k = 1 ∨ cp k = 2) _ _ _ hcp
      intro vb _ cp hcp
      exact drawEdge_values size _ _ cp hcp
    · exact hcp

/-- C18: in `runRidgeTraversal` on a grid with at least one voxel every array
index lies in `[0, totalSize)`: the sentinel index 0; the indices of the seed
test at every voxel of the scan; the label index and the gradient stencil of
every seed, whose coordinates lie in `[2, size-3]`; and in every pass through
the loop body that does not stop at the bounds test (position with a
coordinate below 3 or above `size-3`), the indices of the neighbour scan, the
index of its winner, and the gradient stencil of the accepted point, whose
coordinates lie in `[2, size-2]`. -/
theorem ridge_indices_in_range (sq : ℚ → ℚ) (fuelE : Nat) (T : TubeSegmentation) (size : Int3)
    (hgrid : 0 < totalSize size) :
    inRange size 0 ∧
    (∀ x y z, 2 ≤ x → x < size.x - 2 → 2 ≤ y → y < size.y - 2 → 2 ≤ z → z < size.z - 2 →
      ∀ i ∈ seedReads size x y z, inRange size i) ∧
    (∀ p ∈ popOrder (collectSeeds T size),
      (2 ≤ p.x ∧ p.x ≤ size.x - 3 ∧ 2 ≤ p.y ∧ p.y ≤ size.y - 3 ∧
        2 ≤ p.z ∧ p.z ≤ size.z - 3) ∧
      inRange size (LPOS size p.x p.y p.z) ∧
      ∀ i ∈ eigenReads size { x := p.x, y := p.y, z := p.z }, inRange size i) ∧
    (∀ (centerlines : Int → Int) (tr : Traversal) (w : Walker) (r : StepResult),
      traverseStep sq fuelE T size centerlines tr w = some r →
      r = StepResult.stop tr Exit.outOfBounds ∨
      ((3 ≤ w.position.x ∧ w.position.x ≤ size.x - 3 ∧ 3 ≤ w.position.y ∧
          w.position.y ≤ size.y - 3 ∧ 3 ≤ w.position.z ∧ w.position.z ≤ size.z - 3) ∧
        (∀ i ∈ scanReads size w.position, inRange size i) ∧
        POS size (scanNeighbors sq T size w.position w.t_i) ∈ scanReads size w.position ∧
        ∀ tr1 w1, r = StepResult.next tr1 w1 →
          inMargin size w1.position ∧ ∀ i ∈ eigenReads size w1.position, inRange size i)) := by
  refine ⟨⟨le_refl _, hgrid⟩, ?_, ?_, ?_⟩
  · intro x y z hx1 hx2 hy1 hy2 hz1 hz2
    exact seedReads_inRange size x y z hx1 hx2 hy1 hy2 hz1 hz2
  · intro p hp
    have hin := seed_inMargin T size p hp
    have hp2 := hp
    unfold popOrder at hp2
    rw [List.mem_mergeSort, List.mem_reverse, mem_collectSeeds] at hp2
    obtain ⟨z, hz1, hz2, y, hy1, hy2, x, hx1, hx2, rfl, _, _⟩ := hp2
    refine ⟨by simp only; omega, ?_, eigenReads_inRange size _ hin⟩
    rw [← POS_eq_LPOS]
    exact POS_in_range size _ hin
  · intro centerlines tr w r h
    by_cases hb : w.position.x < 3 ∨ w.position.x > size.x - 3 ∨ w.position.y < 3 ∨
        w.position.y > size.y - 3 ∨ w.position.z < 3 ∨ w.position.z > size.z - 3
    · left
      unfold traverseStep at h
      simp only at h
      rw [if_pos hb] at h
      exact (Option.some.inj h).symm
    · right
      refine ⟨by omega, scanReads_inRange size w.position hb, ?_, ?_⟩
      · exact (scanNeighbors_reads sq T T size w.position w.t_i
          (fun i _ => ⟨rfl, rfl, rfl, rfl, rfl⟩)).2
      · intro tr1 w1 hr
        rcases traverseStep_cases sq fuelE T size centerlines tr w r h with
          ⟨ex0, hr0, _⟩ | ⟨t, _, hr0⟩ | ⟨maxPoint, fr, hr0, hin, _, _⟩
        · rw [hr] at hr0; cases hr0
        · rw [hr] at hr0; cases hr0
        · rw [hr] at hr0
          unfold acceptPoint at hr0
          injection hr0 with h1 h2
          subst h2
          exact ⟨hin, eigenReads_inRange size _ hin⟩

/-- On the example volume (24 x 6 x 6): the seed `(4,3,3)` lies in the margin and
the indices of its stencil, of its seed test and of the neighbour scan at
`(4,3,3)` are all below 864. -/
theorem ridge_indices_in_range_witness :
    0 < totalSize exampleSize ∧
    exampleSeed 4 ∈ popOrder (collectSeeds exampleTube exampleSize) ∧
    eigenReads exampleSize ⟨4, 3, 3⟩ = [509, 507, 509, 507, 532, 484, 509, 507, 532, 484, 652, 364] ∧
    (∀ i ∈ eigenReads exampleSize ⟨4, 3, 3⟩, inRange exampleSize i) ∧
    (∀ i ∈ seedReads exampleSize 4 3 3, inRange exampleSize i) := by
  have h := ridge_indices_in_range sqrtQ 1 exampleTube exampleSize (by decide)
  have hm : exampleSeed 4 ∈ popOrder (collectSeeds exampleTube exampleSize) := by
    rw [exampleQueue]
    exact List.mem_cons_self _ _
  exact ⟨by decide, hm, by decide, (h.2.2.1 _ hm).2.2,
    h.2.1 4 3 3 (by decide) (by decide) (by decide) (by decide) (by decide) (by decide)⟩

/-- C19: on `borderTube` the only candidate of `runNewCenterlineAlg` is the corner
voxel `(0,0,0)`, which is not inside the margin; the stencil of
`getTubeDirection` there holds the index `-1`, before the arrays, and the matrix
handed to the eigen-solver changes with the value of `Fx` at that index. -/
theorem candidate_at_border :
    (collectCandidates borderTube gapSize).map Prod.snd = [⟨0, 0, 0⟩] ∧
    ¬ inMargin gapSize ⟨0, 0, 0⟩ ∧
    (-1 : Int) ∈ eigenReads gapSize ⟨0, 0, 0⟩ ∧ ¬ inRange gapSize (-1) ∧
    (∀ i, i ≠ -1 → borderTubeBefore.Fx i = borderTube.Fx i) ∧
    hessian sqrtQ borderTube ⟨0, 0, 0⟩ gapSize 0 0 = 0 ∧
    hessian sqrtQ borderTubeBefore ⟨0, 0, 0⟩ gapSize 0 0 = 1 := by
  refine ⟨by decide!, by decide, by decide, by decide, ?_, by decide!, by decide!⟩
  intro i hi
  show (if i = -1 then (-1 / 2 : ℚ) else 1 / 2) = 1 / 2
  rw [if_neg hi]

/-- The graph `tieGraph` has the components 0, 1 and 2 with 1, 2 and 2 vertices:
the loop selects component 1, the first of the two largest. -/
theorem maxCC_largest_first_witness :
    tieGraph.vertices ≠ [] ∧ connectedComponents tieGraph = [0, 1, 1, 2, 2] ∧
    numComponents tieGraph = 3 ∧
    selectMaxCC (connectedComponents tieGraph) (numComponents tieGraph) = 1 ∧
    ∀ i, i < numComponents tieGraph → ccSize (connectedComponents tieGraph) i ≤
      ccSize (connectedComponents tieGraph)
        (selectMaxCC (connectedComponents tieGraph) (numComponents tieGraph)) :=
  ⟨by decide, by decide!, by decide!, by decide!,
    (maxCC_largest_first tieGraph (by decide)).2.2.1⟩

/-! ## The parameter list -/

/-- C17 (amended): the call of `runRidgeTraversal` does not depend on the
parameter list (nor on the stack it is handed): it returns what it returns for
the empty list, and the seven parameters are the constants 0.6, 5, 0.2, 0.4, 2,
0.6 and 10. -/
theorem parameters_not_read (sq : ℚ → ℚ) (fuelE fuelT : Nat) (T : TubeSegmentation)
    (size : Int3) (parameters : paramList) (centerlineStack : List CenterlinePoint) :
    runRidgeTraversalCall sq fuelE fuelT T size parameters centerlineStack =
      runRidgeTraversalCall sq fuelE fuelT T size [] [] ∧
    Thigh = 6 / 10 ∧ Dmin = 5 ∧ Mlow = 2 / 10 ∧ Tlow = 4 / 10 ∧ maxBelowTlow = 2 ∧
      minMeanTube = 6 / 10 ∧ TreeMin = 10 :=
  ⟨rfl, rfl, rfl, rfl, rfl, rfl, rfl, rfl⟩

/-- With the default threshold the traversal of the claim is the traversal of
the source. -/
theorem runRidgeTraversalWith_default (sq : ℚ → ℚ) (fuelE fuelT : Nat) (T : TubeSegmentation)
    (size : Int3) :
    runRidgeTraversalWith Thigh sq fuelE fuelT T size = runRidgeTraversal sq fuelE fuelT T size :=
  rfl

/-- C17: on the example volume, with a parameter list that supplies
`Thigh = 0.9`, the call returns a mask with 1 on the voxel `(4,3,3)`, as it does
with the defaults; a traversal with the seed threshold 0.9 returns 0 there (only
the seeds `(4,3,3)` and `(17,3,3)` are left, the two trees are never joined and
the shorter one, around `(4,3,3)`, is dropped). -/
theorem parameters_ignored_counterexample :
    overriddenThigh exampleAtof [("Thigh", "0.9")] = 9 / 10 ∧
    (runRidgeTraversalCall sqrtQ 1 30 exampleTube exampleSize [("Thigh", "0.9")] []).map
      (fun r => r.1 (POS exampleSize ⟨4, 3, 3⟩)) = some 1 ∧
    (runRidgeTraversalWith (overriddenThigh exampleAtof [("Thigh", "0.9")]) sqrtQ 1 30
      exampleTube exampleSize).map (fun r => r.1 (POS exampleSize ⟨4, 3, 3⟩)) = some 0 := by
  decide!

/-! ## The dataset reader -/

/-- C20: for every file name that cannot be opened, `readDatasetAndTransfer`
throws the file-not-found exception, which is an I/O exception, with no header
line read, no volume read and no kernel launched before. -/
theorem missing_file_throws_first (files : String → Option (List String)) (filename : String)
    (parameters : paramList) (h : files filename = none) :
    (readDatasetAndTransfer files filename parameters).outcome =
      Except.error (ReaderException.fileNotFound filename) ∧
    (ReaderException.fileNotFound filename).isIOException = true ∧
    (readDatasetAndTransfer files filename parameters).events = [] := by
  unfold readDatasetAndTransfer
  rw [h]
  exact ⟨rfl, rfl, rfl⟩

/-- The file of the test `WrongFilenameException` is not among the files of the
examples: the call throws at once; on the header `volume.mhd` the call reads
four lines, then the volume, and launches the kernel `toFloat`. -/
theorem missing_file_throws_first_witness :
    exampleFiles "somefilethatdoesntexist.mhd" = none ∧
    (readDatasetAndTransfer exampleFiles "somefilethatdoesntexist.mhd" []).outcome =
      Except.error (ReaderException.fileNotFound "somefilethatdoesntexist.mhd") ∧
    (readDatasetAndTransfer exampleFiles "somefilethatdoesntexist.mhd" []).events = [] ∧
    (readDatasetAndTransfer exampleFiles "volume.mhd" []).events =
      [ReaderEvent.headerLine "ObjectType = Image", ReaderEvent.headerLine "NDims = 3",
       ReaderEvent.headerLine "ElementType = MET_SHORT", ReaderEvent.headerLine "",
       ReaderEvent.volumeRead "MET_SHORT", ReaderEvent.kernelLaunch "toFloat"] :=
  ⟨by decide,
   (missing_file_throws_first exampleFiles "somefilethatdoesntexist.mhd" [] (by decide)).1,
   (missing_file_throws_first exampleFiles "somefilethatdoesntexist.mhd" [] (by decide)).2.2,
   by decide⟩

/-! ## The neighbour scan and the thresholds of a walk -/

/-- C24: the winner of a neighbour scan (a point `maxPoint` with
`maxPoint.x+maxPoint.y+maxPoint.z > 0`) is one of the 26 neighbours of the
position, differs from it, has a nonzero TDF and an offset direction whose dot
product with `t_i` exceeds 0.1; and the position a pass through the loop body
moves to is such a winner. -/
theorem winner_passes_gates (sq : ℚ → ℚ) (fuelE : Nat) (T : TubeSegmentation) (size : Int3)
    (centerlines : Int → Int) (tr : Traversal) (w : Walker) :
    (scanNeighbors sq T size w.position w.t_i = { x := 0, y := 0, z := 0 } ∨
      ∃ a b c : Int, -1 ≤ a ∧ a ≤ 1 ∧ -1 ≤ b ∧ b ≤ 1 ∧ -1 ≤ c ∧ c ≤ 1 ∧
        ¬ (a = 0 ∧ b = 0 ∧ c = 0) ∧
        scanNeighbors sq T size w.position w.t_i =
          { x := w.position.x + a, y := w.position.y + b, z := w.position.z + c } ∧
        T.TDF (POS size (scanNeighbors sq T size w.position w.t_i)) ≠ 0 ∧
        dot (normalize sq { x := (a : ℚ), y := (b : ℚ), z := (c : ℚ) }) w.t_i > 1 / 10) ∧
    (∀ tr1 w1, traverseStep sq fuelE T size centerlines tr w = some (StepResult.next tr1 w1) →
      w1.position = scanNeighbors sq T size w.position w.t_i ∧
      w1.position.x + w1.position.y + w1.position.z > 0 ∧
      w1.position ≠ { x := 0, y := 0, z := 0 }) := by
  constructor
  · unfold scanNeighbors
    let P : Int3 → Prop := fun mp => mp = { x := 0, y := 0, z := 0 } ∨
      ∃ a b c : Int, -1 ≤ a ∧ a ≤ 1 ∧ -1 ≤ b ∧ b ≤ 1 ∧ -1 ≤ c ∧ c ≤ 1 ∧
        ¬ (a = 0 ∧ b = 0 ∧ c = 0) ∧
        mp = { x := w.position.x + a, y := w.position.y + b, z := w.position.z + c } ∧
        T.TDF (POS size mp) ≠ 0 ∧
        dot (normalize sq { x := (a : ℚ), y := (b : ℚ), z := (c : ℚ) }) w.t_i > 1 / 10
    apply forInt_invariant P
    · exact Or.inl rfl
    · intro a ha1 ha2 mp hmp
      apply forInt_invariant P _ _ _ _ hmp
      intro b hb1 hb2 mp hmp
      apply forInt_invariant P _ _ _ _ hmp
      intro c hc1 hc2 mp hmp
      unfold scanVisit
      simp only
      have hcast : ∀ (p d : Int), ((p + d - p : Int) : ℚ) = (d : ℚ) := by
        intro p d
        congr 1
        omega
      by_cases h1 : (a = 0 ∧ b = 0 ∧ c = 0) ∨ T.TDF (POS size
          { x := w.position.x + a, y := w.position.y + b, z := w.position.z + c }) = 0
      · rw [if_pos h1]; exact hmp
      · rw [if_neg h1]
        simp only [not_or] at h1
        by_cases h2 : dot (normalize sq { x := (a : ℚ), y := (b : ℚ), z := (c : ℚ) }) w.t_i
            ≤ 1 / 10
        · rw [hcast, hcast, hcast, if_pos (by unfold dot at h2; exact h2)]; exact hmp
        · rw [hcast, hcast, hcast, if_neg (by unfold dot at h2; exact h2)]
          have hn : P { x := w.position.x + a, y := w.position.y + b, z := w.position.z + c } :=
            Or.inr ⟨a, b, c, ha1, by omega, hb1, by omega, hc1, by omega, h1.1, rfl,
              h1.2, not_le.mp h2⟩
          split_ifs
          all_goals first
            | exact hmp
            | exact hn
  · intro tr1 w1 h
    unfold traverseStep at h
    simp only at h
    split_ifs at h with hb hsum hhit hlow hloop
    · simp at h
    · simp at h
    · simp at h
    · simp at h
    · rw [Option.map_eq_some'] at h
      obtain ⟨fr, _, hr⟩ := h
      unfold acceptPoint at hr
      injection hr with h1 h2
      subst h2
      refine ⟨rfl, hsum, ?_⟩
      intro h0
      change scanNeighbors sq T size w.position w.t_i = _ at h0
      rw [h0] at hsum
      simp at hsum
    · simp at h

/-- C25 (amended): `runRidgeTraversal` leaves `radius` as it is, and every entry
of `TDF`, `Fx`, `Fy`, `Fz` at an index other than 0; at the index 0 it leaves
`TDF = 0`, `Fx = 1`, `Fy = 0` and `Fz = 0`. -/
theorem fields_after_run (sq : ℚ → ℚ) (fuelE fuelT : Nat) (T T1 : TubeSegmentation)
    (size : Int3) (mask : Int → Int)
    (h : runRidgeTraversal sq fuelE fuelT T size = some (mask, T1)) :
    T1.radius = T.radius ∧
    (∀ i, i ≠ 0 → T1.TDF i = T.TDF i ∧ T1.Fx i = T.Fx i ∧ T1.Fy i = T.Fy i ∧
      T1.Fz i = T.Fz i) ∧
    T1.TDF 0 = 0 ∧ T1.Fx 0 = 1 ∧ T1.Fy 0 = 0 ∧ T1.Fz 0 = 0 := by
  unfold runRidgeTraversal at h
  simp only [Option.map_eq_some', Prod.mk.injEq] at h
  obtain ⟨st, _, _, rfl⟩ := h
  unfold writeSentinel setAt
  refine ⟨rfl, ?_, by simp, by simp, by simp, by simp⟩
  intro i hi
  simp [hi]

/-- The run on `zeroTube` returns, and the fields it leaves are those of
`zeroTube` except for `Fx` at the index 0. -/
theorem fields_after_run_witness :
    ∃ mask T1, runRidgeTraversal sqrtQ 0 0 zeroTube exampleSize = some (mask, T1) ∧
      T1.radius = zeroTube.radius ∧ T1.TDF 0 = 0 ∧ T1.Fx 0 = 1 ∧ T1.Fx 1 = 0 := by
  have hs : (runRidgeTraversal sqrtQ 0 0 zeroTube exampleSize).isSome = true := by decide!
  obtain ⟨⟨mask, T1⟩, h⟩ := Option.isSome_iff_exists.mp hs
  obtain ⟨h1, h2, h3, h4, _, _⟩ := fields_after_run sqrtQ 0 0 zeroTube T1 exampleSize mask h
  exact ⟨mask, T1, h, h1, h3, h4, (h2 1 (by decide)).2.1⟩

/-- C25: the run on `zeroTube` changes `Fx` at the index 0 from 0 to 1: an
entry that the call changes at index 0 and that has not been set to 0. -/
theorem sentinel_not_zero_counterexample :
    zeroTube.Fx 0 = 0 ∧
    (runRidgeTraversal sqrtQ 0 0 zeroTube exampleSize).map (fun r => r.2.Fx 0) = some 1 := by
  decide!

/-- C27: the matrix that `getTubeDirection` and `doEigen` hand to the
eigen-solver is symmetric; its entries are the six derivatives `dFx/dx`,
`dFy/dx`, `dFy/dy`, `dFz/dx`, `dFz/dy`, `dFz/dz` that `gradient` computes from
the normalized field; and `getTubeDirection` returns the vector that `doEigen`
returns as `e1`. -/
theorem hessian_symmetric (sq : ℚ → ℚ) (fuel : Nat) (T : TubeSegmentation) (pos size : Int3) :
    (∀ i j, hessian sq T pos size i j = hessian sq T pos size j i) ∧
    hessian sq T pos size 0 0 = (gradient sq T pos 0 1 size).x ∧
    hessian sq T pos size 0 1 = (gradient sq T pos 1 2 size).x ∧
    hessian sq T pos size 1 1 = (gradient sq T pos 1 2 size).y ∧
    hessian sq T pos size 0 2 = (gradient sq T pos 2 3 size).x ∧
    hessian sq T pos size 1 2 = (gradient sq T pos 2 3 size).y ∧
    hessian sq T pos size 2 2 = (gradient sq T pos 2 3 size).z ∧
    getTubeDirection sq fuel T pos size =
      (doEigen sq fuel T pos size).map (fun fr => fr.e1) := by
  refine ⟨?_, rfl, rfl, rfl, rfl, rfl, rfl, ?_⟩
  · intro i j
    unfold hessian
    match i, j with
    | 0, 0 => rfl
    | 0, 1 => rfl
    | 0, 2 => rfl
    | 1, 0 => rfl
    | 1, 1 => rfl
    | 1, 2 => rfl
    | 2, 0 => rfl
    | 2, 1 => rfl
    | 2, 2 => rfl
    | 0, _ + 3 => rfl
    | 1, _ + 3 => rfl
    | 2, _ + 3 => rfl
    | _ + 3, 0 => rfl
    | _ + 3, 1 => rfl
    | _ + 3, 2 => rfl
    | _ + 3, _ + 3 => rfl
  · unfold getTubeDirection doEigen
    rw [Option.map_map]
    rfl

theorem adjustLoop_stuck (size : Int) (x1 x2 : Int) (h : Int.tmod (x2 - x1) 4 ≠ 0)
    (h1 : ¬ x1 > 0) (h2 : ¬ x2 < size) (fuel : Nat) :
    ∀ lower, adjustLoop size fuel x1 x2 lower = none := by
  induction fuel with
  | zero => intro lower; rfl
  | succ n ih =>
    intro lower
    unfold adjustLoop
    rw [if_pos h, if_neg (fun hc => h1 hc.2), if_neg h2]
    exact ih _

/-- What an adjustment loop returns: a window that contains the window it
started from, lies in `[0, size]` if that one did, and has a length divisible
by 4. -/
theorem adjustLoop_spec (size : Int) (fuel : Nat) :
    ∀ (x1 x2 : Int) (lower : Bool) (r : Int × Int × Bool),
      adjustLoop size fuel x1 x2 lower = some r → 0 ≤ x1 → x2 ≤ size →
      0 ≤ r.1 ∧ r.1 ≤ x1 ∧ x2 ≤ r.2.1 ∧ r.2.1 ≤ size ∧ Int.tmod (r.2.1 - r.1) 4 = 0 := by
  induction fuel with
  | zero => intro x1 x2 lower r h; simp [adjustLoop] at h
  | succ n ih =>
    intro x1 x2 lower r h h1 h2
    unfold adjustLoop at h
    split_ifs at h with hm hl hu
    · have := ih _ _ _ r h (by omega) h2
      omega
    · have := ih _ _ _ r h h1 (by omega)
      omega
    · exact ih _ _ _ r h h1 h2
    · cases h
      exact ⟨h1, le_refl _, le_refl _, h2, not_not.mp hm⟩

/-- C30: for an x axis of 5 voxels and the crop window `[0, 5)`, which is the
window of a dataset on which no scan line passes the threshold, the first
adjustment loop never ends: its window cannot grow and 5 is not divisible by
4. -/
theorem adjust_loop_never_ends (fuel : Nat) (size : Int3) (hx : size.x = 5)
    (y1 y2 z1 z2 : Int) :
    adjustLoop 5 fuel 0 5 false = none ∧
    adjustWindows size fuel 0 5 y1 y2 z1 z2 = none := by
  have h := adjustLoop_stuck 5 0 5 (by decide) (by decide) (by decide) fuel false
  refine ⟨h, ?_⟩
  unfold adjustWindows
  rw [hx, h]
  rfl

/-- The first loop on the window `[0, 5)` of an axis of 5 voxels, with a
thousand passes. -/
theorem adjust_loop_never_ends_witness :
    adjustLoop 5 1000 0 5 false = none ∧
    adjustWindows ⟨5, 8, 8⟩ 1000 0 5 0 8 0 8 = none ∧
    adjustLoop 8 1000 1 6 false = some (0, 8, true) :=
  ⟨(adjust_loop_never_ends 1000 ⟨5, 8, 8⟩ rfl 0 8 0 8).1,
   (adjust_loop_never_ends 1000 ⟨5, 8, 8⟩ rfl 0 8 0 8).2, by decide⟩

/-! ## The eigen-solver on diagonal matrices -/

theorem tred2Step_eq (sq : ℚ → ℚ) (i : Nat) (s : EigState) :
    tred2Step sq i s =
      if tred2Scale i s = 0 then { tred2ZeroScale i s with d := set1 (tred2ZeroScale i s).d i 0 }
      else { (tred2Householder sq i (tred2Scale i s) s).1 with
              d := set1 (tred2Householder sq i (tred2Scale i s) s).1.d i
                (tred2Householder sq i (tred2Scale i s) s).2 } := by
  by_cases h : forUp 0 i (fun k acc => acc + |s.d k|) (0 : ℚ) = 0
  · simp only [tred2Step, tred2Scale, h, if_true]
  · simp only [tred2Step, tred2Scale, h, if_false]

theorem tred2_eq (sq : ℚ → ℚ) (s : EigState) :
    tred2 sq s =
      (let s1 := tred2Step sq 1 (tred2Step sq 2 (tred2Start s))
       let s2 := forUp 0 (SIZE - 1) tred2Accumulate s1
       let s3 := forUp 0 SIZE (fun j t =>
         { t with d := set1 t.d j (t.V (SIZE - 1) j), V := set2 t.V (SIZE - 1) j 0 }) s2
       { s3 with V := set2 s3.V (SIZE - 1) (SIZE - 1) 1, e := set1 s3.e 0 0 }) := by
  rfl

theorem tred2_diag_d (sq : ℚ → ℚ) (a b c : ℚ) :
    (tred2 sq (startState (diagMatrix a b c))).d = fun i => diagMatrix a b c i i := by
  funext i
  simp [tred2, forUp, forDown, SIZE, List.range', tred2Step, tred2ZeroScale, tred2Accumulate,
    set1, set2, diagMatrix, startState]
  split_ifs <;> simp_all

theorem tred2_diag_e (sq : ℚ → ℚ) (a b c : ℚ) :
    (tred2 sq (startState (diagMatrix a b c))).e = fun _ => 0 := by
  funext i
  simp [tred2, forUp, forDown, SIZE, List.range', tred2Step, tred2ZeroScale, tred2Accumulate,
    set1, set2, diagMatrix, startState]

set_option maxHeartbeats 4000000 in
theorem tred2_diag_V (sq : ℚ → ℚ) (a b c : ℚ) :
    (tred2 sq (startState (diagMatrix a b c))).V =
      fun i j => if i = j ∧ i < 3 then 1 else 0 := by
  funext i j
  rcases i with _ | _ | _ | i <;> rcases j with _ | _ | _ | j <;>
    simp [tred2, forUp, forDown, SIZE, List.range', tred2Step, tred2ZeroScale, tred2Accumulate,
      set1, set2, diagMatrix, startState]
  rw [if_neg (by omega)]

theorem tred2_diag_scale (a b c : ℚ) (sq : ℚ → ℚ) :
    tred2Scale 2 (tred2Start (startState (diagMatrix a b c))) = 0 ∧
    tred2Scale 1 (tred2Step sq 2 (tred2Start (startState (diagMatrix a b c)))) = 0 := by
  simp [tred2Scale, tred2Start, forUp, forDown, SIZE, List.range', tred2Step, tred2ZeroScale,
    set1, set2, diagMatrix, startState]

theorem findSmall_here (e : Nat → ℚ) (tst1 : ℚ) (n m : Nat) (h : |e m| ≤ eps * tst1) :
    findSmall e tst1 n m = m := by
  cases n with
  | zero => rfl
  | succ n => simp only [findSmall, h, if_true]

theorem qlOuterStep_zero_e (sq : ℚ → ℚ) (fuel l : Nat) (o : QLOuter)
    (he : o.s.e = fun _ => 0) (hf : o.f = 0) (ht : 0 ≤ o.tst1) :
    ∃ o1, qlOuterStep sq fuel l o = some o1 ∧ o1.s = o.s ∧ o1.f = 0 ∧ 0 ≤ o1.tst1 := by
  have hm : findSmall o.s.e (max o.tst1 (|o.s.d l| + |o.s.e l|)) (SIZE - l) l = l := by
    apply findSmall_here
    rw [he]
    simp only [abs_zero]
    exact mul_nonneg (by unfold eps; positivity) (le_max_of_le_left ht)
  refine ⟨{ s := { o.s with d := set1 o.s.d l (o.s.d l + o.f), e := set1 o.s.e l 0 },
            f := o.f, tst1 := max o.tst1 (|o.s.d l| + |o.s.e l|) }, ?_, ?_, ?_, ?_⟩
  · unfold qlOuterStep
    simp only [hm, gt_iff_lt, lt_irrefl, if_false, Option.map_some']
  · have h1 : set1 o.s.d l (o.s.d l + o.f) = o.s.d := by
      funext k
      simp only [set1, hf, add_zero]
      split_ifs with hk
      · rw [hk]
      · rfl
    have h2 : set1 o.s.e l 0 = o.s.e := by
      funext k
      simp only [set1, he]
      split_ifs <;> rfl
    simp only [h1, h2]
  · exact hf
  · exact le_max_of_le_left ht

theorem tql2Iterate_zero_e (sq : ℚ → ℚ) (fuel : Nat) (s : EigState) (he : s.e = fun _ => 0) :
    tql2Iterate sq fuel s = some s := by
  have he2 : set1 (forUp 1 SIZE (fun i e => set1 e (i - 1) (e i)) s.e) (SIZE - 1) 0 = s.e := by
    funext k
    simp [forUp, SIZE, List.range', set1, he]
  unfold tql2Iterate
  simp only [he2]
  have hs : ({ s with e := s.e } : EigState) = s := rfl
  rw [hs]
  obtain ⟨o1, h1, hs1, hf1, ht1⟩ :=
    qlOuterStep_zero_e sq fuel 0 { s := s, f := 0, tst1 := 0 } he rfl le_rfl
  obtain ⟨o2, h2, hs2, hf2, ht2⟩ :=
    qlOuterStep_zero_e sq fuel 1 o1 (by rw [hs1]; exact he) hf1 ht1
  obtain ⟨o3, h3, hs3, hf3, ht3⟩ :=
    qlOuterStep_zero_e sq fuel 2 o2 (by rw [hs2, hs1]; exact he) hf2 ht2
  have hr : List.range SIZE = [0, 1, 2] := rfl
  simp only [hr, List.foldl_cons, List.foldl_nil, Option.some_bind, h1, h2, h3, Option.map_some',
    hs3, hs2, hs1]

theorem eigen_decomposition_diag (sq : ℚ → ℚ) (fuel : Nat) (a b c : ℚ) :
    eigen_decomposition sq fuel (diagMatrix a b c) =
      some ((tql2Sort (tred2 sq (startState (diagMatrix a b c)))).V,
            (tql2Sort (tred2 sq (startState (diagMatrix a b c)))).d) := by
  have h := tql2Iterate_zero_e sq fuel _ (tred2_diag_e sq a b c)
  unfold eigen_decomposition tql2
  unfold startState at h
  simp only [h, Option.map_some']
  rfl

/-- C26: for a diagonal matrix `diag(a,b,c)` both reduction steps of `tred2`
find `scale = 0`, the solver returns with every amount of fuel, also with none
(so the do-while loop of `tql2` is never entered), and the result is `(a,b,c)`
ordered by ascending absolute value with the matching permutation matrix, whose
columns satisfy the eigen-equation exactly. -/
theorem diagonal_matrix_exact (sq : ℚ → ℚ) (fuel : Nat) (a b c : ℚ) :
    tred2Scale 2 (tred2Start (startState (diagMatrix a b c))) = 0 ∧
    tred2Scale 1 (tred2Step sq 2 (tred2Start (startState (diagMatrix a b c)))) = 0 ∧
    eigen_decomposition sq fuel (diagMatrix a b c) = eigen_decomposition sq 0 (diagMatrix a b c) ∧
    ∃ V d, eigen_decomposition sq 0 (diagMatrix a b c) = some (V, d) ∧
      |d 0| ≤ |d 1| ∧ |d 1| ≤ |d 2| ∧
      ∃ σ : Equiv.Perm (Fin 3),
        (∀ i : Fin 3, d i = diagMatrix a b c (σ i) (σ i) ∧
          ∀ j : Fin 3, V j i = if j = σ i then 1 else 0) ∧
        ∀ i j : Fin 3, (∑ k : Fin 3, diagMatrix a b c j k * V k i) = d i * V j i := by
  obtain ⟨hs2, hs1⟩ := tred2_diag_scale a b c sq
  refine ⟨hs2, hs1, ?_, _, _, eigen_decomposition_diag sq 0 a b c, ?_⟩
  · rw [eigen_decomposition_diag, eigen_decomposition_diag]
  obtain ⟨h1, h2, σ, hσ⟩ := tql2Sort_sorted (tred2 sq (startState (diagMatrix a b c)))
  refine ⟨h1, h2, σ, ?_⟩
  have hperm : ∀ i : Fin 3,
      (tql2Sort (tred2 sq (startState (diagMatrix a b c)))).d i = diagMatrix a b c (σ i) (σ i) ∧
        ∀ j : Fin 3, (tql2Sort (tred2 sq (startState (diagMatrix a b c)))).V j i =
          if j = σ i then 1 else 0 := by
    intro i
    obtain ⟨hd, hV⟩ := hσ i
    refine ⟨?_, ?_⟩
    · rw [hd, tred2_diag_d]
    · intro j
      rw [hV j, tred2_diag_V]
      have hj : (j : Nat) < 3 := j.isLt
      by_cases hji : j = σ i
      · simp only [hji, true_and, if_true]
        rw [if_pos (σ i).isLt]
      · have hne : (j : Nat) ≠ (σ i : Nat) := fun h => hji (Fin.ext h)
        simp only [hne, false_and, if_false, hji]
  refine ⟨hperm, ?_⟩
  intro i j
  obtain ⟨hd, hV⟩ := hperm i
  simp only [hV, mul_ite, mul_one, mul_zero, Finset.sum_ite_eq', Finset.mem_univ, if_true, hd]
  by_cases hji : j = σ i
  · simp only [hji, if_true]
  · have hne : (j : Nat) ≠ (σ i : Nat) := fun h => hji (Fin.ext h)
    simp only [hji, if_false, diagMatrix, hne]

/-! ## Labels, tree ids and the two maps -/

theorem IntMap.mem_keys_touch {α : Type} (m : IntMap α) (k : Int) (d : α) (k1 : Int) :
    k1 ∈ IntMap.keys (IntMap.touch m k d) ↔ k1 ∈ IntMap.keys m ∨ k1 = k := by
  unfold IntMap.touch
  by_cases hk : k ∈ IntMap.keys m
  · rw [if_pos hk]
    constructor
    · exact Or.inl
    · rintro (h | rfl)
      · exact h
      · exact hk
  · rw [if_neg hk]
    simp [IntMap.keys]

theorem IntMap.mem_keys_erase {α : Type} (m : IntMap α) (k k1 : Int) :
    k1 ∈ IntMap.keys (IntMap.erase m k) ↔ k1 ∈ IntMap.keys m ∧ k1 ≠ k := by
  unfold IntMap.keys IntMap.erase
  simp only [List.mem_map, List.mem_filter, decide_eq_true_eq]
  constructor
  · rintro ⟨en, ⟨hen, hne⟩, rfl⟩
    exact ⟨⟨en, hen, rfl⟩, hne⟩
  · rintro ⟨⟨en, hen, rfl⟩, hne⟩
    exact ⟨en, ⟨hen, hne⟩, rfl⟩

theorem traverseStep_hit (sq : ℚ → ℚ) (fuelE : Nat) (T : TubeSegmentation) (size : Int3)
    (centerlines : Int → Int) (tr : Traversal) (w : Walker) (r : StepResult)
    (h : traverseStep sq fuelE T size centerlines tr w = some r) :
    (∃ ex, r = StepResult.stop tr ex) ∨
    (∃ i, 0 < centerlines i ∧
      r = StepResult.stop (recordHit tr (centerlines i)) (Exit.hit (centerlines i))) ∨
    (∃ maxPoint fr, r = acceptPoint sq T size tr w maxPoint fr) := by
  unfold traverseStep at h
  simp only at h
  split_ifs at h with hb hsum hhit hlow hloop
  · exact Or.inl ⟨_, (Option.some.inj h).symm⟩
  · exact Or.inr (Or.inl ⟨_, hhit, (Option.some.inj h).symm⟩)
  · exact Or.inl ⟨_, (Option.some.inj h).symm⟩
  · exact Or.inl ⟨_, (Option.some.inj h).symm⟩
  · rw [Option.map_eq_some'] at h
    obtain ⟨fr, _, hr⟩ := h
    exact Or.inr (Or.inr ⟨_, fr, hr.symm⟩)
  · exact Or.inl ⟨_, (Option.some.inj h).symm⟩

theorem recordHit_hitInv (centerlines : Int → Int) (tr : Traversal) (i : Int)
    (hpos : 0 < centerlines i) (hinv : HitInv centerlines tr) :
    HitInv centerlines (recordHit tr (centerlines i)) := by
  unfold recordHit
  split_ifs with h1 h2
  · refine ⟨Or.inr ⟨hpos, i, rfl⟩, ?_⟩
    rcases hinv.second with hs | ⟨_, _, hp, _⟩
    · exact Or.inl hs
    · exact absurd h1 hp
  · exact ⟨hinv.prev, hinv.second⟩
  · exact ⟨hinv.prev, Or.inr ⟨hpos, ⟨i, rfl⟩, h1, fun h => h2 h.symm⟩⟩

theorem traverseLoop_hitInv (sq : ℚ → ℚ) (fuelE : Nat) (T : TubeSegmentation) (size : Int3)
    (centerlines : Int → Int) (fuelT : Nat) :
    ∀ (tr : Traversal) (w : Walker) (tr1 : Traversal) (ex : Exit),
      traverseLoop sq fuelE T size centerlines fuelT tr w = some (tr1, ex) →
      HitInv centerlines tr → HitInv centerlines tr1 := by
  induction fuelT with
  | zero => intro tr w tr1 ex h; simp [traverseLoop] at h
  | succ n ih =>
    intro tr w tr1 ex h hq
    unfold traverseLoop at h
    cases hstep : traverseStep sq fuelE T size centerlines tr w with
    | none => rw [hstep] at h; simp at h
    | some r =>
      rw [hstep] at h
      rcases traverseStep_hit sq fuelE T size centerlines tr w r hstep with
        ⟨ex0, rfl⟩ | ⟨i, hi, rfl⟩ | ⟨maxPoint, fr, rfl⟩
      · simp only [Option.some.injEq, Prod.mk.injEq] at h
        obtain ⟨rfl, rfl⟩ := h
        exact hq
      · simp only [Option.some.injEq, Prod.mk.injEq] at h
        obtain ⟨rfl, rfl⟩ := h
        exact recordHit_hitInv centerlines tr i hi hq
      · exact ih _ _ tr1 ex h ⟨hq.prev, hq.second⟩

theorem traverseSeed_hitInv (sq : ℚ → ℚ) (fuelE fuelT : Nat) (T : TubeSegmentation)
    (size : Int3) (centerlines : Int → Int) (p : point) (r : Traversal × Exit × Exit)
    (h : traverseSeed sq fuelE fuelT T size centerlines p = some r) :
    HitInv centerlines r.1 := by
  unfold traverseSeed at h
  simp only [Option.bind_eq_some, Option.map_eq_some'] at h
  obtain ⟨⟨tr1, e1⟩, h1, ⟨tr2, e2⟩, h2, rfl⟩ := h
  unfold traverseDirection at h1 h2
  simp only [Option.bind_eq_some] at h1 h2
  obtain ⟨_, _, hl1⟩ := h1
  obtain ⟨_, _, hl2⟩ := h2
  exact traverseLoop_hitInv sq fuelE T size centerlines fuelT _ _ _ _ hl2
    (traverseLoop_hitInv sq fuelE T size centerlines fuelT _ _ _ _ hl1
      ⟨Or.inl rfl, Or.inl rfl⟩)

theorem acceptPath_book (size : Int3) (st : RidgeState) (tr : Traversal)
    (hb : BookInv size st) (hh : HitInv st.centerlines tr) :
    BookInv size (acceptPath size st tr) ∧ st.counter ≤ (acceptPath size st tr).counter ∧
    ∀ k, k ∈ IntMap.keys (acceptPath size st tr).centerlineDistances →
      k ∈ IntMap.keys st.centerlineDistances ∨
        (k = st.counter ∧ (acceptPath size st tr).counter = st.counter + 1) := by
  have hprevKey : tr.prevConnection ≠ -1 →
      tr.prevConnection ∈ IntMap.keys st.centerlineDistances := by
    intro hne
    rcases hh.prev with h | ⟨hpos, i, hi⟩
    · exact absurd h hne
    · have := (hb.labels i (by rw [hi]; exact ne_of_gt hpos)).2
      rwa [hi] at this
  have hsecKey : tr.secondConnection ≠ -1 →
      tr.secondConnection ∈ IntMap.keys st.centerlineDistances ∧
        tr.secondConnection ≠ tr.prevConnection := by
    intro hne
    rcases hh.second with h | ⟨hpos, ⟨i, hi⟩, _, hne2⟩
    · exact absurd h hne
    · have := (hb.labels i (by rw [hi]; exact ne_of_gt hpos)).2
      rw [hi] at this
      exact ⟨this, hne2⟩
  unfold acceptPath
  split_ifs with hacc hprev hsec
  · -- no connection
    refine ⟨⟨?_, ?_, ?_, ?_⟩, ?_, ?_⟩
    · intro i hi
      simp only [relabelPath] at hi ⊢
      split_ifs at hi ⊢ with hc
      · exact ⟨⟨hc.1, hc.2.1⟩, (IntMap.mem_keys_set _ _ _ _).mpr (Or.inr rfl)⟩
      · exact ⟨(hb.labels i hi).1, (IntMap.mem_keys_set _ _ _ _).mpr (Or.inl (hb.labels i hi).2)⟩
    · have := hb.counterPos
      show 1 ≤ st.counter + 1
      omega
    · intro k
      simp only [IntMap.mem_keys_set, hb.sameKeys k]
    · intro k hk
      rcases (IntMap.mem_keys_set _ _ _ _).mp hk with h | h
      · have := hb.range k h
        exact ⟨this.1, by show k < st.counter + 1; omega⟩
      · rw [h]
        exact ⟨hb.counterPos, by show st.counter < st.counter + 1; omega⟩
    · show st.counter ≤ st.counter + 1
      omega
    · intro k hk
      rcases (IntMap.mem_keys_set _ _ _ _).mp hk with h | h
      · exact Or.inl h
      · exact Or.inr ⟨h, rfl⟩
  · -- two connections
    have hp := hprevKey hprev
    obtain ⟨hs, hsp⟩ := hsecKey hsec
    refine ⟨⟨?_, hb.counterPos, ?_, ?_⟩, le_rfl, ?_⟩
    · intro i hi
      simp only [relabelTree, relabelPath] at hi ⊢
      simp only [IntMap.mem_keys_erase, IntMap.mem_keys_set, IntMap.mem_keys_touch]
      split_ifs at hi ⊢ with hc1 hc2 hc2
      · exact ⟨⟨hc1.1, hc1.2.1⟩, Or.inr rfl, fun h => hsp h.symm⟩
      · exact ⟨⟨hc1.1, hc1.2.1⟩, Or.inr rfl, fun h => hsp h.symm⟩
      · exact ⟨⟨hc2.1, hc2.2.1⟩, Or.inr rfl, fun h => hsp h.symm⟩
      · have hl := hb.labels i hi
        refine ⟨hl.1, Or.inl (Or.inl (Or.inl (Or.inl (Or.inl hl.2)))), ?_⟩
        intro heq
        exact hc2 ⟨hl.1.1, hl.1.2, heq⟩
    · intro k
      simp only [IntMap.mem_keys_erase, IntMap.mem_keys_set, IntMap.mem_keys_touch,
        ← hb.sameKeys k]
      constructor
      · rintro ⟨h, hne⟩
        by_cases hkp : k = tr.prevConnection
        · exact Or.inr hkp
        · left
          refine ⟨?_, hne⟩
          rcases h with ((((h | h) | h) | h) | h) | h
          · exact Or.inl (Or.inl h)
          · exact absurd h hkp
          · exact absurd h hkp
          · exact absurd h hne
          · exact absurd h hkp
          · exact absurd h hkp
      · rintro (⟨h, hne⟩ | h)
        · refine ⟨?_, hne⟩
          rcases h with (h | h) | h
          · exact Or.inl (Or.inl (Or.inl (Or.inl (Or.inl h))))
          · exact Or.inr h
          · exact absurd h hne
        · exact ⟨Or.inr h, fun h2 => hsp (h2.symm.trans h)⟩
    · intro k hk
      simp only [IntMap.mem_keys_erase, IntMap.mem_keys_set, IntMap.mem_keys_touch] at hk
      apply hb.range
      rcases hk.1 with ((((h | h) | h) | h) | h) | h
      · exact h
      · rw [h]; exact hp
      · rw [h]; exact hp
      · rw [h]; exact hs
      · rw [h]; exact hp
      · rw [h]; exact hp
    · intro k hk
      simp only [IntMap.mem_keys_erase, IntMap.mem_keys_set, IntMap.mem_keys_touch] at hk
      left
      rcases hk.1 with ((((h | h) | h) | h) | h) | h
      · exact h
      · rw [h]; exact hp
      · rw [h]; exact hp
      · rw [h]; exact hs
      · rw [h]; exact hp
      · rw [h]; exact hp
  · -- one connection
    have hp := hprevKey hprev
    refine ⟨⟨?_, hb.counterPos, ?_, ?_⟩, le_rfl, ?_⟩
    · intro i hi
      simp only [relabelPath] at hi ⊢
      simp only [IntMap.mem_keys_set, IntMap.mem_keys_touch]
      split_ifs at hi ⊢ with hc
      · exact ⟨⟨hc.1, hc.2.1⟩, Or.inr rfl⟩
      · exact ⟨(hb.labels i hi).1, Or.inl (Or.inl (hb.labels i hi).2)⟩
    · intro k
      simp only [IntMap.mem_keys_set, IntMap.mem_keys_touch, ← hb.sameKeys k]
    · intro k hk
      simp only [IntMap.mem_keys_set, IntMap.mem_keys_touch] at hk
      apply hb.range
      rcases hk with (h | h) | h
      · exact h
      · rw [h]; exact hp
      · rw [h]; exact hp
    · intro k hk
      simp only [IntMap.mem_keys_set, IntMap.mem_keys_touch] at hk
      left
      rcases hk with (h | h) | h
      · exact h
      · rw [h]; exact hp
      · rw [h]; exact hp
  · exact ⟨hb, le_rfl, fun k hk => Or.inl hk⟩

theorem seedIteration_book (sq : ℚ → ℚ) (fuelE fuelT : Nat) (T : TubeSegmentation)
    (size : Int3) (st st1 : RidgeState) (p : point)
    (h : seedIteration sq fuelE fuelT T size st p = some st1) (hb : BookInv size st) :
    BookInv size st1 ∧ st.counter ≤ st1.counter ∧
    ∀ k, k ∈ IntMap.keys st1.centerlineDistances →
      k ∈ IntMap.keys st.centerlineDistances ∨ (k = st.counter ∧ st1.counter = st.counter + 1) := by
  unfold seedIteration at h
  split_ifs at h
  · cases h
    exact ⟨hb, le_rfl, fun k hk => Or.inl hk⟩
  · rw [Option.map_eq_some'] at h
    obtain ⟨r, hr, rfl⟩ := h
    exact acceptPath_book size st r.1 hb
      (traverseSeed_hitInv sq fuelE fuelT T size st.centerlines p r hr)

theorem ridgeLoop_book (sq : ℚ → ℚ) (fuelE fuelT : Nat) (T : TubeSegmentation)
    (size : Int3) (queue : List point) :
    ∀ st st1 : RidgeState, ridgeLoop sq fuelE fuelT T size queue st = some st1 →
      BookInv size st →
      BookInv size st1 ∧ st.counter ≤ st1.counter ∧
      ∀ k, k ∈ IntMap.keys st1.centerlineDistances →
        k ∈ IntMap.keys st.centerlineDistances ∨ st.counter ≤ k := by
  induction queue with
  | nil =>
    intro st st1 h hb
    simp only [ridgeLoop, Option.some.injEq] at h
    subst h
    exact ⟨hb, le_rfl, fun k hk => Or.inl hk⟩
  | cons p rest ih =>
    intro st st1 h hb
    simp only [ridgeLoop, Option.bind_eq_some] at h
    obtain ⟨s, hs, hr⟩ := h
    obtain ⟨hb1, hc1, hk1⟩ := seedIteration_book sq fuelE fuelT T size st s p hs hb
    obtain ⟨hb2, hc2, hk2⟩ := ih s st1 hr hb1
    refine ⟨hb2, le_trans hc1 hc2, ?_⟩
    intro k hk
    rcases hk2 k hk with h | h
    · rcases hk1 k h with h | ⟨h, _⟩
      · exact Or.inl h
      · exact Or.inr (le_of_eq h.symm)
    · exact Or.inr (le_trans hc1 h)

theorem initial_book (size : Int3) : BookInv size initialRidgeState :=
  ⟨fun i hi => absurd rfl hi, le_rfl, fun _ => Iff.rfl,
    fun k hk => by simp [initialRidgeState, IntMap.keys] at hk⟩

/-- C28: after every seed iteration of the seed loop, started from the state
before the first seed (`st2` is reached from it over the seeds `seeds1` and
then `seeds2`): every nonzero label of `centerlines` is a key of the
tree-length map, the tree-length map and the tree-stack map have the same
keys, every key lies in `[1, counter)`, the counter never decreases, and an id
below the counter that is no key at one point of the run (it was merged away)
is no key and no label at any later point. -/
theorem bookkeeping_invariant (sq : ℚ → ℚ) (fuelE fuelT : Nat) (T : TubeSegmentation)
    (size : Int3) (seeds1 seeds2 : List point) (st1 st2 : RidgeState)
    (h1 : ridgeLoop sq fuelE fuelT T size seeds1 initialRidgeState = some st1)
    (h2 : ridgeLoop sq fuelE fuelT T size seeds2 st1 = some st2) :
    (∀ i, st2.centerlines i ≠ 0 →
      st2.centerlines i ∈ IntMap.keys st2.centerlineDistances) ∧
    (∀ k, k ∈ IntMap.keys st2.centerlineDistances ↔ k ∈ IntMap.keys st2.centerlineStacks) ∧
    (∀ k, k ∈ IntMap.keys st2.centerlineDistances → 1 ≤ k ∧ k < st2.counter) ∧
    st1.counter ≤ st2.counter ∧
    (∀ k, 1 ≤ k → k < st1.counter → k ∉ IntMap.keys st1.centerlineDistances →
      k ∉ IntMap.keys st2.centerlineDistances ∧ ∀ i, st2.centerlines i ≠ k) := by
  obtain ⟨hb1, _, _⟩ := ridgeLoop_book sq fuelE fuelT T size seeds1 _ st1 h1 (initial_book size)
  obtain ⟨hb2, hc, hk⟩ := ridgeLoop_book sq fuelE fuelT T size seeds2 st1 st2 h2 hb1
  refine ⟨fun i hi => (hb2.labels i hi).2, hb2.sameKeys, hb2.range, hc, ?_⟩
  intro k hk1 hlt hnot
  have hnk : k ∉ IntMap.keys st2.centerlineDistances := by
    intro hmem
    rcases hk k hmem with h | h
    · exact hnot h
    · omega
  refine ⟨hnk, ?_⟩
  intro i hi
  apply hnk
  rw [← hi]
  exact (hb2.labels i (by rw [hi]; omega)).2

theorem bookkeeping_invariant_witness :
    (∀ i, (exampleState 4).centerlines i ≠ 0 →
      (exampleState 4).centerlines i ∈ IntMap.keys (exampleState 4).centerlineDistances) ∧
    (∀ k, k ∈ IntMap.keys (exampleState 4).centerlineDistances ↔
      k ∈ IntMap.keys (exampleState 4).centerlineStacks) ∧
    (∀ k, k ∈ IntMap.keys (exampleState 4).centerlineDistances →
      1 ≤ k ∧ k < (exampleState 4).counter) ∧
    (exampleState 3).counter ≤ (exampleState 4).counter :=
  have h := bookkeeping_invariant sqrtQ 1 30 (writeSentinel exampleTube) exampleSize
    ((popOrder (collectSeeds exampleTube exampleSize)).take 3) [exampleSeed 9]
    (exampleState 3) (exampleState 4) (exampleState_reached 3 (by decide) (by decide))
    (by simp only [ridgeLoop, exampleState_step, Option.some_bind])
  ⟨h.1, h.2.1, h.2.2.1, h.2.2.2.1⟩

/-! ## Spacing of the accepted centerpoints -/

theorem ScanExt.refl (s : CandidateScan) : ScanExt s s := ⟨id, fun _ h => h⟩

theorem ScanExt.trans {s s1 s2 : CandidateScan} (h1 : ScanExt s s1) (h2 : ScanExt s1 s2) :
    ScanExt s s2 := ⟨fun h => h2.1 (h1.1 h), fun m h => h2.2 m (h1.2 m h)⟩

theorem Handled.ext {sq : ℚ → ℚ} {size : Int3} {centerpoints : Int → Int} {x : Int3}
    {maxD a b c : Int} {s s1 : CandidateScan} (h : Handled sq size centerpoints x maxD a b c s)
    (he : ScanExt s s1) : Handled sq size centerpoints x maxD a b c s1 := by
  intro hinv hnear
  have h0 : s.invalid = false := by
    cases hs : s.invalid with
    | false => rfl
    | true => rw [he.1 hs] at hinv; exact absurd hinv (by simp)
  exact he.2 _ (h h0 hnear)

theorem candidateVisit_spec (sq acosF : ℚ → ℚ) (T : TubeSegmentation) (size : Int3)
    (centerpoints : Int → Int) (x : Int3) (e1 : Float3) (maxD : Int) (a b c : Int)
    (st : CandidateScan) :
    ScanExt st (candidateVisit sq acosF T size centerpoints x e1 maxD a b c st).1 ∧
    ((candidateVisit sq acosF T size centerpoints x e1 maxD a b c st).2 = true →
      (candidateVisit sq acosF T size centerpoints x e1 maxD a b c st).1.invalid = true) ∧
    Handled sq size centerpoints x maxD a b c
      (candidateVisit sq acosF T size centerpoints x e1 maxD a b c st).1 := by
  unfold candidateVisit
  simp only
  split_ifs <;> refine ⟨⟨?_, ?_⟩, ?_, ?_⟩ <;>
    simp_all [Handled, nearCenterpoint]

theorem foldl_all {σ β : Type} (P : σ → Prop) (E : σ → σ → Prop) (G : β → σ → Prop)
    (hrefl : ∀ s, E s s) (htrans : ∀ s s1 s2, E s s1 → E s1 s2 → E s s2)
    (hG : ∀ j s s1, E s s1 → G j s → G j s1) (f : σ → β → σ) (l : List β)
    (hbody : ∀ i ∈ l, ∀ s, P s → P (f s i) ∧ E s (f s i) ∧ G i (f s i)) (s : σ) (h0 : P s) :
    P (l.foldl f s) ∧ E s (l.foldl f s) ∧ ∀ j ∈ l, G j (l.foldl f s) := by
  induction l generalizing s with
  | nil => exact ⟨h0, hrefl s, fun j hj => by simp at hj⟩
  | cons b l ih =>
    simp only [List.foldl_cons]
    obtain ⟨hp, he, hg⟩ := hbody b (List.mem_cons_self _ _) s h0
    obtain ⟨hp2, he2, hg2⟩ := ih (fun i hi s hs => hbody i (List.mem_cons_of_mem _ hi) s hs) _ hp
    refine ⟨hp2, htrans _ _ _ he he2, ?_⟩
    intro j hj
    rcases List.mem_cons.mp hj with rfl | hj
    · exact hG _ _ _ he2 hg
    · exact hg2 j hj

theorem forInt_all {σ : Type} (P : σ → Prop) (E : σ → σ → Prop) (G : Int → σ → Prop)
    (hrefl : ∀ s, E s s) (htrans : ∀ s s1 s2, E s s1 → E s1 s2 → E s s2)
    (hG : ∀ j s s1, E s s1 → G j s → G j s1) (lo hi : Int) (body : Int → σ → σ)
    (hbody : ∀ i, lo ≤ i → i < hi → ∀ s, P s → P (body i s) ∧ E s (body i s) ∧ G i (body i s))
    (s : σ) (h0 : P s) :
    P (forInt lo hi body s) ∧ E s (forInt lo hi body s) ∧
      ∀ j, lo ≤ j → j < hi → G j (forInt lo hi body s) := by
  unfold forInt
  obtain ⟨h1, h2, h3⟩ := foldl_all P E G hrefl htrans hG (fun acc i => body i acc)
    (intRange lo hi)
    (fun i hi s hs => hbody i ((mem_intRange _ _ _).mp hi).1 ((mem_intRange _ _ _).mp hi).2 s hs)
    s h0
  exact ⟨h1, h2, fun j hj1 hj2 => h3 j ((mem_intRange _ _ _).mpr ⟨hj1, hj2⟩)⟩

theorem candidateScanC_spec (sq acosF : ℚ → ℚ) (T : TubeSegmentation) (size : Int3)
    (centerpoints : Int → Int) (x : Int3) (e1 : Float3) (maxD : Int) (a b : Int)
    (st : CandidateScan) :
    ScanExt st (candidateScanC sq acosF T size centerpoints x e1 maxD a b st) ∧
    ∀ c, -maxD ≤ c → c < maxD + 1 → Handled sq size centerpoints x maxD a b c
      (candidateScanC sq acosF T size centerpoints x e1 maxD a b st) := by
  unfold candidateScanC
  obtain ⟨_, h2, h3⟩ := forInt_all
    (fun (acc : CandidateScan × Bool) => acc.2 = true → acc.1.invalid = true)
    (fun acc acc1 => ScanExt acc.1 acc1.1)
    (fun c acc => Handled sq size centerpoints x maxD a b c acc.1)
    (fun s => ScanExt.refl _) (fun _ _ _ h1 h2 => ScanExt.trans h1 h2)
    (fun j s s1 he hg => Handled.ext hg he) (-maxD) (maxD + 1)
    (fun c (acc : CandidateScan × Bool) =>
      if acc.2 then acc
      else candidateVisit sq acosF T size centerpoints x e1 maxD a b c acc.1)
    (by
      intro c _ _ acc hacc
      by_cases hbrk : acc.2 = true
      · simp only [hbrk, if_true]
        refine ⟨fun _ => hacc hbrk, ScanExt.refl _, ?_⟩
        intro hinv
        rw [hacc hbrk] at hinv
        exact absurd hinv (by simp)
      · simp only [hbrk, if_false]
        obtain ⟨h1, h2, h3⟩ := candidateVisit_spec sq acosF T size centerpoints x e1 maxD a b c
          acc.1
        exact ⟨h2, h1, h3⟩)
    (st, false) (by simp)
  exact ⟨h2, h3⟩

/-- The locals of the candidate pass for `x` after the three window loops. -/
theorem candidateScan_spec (sq acosF : ℚ → ℚ) (T : TubeSegmentation) (size : Int3)
    (centerpoints : Int → Int) (x : Int3) (e1 : Float3) (maxD : Int) (st : CandidateScan) :
    ∀ a, -maxD ≤ a → a < maxD + 1 → ∀ b, -maxD ≤ b → b < maxD + 1 →
      ∀ c, -maxD ≤ c → c < maxD + 1 → Handled sq size centerpoints x maxD a b c
        (forInt (-maxD) (maxD + 1) (fun a st =>
          forInt (-maxD) (maxD + 1) (fun b st =>
            candidateScanC sq acosF T size centerpoints x e1 maxD a b st) st) st) := by
  have hb : ∀ a (s : CandidateScan),
      ScanExt s (forInt (-maxD) (maxD + 1) (fun b st =>
        candidateScanC sq acosF T size centerpoints x e1 maxD a b st) s) ∧
      ∀ b, -maxD ≤ b → b < maxD + 1 → ∀ c, -maxD ≤ c → c < maxD + 1 →
        Handled sq size centerpoints x maxD a b c
          (forInt (-maxD) (maxD + 1) (fun b st =>
            candidateScanC sq acosF T size centerpoints x e1 maxD a b st) s) := by
    intro a s
    obtain ⟨_, h2, h3⟩ := forInt_all (fun (_ : CandidateScan) => True) ScanExt
      (fun b s => ∀ c, -maxD ≤ c → c < maxD + 1 → Handled sq size centerpoints x maxD a b c s)
      ScanExt.refl (fun _ _ _ h1 h2 => ScanExt.trans h1 h2)
      (fun j s s1 he hg c hc1 hc2 => Handled.ext (hg c hc1 hc2) he) (-maxD) (maxD + 1)
      (fun b st => candidateScanC sq acosF T size centerpoints x e1 maxD a b st)
      (fun b _ _ s _ =>
        ⟨trivial, (candidateScanC_spec sq acosF T size centerpoints x e1 maxD a b s).1,
          (candidateScanC_spec sq acosF T size centerpoints x e1 maxD a b s).2⟩)
      s trivial
    exact ⟨h2, h3⟩
  obtain ⟨_, _, h3⟩ := forInt_all (fun (_ : CandidateScan) => True) ScanExt
    (fun a s => ∀ b, -maxD ≤ b → b < maxD + 1 → ∀ c, -maxD ≤ c → c < maxD + 1 →
      Handled sq size centerpoints x maxD a b c s)
    ScanExt.refl (fun _ _ _ h1 h2 => ScanExt.trans h1 h2)
    (fun j s s1 he hg b hb1 hb2 c hc1 hc2 => Handled.ext (hg b hb1 hb2 c hc1 hc2) he)
    (-maxD) (maxD + 1)
    (fun a st => forInt (-maxD) (maxD + 1) (fun b st =>
      candidateScanC sq acosF T size centerpoints x e1 maxD a b st) st)
    (fun a _ _ s _ => ⟨trivial, (hb a s).1, (hb a s).2⟩)
    st trivial
  exact h3

theorem POS_injective (size p q : Int3) (hpx : 0 ≤ p.x ∧ p.x < size.x)
    (hpy : 0 ≤ p.y ∧ p.y < size.y) (hqx : 0 ≤ q.x ∧ q.x < size.x)
    (hqy : 0 ≤ q.y ∧ q.y < size.y) (h : POS size p = POS size q) : p = q := by
  unfold POS at h
  have hx : p.x = q.x := by
    have hd : size.x ∣ p.x - q.x :=
      ⟨(q.y - p.y) + (q.z - p.z) * size.y, by linear_combination h⟩
    have := Int.eq_zero_of_abs_lt_dvd hd (by rw [abs_lt]; constructor <;> omega)
    omega
  have hsx : (0 : Int) < size.x := by omega
  have hy : p.y = q.y := by
    have e : size.x * (p.y - q.y) = size.x * ((q.z - p.z) * size.y) := by
      linear_combination h - hx
    have e2 := mul_left_cancel₀ (ne_of_gt hsx) e
    have hd : size.y ∣ p.y - q.y := ⟨q.z - p.z, by linear_combination e2⟩
    have := Int.eq_zero_of_abs_lt_dvd hd (by rw [abs_lt]; constructor <;> omega)
    omega
  have hsy : (0 : Int) < size.y := by omega
  have hz : p.z = q.z := by
    have e : (size.x * size.y) * (p.z - q.z) = (size.x * size.y) * 0 := by
      rw [hx, hy] at h
      linear_combination h
    have e2 := mul_left_cancel₀ (ne_of_gt (mul_pos hsx hsy)) e
    omega
  cases p
  cases q
  simp only [Int3.mk.injEq]
  exact ⟨hx, hy, hz⟩

theorem foldl_clear_mem (size : Int3) (l : List Int3) (base : Int → Int) (n : Int3)
    (h : n ∈ l) :
    (l.foldl (fun cp n => setAt cp (POS size n) 0) base) (POS size n) = 0 := by
  induction l using List.reverseRecOn with
  | nil => simp at h
  | append_singleton l m ih =>
    rw [List.foldl_append]
    simp only [List.foldl_cons, List.foldl_nil, setAt]
    split_ifs with he
    · rfl
    · rcases List.mem_append.mp h with h | h
      · exact ih h
      · simp only [List.mem_singleton] at h
        rw [h] at he
        exact absurd rfl he

theorem foldl_clear_val (size : Int3) (l : List Int3) (base : Int → Int) (i : Int) :
    (l.foldl (fun cp n => setAt cp (POS size n) 0) base) i = 0 ∨
      (l.foldl (fun cp n => setAt cp (POS size n) 0) base) i = base i := by
  induction l using List.reverseRecOn with
  | nil => exact Or.inr rfl
  | append_singleton l m ih =>
    rw [List.foldl_append]
    simp only [List.foldl_cons, List.foldl_nil, setAt]
    split_ifs with he
    · exact Or.inl rfl
    · exact ih

theorem roundF_max_ge (r : ℚ) : 3 ≤ roundF (max r 3) := by
  have h3 : (3 : ℚ) ≤ max r 3 := le_max_right _ _
  unfold roundF
  rw [if_neg (by linarith)]
  apply Int.le_floor.mpr
  push_cast
  linarith

/-- The pass for one candidate `x`: either the array `centerpoints` is left as
it is (the candidate is rejected), or `x` is marked, nothing else is marked,
and every near centerpoint of the window is cleared. -/
theorem processCandidate_spec (sq acosF : ℚ → ℚ) (fuelE : Nat) (T : TubeSegmentation)
    (size : Int3) (centerpoints cp1 : Int → Int) (x : Int3)
    (h : processCandidate sq acosF fuelE T size centerpoints x = some cp1) :
    cp1 = centerpoints ∨
    ((∀ i, cp1 i = 0 ∨ cp1 i = setAt centerpoints (POS size x) 1 i) ∧
      ∀ a, -roundF (max (T.radius (POS size x)) 3) ≤ a →
        a < roundF (max (T.radius (POS size x)) 3) + 1 →
      ∀ b, -roundF (max (T.radius (POS size x)) 3) ≤ b →
        b < roundF (max (T.radius (POS size x)) 3) + 1 →
      ∀ c, -roundF (max (T.radius (POS size x)) 3) ≤ c →
        c < roundF (max (T.radius (POS size x)) 3) + 1 →
        nearCenterpoint sq size centerpoints x (roundF (max (T.radius (POS size x)) 3)) a b c →
          cp1 (POS size { x := x.x + a, y := x.y + b, z := x.z + c }) = 0) := by
  unfold processCandidate at h
  rw [Option.map_eq_some'] at h
  obtain ⟨e1, _, hcp⟩ := h
  simp only at hcp
  split_ifs at hcp with hinv
  · exact Or.inl hcp.symm
  · right
    subst hcp
    refine ⟨fun i => foldl_clear_val size _ _ i, ?_⟩
    intro a ha1 ha2 b hb1 hb2 c hc1 hc2 hnear
    apply foldl_clear_mem
    exact candidateScan_spec sq acosF T size centerpoints x e1 _ _ a ha1 ha2 b hb1 hb2 c hc1 hc2
      (by simpa using hinv) hnear

theorem inBounds_iff (p size : Int3) :
    inBounds p size = true ↔
      0 < p.x ∧ 0 < p.y ∧ 0 < p.z ∧ p.x < size.x ∧ p.y < size.y ∧ p.z < size.z := by
  unfold inBounds
  simp only [decide_eq_true_eq, gt_iff_lt]

theorem near_of_adjacent (sq : ℚ → ℚ) (hsq1 : sq 1 < 3 / 2) (hsq2 : sq 2 < 3 / 2)
    (size : Int3) (centerpoints : Int → Int) (x q : Int3) (maxD : Int) (hD : 3 ≤ maxD)
    (hq : inBounds q size = true) (hqx : q ≠ x) (hcq : centerpoints (POS size q) = 1)
    (hlt : (q.x - x.x) ^ 2 + (q.y - x.y) ^ 2 + (q.z - x.z) ^ 2 < 3) :
    (-maxD ≤ q.x - x.x ∧ q.x - x.x < maxD + 1) ∧ (-maxD ≤ q.y - x.y ∧ q.y - x.y < maxD + 1) ∧
    (-maxD ≤ q.z - x.z ∧ q.z - x.z < maxD + 1) ∧
    ({ x := x.x + (q.x - x.x), y := x.y + (q.y - x.y), z := x.z + (q.z - x.z) } : Int3) = q ∧
    nearCenterpoint sq size centerpoints x maxD (q.x - x.x) (q.y - x.y) (q.z - x.z) := by
  have hq1 : ({ x := x.x + (q.x - x.x), y := x.y + (q.y - x.y), z := x.z + (q.z - x.z) } : Int3)
      = q := by
    cases q
    simp only [Int3.mk.injEq]
    refine ⟨?_, ?_, ?_⟩ <;> omega
  generalize ha : q.x - x.x = a at hlt hq1 ⊢
  generalize hb : q.y - x.y = b at hlt hq1 ⊢
  generalize hc : q.z - x.z = c at hlt hq1 ⊢
  have ha2 : -1 ≤ a ∧ a ≤ 1 := by constructor <;> nlinarith [sq_nonneg b, sq_nonneg c]
  have hb2 : -1 ≤ b ∧ b ≤ 1 := by constructor <;> nlinarith [sq_nonneg a, sq_nonneg c]
  have hc2 : -1 ≤ c ∧ c ≤ 1 := by constructor <;> nlinarith [sq_nonneg a, sq_nonneg b]
  have hnz : ¬ (a = 0 ∧ b = 0 ∧ c = 0) := by
    rintro ⟨h1, h2, h3⟩
    apply hqx
    cases q
    cases x
    simp only [Int3.mk.injEq]
    simp only at ha hb hc
    refine ⟨?_, ?_, ?_⟩ <;> omega
  have hsum : a * a + b * b + c * c = 1 ∨ a * a + b * b + c * c = 2 := by
    have h1 : 1 ≤ a * a + b * b + c * c := by
      by_contra hcon
      apply hnz
      refine ⟨?_, ?_, ?_⟩ <;> nlinarith [sq_nonneg a, sq_nonneg b, sq_nonneg c]
    have h2 : a * a + b * b + c * c < 3 := by nlinarith
    omega
  have hDq : (3 : ℚ) ≤ (maxD : ℚ) := by exact_mod_cast hD
  have hlen : sq ((((x.x + a - x.x : Int) : ℚ)) * (((x.x + a - x.x : Int) : ℚ)) +
      (((x.y + b - x.y : Int) : ℚ)) * (((x.y + b - x.y : Int) : ℚ)) +
      (((x.z + c - x.z : Int) : ℚ)) * (((x.z + c - x.z : Int) : ℚ))) < 3 / 2 := by
    have e : ((((x.x + a - x.x : Int) : ℚ)) * (((x.x + a - x.x : Int) : ℚ)) +
      (((x.y + b - x.y : Int) : ℚ)) * (((x.y + b - x.y : Int) : ℚ)) +
      (((x.z + c - x.z : Int) : ℚ)) * (((x.z + c - x.z : Int) : ℚ))) =
        ((a * a + b * b + c * c : Int) : ℚ) := by
      push_cast
      ring
    rw [e]
    rcases hsum with h | h <;> rw [h]
    · simpa using hsq1
    · simpa using hsq2
  refine ⟨⟨by omega, by omega⟩, ⟨by omega, by omega⟩, ⟨by omega, by omega⟩, hq1, ?_⟩
  unfold nearCenterpoint
  simp only
  rw [hq1]
  exact ⟨hq, hnz, hcq, by linarith, by linarith⟩

theorem processCandidate_spaced (sq acosF : ℚ → ℚ) (hsq1 : sq 1 < 3 / 2) (hsq2 : sq 2 < 3 / 2)
    (fuelE : Nat) (T : TubeSegmentation) (size : Int3) (centerpoints cp1 : Int → Int) (x : Int3)
    (hx : x ∈ gridScan size)
    (h : processCandidate sq acosF fuelE T size centerpoints x = some cp1)
    (hs : Spaced size centerpoints) : Spaced size cp1 := by
  rcases processCandidate_spec sq acosF fuelE T size centerpoints cp1 x h with rfl | ⟨hval, hclear⟩
  · exact hs
  rw [mem_gridScan] at hx
  have hold : ∀ q : Int3, inBounds q size = true → q ≠ x → cp1 (POS size q) = 1 →
      centerpoints (POS size q) = 1 := by
    intro q hq hqx hcq
    rw [inBounds_iff] at hq
    have hne : POS size q ≠ POS size x := fun he =>
      hqx (POS_injective size q x ⟨by omega, by omega⟩ ⟨by omega, by omega⟩
        ⟨by omega, by omega⟩ ⟨by omega, by omega⟩ he)
    rcases hval (POS size q) with h0 | h1
    · rw [h0] at hcq
      exact absurd hcq (by decide)
    · rw [h1] at hcq
      simpa [setAt, hne] using hcq
  have hfar : ∀ q : Int3, inBounds q size = true → q ≠ x → cp1 (POS size q) = 1 →
      3 ≤ (q.x - x.x) ^ 2 + (q.y - x.y) ^ 2 + (q.z - x.z) ^ 2 := by
    intro q hq hqx hcq
    by_contra hlt
    obtain ⟨ha, hb, hc, hq1, hnear⟩ := near_of_adjacent sq hsq1 hsq2 size centerpoints x q
      (roundF (max (T.radius (POS size x)) 3)) (roundF_max_ge _) hq hqx (hold q hq hqx hcq)
      (not_le.mp hlt)
    have h0 := hclear _ ha.1 ha.2 _ hb.1 hb.2 _ hc.1 hc.2 hnear
    rw [hq1, hcq] at h0
    exact absurd h0 (by decide)
  intro p q hp hq hpq hcp hcq
  by_cases hpx : p = x
  · by_cases hqx : q = x
    · exact absurd (hpx.trans hqx.symm) hpq
    · have := hfar q hq hqx hcq
      rw [hpx]
      nlinarith
  · by_cases hqx : q = x
    · have := hfar p hp hpx hcp
      rw [hqx]
      exact this
    · exact hs p q hp hq hpq (hold p hp hpx hcp) (hold q hq hqx hcq)

theorem selectCenterpoints_spaced (sq acosF : ℚ → ℚ) (hsq1 : sq 1 < 3 / 2)
    (hsq2 : sq 2 < 3 / 2) (fuelE : Nat) (T : TubeSegmentation) (size : Int3)
    (cands : List (ℚ × Int3)) (hc : ∀ cand ∈ cands, cand.2 ∈ gridScan size) :
    ∀ centerpoints cp1 : Int → Int,
      selectCenterpoints sq acosF fuelE T size cands centerpoints = some cp1 →
      Spaced size centerpoints → Spaced size cp1 := by
  induction cands with
  | nil =>
    intro cp cp1 h hs
    simp only [selectCenterpoints, Option.some.injEq] at h
    subst h
    exact hs
  | cons cand rest ih =>
    intro cp cp1 h hs
    simp only [selectCenterpoints, Option.bind_eq_some] at h
    obtain ⟨cp2, h2, h3⟩ := h
    exact ih (fun c hc2 => hc c (List.mem_cons_of_mem _ hc2)) cp2 cp1 h3
      (processCandidate_spaced sq acosF hsq1 hsq2 fuelE T size cp cp2 cand.2
        (hc cand (List.mem_cons_self _ _)) h2 hs)

theorem collectCandidates_grid (T : TubeSegmentation) (size : Int3) :
    ∀ cand ∈ collectCandidates T size, cand.2 ∈ gridScan size := by
  intro cand hc
  unfold collectCandidates at hc
  rw [List.mem_mergeSort, List.mem_map] at hc
  obtain ⟨n, hn, rfl⟩ := hc
  exact (List.mem_filter.mp hn).1

/-- C29: with a square root that gives `sqrt 1` and `sqrt 2` below `1.5`, after
the candidate loop of `runNewCenterlineAlg` two different marked voxels with
all coordinates at least 1 (the voxels `inBounds` accepts) have a squared
distance of at least 3; one pass of the loop either leaves `centerpoints` as it
is, or clears every marked voxel of the window that `inBounds` accepts and that
is closer to the candidate than `maxD` and than `maxD/2`; and `maxD/2` is at
least `1.5`. -/
theorem centerpoints_spaced (sq acosF : ℚ → ℚ) (fuelE : Nat) (T : TubeSegmentation)
    (size : Int3) (hsq1 : sq 1 < 3 / 2) (hsq2 : sq 2 < 3 / 2) (cp : Int → Int)
    (h : selectCenterpoints sq acosF fuelE T size (collectCandidates T size) (fun _ => 0)
      = some cp) :
    (∀ p q : Int3, inBounds p size = true → inBounds q size = true → p ≠ q →
      cp (POS size p) = 1 → cp (POS size q) = 1 →
      3 ≤ (p.x - q.x) ^ 2 + (p.y - q.y) ^ 2 + (p.z - q.z) ^ 2) ∧
    (∀ (cp0 cp1 : Int → Int) (x : Int3),
      processCandidate sq acosF fuelE T size cp0 x = some cp1 →
      cp1 = cp0 ∨
      ∀ a, -roundF (max (T.radius (POS size x)) 3) ≤ a →
        a < roundF (max (T.radius (POS size x)) 3) + 1 →
      ∀ b, -roundF (max (T.radius (POS size x)) 3) ≤ b →
        b < roundF (max (T.radius (POS size x)) 3) + 1 →
      ∀ c, -roundF (max (T.radius (POS size x)) 3) ≤ c →
        c < roundF (max (T.radius (POS size x)) 3) + 1 →
        nearCenterpoint sq size cp0 x (roundF (max (T.radius (POS size x)) 3)) a b c →
          cp1 (POS size { x := x.x + a, y := x.y + b, z := x.z + c }) = 0) ∧
    ∀ r : ℚ, (3 : ℚ) / 2 ≤ (roundF (max r 3) : ℚ) * (1 / 2) := by
  refine ⟨?_, ?_, ?_⟩
  · exact selectCenterpoints_spaced sq acosF hsq1 hsq2 fuelE T size _
      (collectCandidates_grid T size) _ cp h
      (fun p q _ _ _ hp _ => absurd hp (by decide))
  · intro cp0 cp1 x hx
    rcases processCandidate_spec sq acosF fuelE T size cp0 cp1 x hx with h1 | ⟨_, h2⟩
    · exact Or.inl h1
    · exact Or.inr h2
  · intro r
    have h3 : (3 : ℚ) ≤ (roundF (max r 3) : ℚ) := by exact_mod_cast roundF_max_ge r
    linarith

theorem centerpoints_spaced_witness :
    sqrtQ 1 < 3 / 2 ∧ sqrtQ 2 < 3 / 2 ∧
    selectCenterpoints sqrtQ acosQ 1 gapTube gapSize (collectCandidates gapTube gapSize)
      (fun _ => 0) = some gapCenterpoints ∧
    gapCenterpoints (POS gapSize ⟨2, 2, 2⟩) = 1 ∧ gapCenterpoints (POS gapSize ⟨4, 2, 2⟩) = 1 ∧
    (3 : Int) ≤ (2 - 4) ^ 2 + (2 - 2) ^ 2 + (2 - 2) ^ 2 :=
  have h1 : sqrtQ 1 < 3 / 2 := by decide!
  have h2 : sqrtQ 2 < 3 / 2 := by decide!
  have hp : gapCenterpoints (POS gapSize ⟨2, 2, 2⟩) = 1 := by decide!
  have hq : gapCenterpoints (POS gapSize ⟨4, 2, 2⟩) = 1 := by decide!
  ⟨h1, h2, gapSelect, hp, hq,
    (centerpoints_spaced sqrtQ acosQ 1 gapTube gapSize h1 h2 gapCenterpoints gapSelect).1
      ⟨2, 2, 2⟩ ⟨4, 2, 2⟩ (by decide) (by decide) (by decide) hp hq⟩

/-! ## Connectivity of the voxels of one label -/

theorem mem_block27 (p q : Int3) (h : adjacent26 p q) : q ∈ block27 p := by
  obtain ⟨_, hx, hy, hz⟩ := h
  rw [abs_le] at hx hy hz
  unfold block27
  simp only [List.mem_flatMap, List.mem_map, mem_intRange]
  refine ⟨q.x - p.x, ⟨by omega, by omega⟩, q.y - p.y, ⟨by omega, by omega⟩, q.z - p.z,
    ⟨by omega, by omega⟩, ?_⟩
  cases q
  simp only [Int3.mk.injEq]
  refine ⟨?_, ?_, ?_⟩ <;> omega

theorem isolated_no_chain (size : Int3) (centerlines : Int → Int) (label : Int) (p q : Int3)
    (hiso : ∀ r, adjacent26 p r → ¬ hasLabel size centerlines label r) (hne : p ≠ q) :
    ¬ LabelChain size centerlines label p q := by
  intro h
  rcases Relation.ReflTransGen.cases_head h with h1 | ⟨r, ⟨hadj, hlab⟩, _⟩
  · exact hne h1
  · exact hiso r hadj hlab

/-- The queue of the cross volume: the seeds `(11,6,3)`, `(7,5,3)` and
`(7,3,3)`, in this order. -/
theorem crossQueue : popOrder (collectSeeds crossTube bendSize) =
    [crossSeed 11 6, crossSeed 7 5, crossSeed 7 3] := by decide!

theorem crossState_reached (n : Nat) (h2 : 2 ≤ n) (h3 : n ≤ 3) :
    ridgeLoop sqrtQ 1 30 (writeSentinel crossTube) bendSize
      ((popOrder (collectSeeds crossTube bendSize)).take n) initialRidgeState
      = some (crossState n) := by
  apply some_getD_of_isSome
  interval_cases n <;> decide!

theorem crossLabels :
    labelsAt bendSize (crossState 2).centerlines legVoxels = [2, 2, 2, 2, 2, 2, 2] ∧
    labelsAt bendSize (crossState 3).centerlines legVoxels = [2, 3, 2, 2, 2, 2, 2] ∧
    ((block27 ⟨7, 2, 3⟩).filter
      (fun r => decide ((crossState 3).centerlines (POS bendSize r) = 2))) = [⟨7, 2, 3⟩] := by
  decide!

/-- C23: on the cross volume, after the second seed iteration the label 2 is
carried by the seven voxels `(7,2,3)` to `(7,8,3)`.  The third seed `(7,3,3)`
carries the label 2 when it is popped, is not skipped, and its walk is accepted
as tree 3; after this seed iteration the voxel `(7,3,3)` carries the label 3,
the voxels `(7,2,3)` and `(7,4,3)` still carry the label 2, no 26-neighbour of
`(7,2,3)` carries the label 2, and the set of voxels with the label 2 is not
26-connected. -/
theorem label_set_disconnected :
    ridgeLoop sqrtQ 1 30 (writeSentinel crossTube) bendSize
      (popOrder (collectSeeds crossTube bendSize)) initialRidgeState = some (crossState 3) ∧
    seedIteration sqrtQ 1 30 (writeSentinel crossTube) bendSize (crossState 2) (crossSeed 7 3)
      = some (crossState 3) ∧
    labelsAt bendSize (crossState 2).centerlines legVoxels = [2, 2, 2, 2, 2, 2, 2] ∧
    labelsAt bendSize (crossState 3).centerlines legVoxels = [2, 3, 2, 2, 2, 2, 2] ∧
    (∀ r, adjacent26 ⟨7, 2, 3⟩ r → (crossState 3).centerlines (POS bendSize r) ≠ 2) ∧
    ¬ Connected26 bendSize (crossState 3).centerlines 2 := by
  obtain ⟨hl2, hl3, hblock⟩ := crossLabels
  have h2 := crossState_reached 2 (by decide) (by decide)
  have h3 := crossState_reached 3 (by decide) (by decide)
  have hrun : ridgeLoop sqrtQ 1 30 (writeSentinel crossTube) bendSize
      (popOrder (collectSeeds crossTube bendSize)) initialRidgeState = some (crossState 3) := by
    have e : (popOrder (collectSeeds crossTube bendSize)).take 3 =
        popOrder (collectSeeds crossTube bendSize) := by
      rw [crossQueue]
      rfl
    rw [e] at h3
    exact h3
  have hstep : seedIteration sqrtQ 1 30 (writeSentinel crossTube) bendSize (crossState 2)
      (crossSeed 7 3) = some (crossState 3) := by
    rw [crossQueue] at h2 h3
    simp only [List.take, ridgeLoop, Option.bind_eq_some] at h2 h3
    obtain ⟨s1, ha, s2, hb, hc⟩ := h2
    obtain ⟨t1, ha3, t2, hb3, t3, hc3, hd3⟩ := h3
    rw [ha] at ha3
    cases ha3
    rw [hb] at hb3
    cases hb3
    cases hc
    cases hd3
    exact hc3
  have hiso : ∀ r, adjacent26 ⟨7, 2, 3⟩ r →
      (crossState 3).centerlines (POS bendSize r) ≠ 2 := by
    intro r hadj hlab
    have hmem : r ∈ (block27 ⟨7, 2, 3⟩).filter
        (fun r => decide ((crossState 3).centerlines (POS bendSize r) = 2)) :=
      List.mem_filter.mpr ⟨mem_block27 _ _ hadj, by simpa using hlab⟩
    rw [hblock, List.mem_singleton] at hmem
    exact hadj.1 hmem.symm
  refine ⟨hrun, hstep, hl2, hl3, hiso, ?_⟩
  intro hconn
  have hp : hasLabel bendSize (crossState 3).centerlines 2 ⟨7, 2, 3⟩ := by
    refine ⟨by decide, ?_⟩
    have := congrArg (fun l => l.getD 0 0) hl3
    simpa [labelsAt, legVoxels] using this
  have hq : hasLabel bendSize (crossState 3).centerlines 2 ⟨7, 4, 3⟩ := by
    refine ⟨by decide, ?_⟩
    have := congrArg (fun l => l.getD 2 0) hl3
    simpa [labelsAt, legVoxels] using this
  exact isolated_no_chain bendSize (crossState 3).centerlines 2 ⟨7, 2, 3⟩ ⟨7, 4, 3⟩
    (fun r hadj hlab => hiso r hadj hlab.2) (by decide) (hconn _ _ hp hq)

end TubeSeg
